import Mathlib

/-!
# promaggr: merge, label overlay, conversion and refresh

A shallow embedding of the Go package `promaggr` (`merge.go`, `label.go`,
`convert.go`, `aggregator.go`) and theorems about it.

Modelling conventions.

* A protobuf message (`dto.MetricFamily`, `dto.Metric`, `dto.LabelPair`, ...) is
  modelled by its contents. An optional scalar field (`*string`, `*float64`,
  `*uint64`) is an `Option`; the generated getters (`GetName`, `GetValue`, ...)
  return the zero value for an unset field. Slices hold non-nil elements and no
  object is shared between two places of an input, so an update in place of an
  object is the update of the one value that stands for it. A function that
  updates its arguments in place returns them as they are after the call
  (`AddLabels`, a `MergeOption`); `MergeMetricFamily`, which also extends in
  place the first family of each name, is given by its result, and every call
  is read on the values that its inputs have when it is made.
* A Go map is the list of its entries with pairwise different keys. Go ranges
  over a map in an unspecified order; the list order stands for one such order
  and the theorems are stated through membership and lookup, or are shown not
  to depend on that order.
* `float64` values are only copied and compared, never computed with; a value is
  modelled by its IEEE 754 bit pattern.
* The client library (`prometheus.NewDesc`, `prometheus.MustNewConstMetric`,
  ...) is modelled with the checks it makes: `NewDesc` records an error for a
  name that is not valid or a label name that occurs twice, and the `Must`
  constructors panic on a descriptor with an error and on a number of label
  values that is not the number of label names of the descriptor. Names are
  judged by the rule of the library of the time of the repository (letters,
  digits, `_`, and `:` in metric names); a string of the model is valid UTF-8,
  which is all the library asks of a label value. A sample is the record of
  what its constructor was given.
* A Go panic is the error of an `Except`.
* `Describe` and `Collect` are given twice: as functions of the state of the
  collector, one call after the other, and, for what concerns schedules, by a
  step relation over the goroutines of `rsyncCache`, one step per statement,
  where a send on an unbuffered channel and its receive are one step.
-/

set_option linter.dupNamespace false

namespace Promaggr

/-! ## Go maps and sorting -/

/-- Go map assignment `m[k] = v` on the entry list: the entry of key `k` is
overwritten in place, a new key is added. -/
def mapAssign {κ ν : Type} [DecidableEq κ] : List (κ × ν) → κ → ν → List (κ × ν)
  | [], k, v => [(k, v)]
  | (k', v') :: rest, k, v =>
    if k' = k then (k, v) :: rest else (k', v') :: mapAssign rest k v

/-- Go map lookup `v, ok := m[k]`. -/
def mapGet? {κ ν : Type} [DecidableEq κ] : List (κ × ν) → κ → Option ν
  | [], _ => none
  | (k', v') :: rest, k => if k' = k then some v' else mapGet? rest k

/-- Go comparison `a < b` of two strings (lexicographic; comparing code points
and comparing UTF-8 bytes order strings alike). -/
def strLess (a b : String) : Bool := decide (a.data < b.data)

/-- Go `sort.Slice(x, less)`: a sorted rearrangement of `x`, here by insertion. -/
def sortSlice {α : Type} (less : α → α → Bool) (x : List α) : List α :=
  x.insertionSort (fun a b => less b a = false)

/-- Go `sort.Strings(x)`. -/
def sortStrings (x : List String) : List String :=
  sortSlice strLess x

/-! ## The data model (`client_model/go`, package `dto`) -/

/-- A Go `float64`, given by its IEEE 754 bit pattern (read modulo `2^64`). -/
structure Float64 where
  bits : Nat
deriving DecidableEq, Repr

namespace Float64

/-- The zero value of `float64`. -/
def zero : Float64 := ⟨0⟩

/-- All exponent bits set and a mantissa that is not zero. -/
def isNaN (x : Float64) : Bool := decide (0x7FF0000000000000 < x.bits % 2 ^ 63)

/-- Either `+0` or `-0`. -/
def isZero (x : Float64) : Bool := decide (x.bits % 2 ^ 63 = 0)

/-- Go `x == y` on `float64`: a NaN equals nothing, `+0 == -0`. -/
def eq (x y : Float64) : Bool :=
  !x.isNaN && !y.isNaN &&
    (decide (x.bits % 2 ^ 64 = y.bits % 2 ^ 64) || (x.isZero && y.isZero))

end Float64

/-- Go map assignment `m[k] = v` for a map keyed by `float64`: keys are compared
with `==`, and the key of an overwritten entry is updated too. -/
def floatMapAssign {ν : Type} : List (Float64 × ν) → Float64 → ν → List (Float64 × ν)
  | [], k, v => [(k, v)]
  | (k', v') :: rest, k, v =>
    if Float64.eq k' k then (k, v) :: rest else (k', v') :: floatMapAssign rest k v

/-- Go map lookup `v, ok := m[k]` for a map keyed by `float64`. -/
def floatMapGet? {ν : Type} : List (Float64 × ν) → Float64 → Option ν
  | [], _ => none
  | (k', v') :: rest, k => if Float64.eq k' k then some v' else floatMapGet? rest k

namespace dto

/-- The enumeration `dto.MetricType` (an `int32`). -/
structure MetricType where
  code : Int
deriving DecidableEq, Repr

def MetricType_COUNTER : MetricType := ⟨0⟩

def MetricType_GAUGE : MetricType := ⟨1⟩

def MetricType_SUMMARY : MetricType := ⟨2⟩

def MetricType_UNTYPED : MetricType := ⟨3⟩

def MetricType_HISTOGRAM : MetricType := ⟨4⟩

structure LabelPair where
  Name : Option String
  Value : Option String
deriving DecidableEq, Repr

def LabelPair.GetName (l : LabelPair) : String := l.Name.getD ""

def LabelPair.GetValue (l : LabelPair) : String := l.Value.getD ""

structure Gauge where
  Value : Option Float64
deriving DecidableEq, Repr

structure Counter where
  Value : Option Float64
deriving DecidableEq, Repr

structure Untyped where
  Value : Option Float64
deriving DecidableEq, Repr

structure Quantile where
  Quantile : Option Float64
  Value : Option Float64
deriving DecidableEq, Repr

structure Summary where
  SampleCount : Option Nat
  SampleSum : Option Float64
  Quantile : List Quantile
deriving DecidableEq, Repr

structure Bucket where
  CumulativeCount : Option Nat
  UpperBound : Option Float64
deriving DecidableEq, Repr

structure Histogram where
  SampleCount : Option Nat
  SampleSum : Option Float64
  Bucket : List Bucket
deriving DecidableEq, Repr

/-- One series: `dto.Metric`. The payload fields are pointers, `none` when nil. -/
structure Metric where
  Label : List LabelPair
  Gauge : Option Gauge
  Counter : Option Counter
  Summary : Option Summary
  Untyped : Option Untyped
  Histogram : Option Histogram
  TimestampMs : Option Int
deriving DecidableEq, Repr

structure MetricFamily where
  Name : Option String
  Help : Option String
  Type_ : Option MetricType
  Metric : List Metric
deriving DecidableEq, Repr

/-- The getter `(*Gauge).GetValue`, nil-safe. -/
def Gauge.GetValue (g : Option Gauge) : Float64 :=
  match g with
  | some x => x.Value.getD Float64.zero
  | none => Float64.zero

/-- The getter `(*Counter).GetValue`, nil-safe. -/
def Counter.GetValue (c : Option Counter) : Float64 :=
  match c with
  | some x => x.Value.getD Float64.zero
  | none => Float64.zero

/-- The getter `(*Untyped).GetValue`, nil-safe. -/
def Untyped.GetValue (u : Option Untyped) : Float64 :=
  match u with
  | some x => x.Value.getD Float64.zero
  | none => Float64.zero

def Quantile.GetQuantile (q : dto.Quantile) : Float64 := q.Quantile.getD Float64.zero

def Quantile.GetValue (q : dto.Quantile) : Float64 := q.Value.getD Float64.zero

def Summary.GetSampleCount (s : Option Summary) : Nat :=
  match s with
  | some x => x.SampleCount.getD 0
  | none => 0

def Summary.GetSampleSum (s : Option Summary) : Float64 :=
  match s with
  | some x => x.SampleSum.getD Float64.zero
  | none => Float64.zero

def Summary.GetQuantile (s : Option Summary) : List dto.Quantile :=
  match s with
  | some x => x.Quantile
  | none => []

def Bucket.GetCumulativeCount (b : Bucket) : Nat := b.CumulativeCount.getD 0

def Bucket.GetUpperBound (b : Bucket) : Float64 := b.UpperBound.getD Float64.zero

def Histogram.GetSampleCount (h : Option Histogram) : Nat :=
  match h with
  | some x => x.SampleCount.getD 0
  | none => 0

def Histogram.GetSampleSum (h : Option Histogram) : Float64 :=
  match h with
  | some x => x.SampleSum.getD Float64.zero
  | none => Float64.zero

def Histogram.GetBucket (h : Option Histogram) : List dto.Bucket :=
  match h with
  | some x => x.Bucket
  | none => []

def Metric.GetLabel (m : Metric) : List LabelPair := m.Label

def MetricFamily.GetName (f : MetricFamily) : String := f.Name.getD ""

def MetricFamily.GetHelp (f : MetricFamily) : String := f.Help.getD ""

/-- The getter `GetType`: an unset type reads as the zero value, `COUNTER`. -/
def MetricFamily.GetType (f : MetricFamily) : MetricType := f.Type_.getD MetricType_COUNTER

def MetricFamily.GetMetric (f : MetricFamily) : List dto.Metric := f.Metric

end dto

/-! ## Label sets (`prometheus/common/model`) -/

namespace model

/-- A `model.LabelSet`, the Go map `map[LabelName]LabelValue`: its entries, the
names pairwise different. -/
structure LabelSet where
  entries : List (String × String)
  nodup : (entries.map Prod.fst).Nodup

namespace LabelSet

/-- The empty map, `make(model.LabelSet)`. -/
def make : LabelSet := ⟨[], List.nodup_nil⟩

/-- The map literal with one entry, `model.LabelSet{name: value}`. -/
def single (name value : String) : LabelSet := ⟨[(name, value)], by simp⟩

/-- The assignment `s[name] = value`. -/
def set (s : LabelSet) (name value : String) : LabelSet :=
  ⟨mapAssign s.entries name value, by
    have key : ∀ l : List (String × String), (l.map Prod.fst).Nodup →
        ∀ x, x ∈ (mapAssign l name value).map Prod.fst → x = name ∨ x ∈ l.map Prod.fst := by
      intro l
      induction l with
      | nil => intro _ x hx; simpa [mapAssign] using hx
      | cons p rest ih =>
        intro hnd x hx
        rw [List.map_cons, List.nodup_cons] at hnd
        by_cases hk : p.1 = name
        · simp only [mapAssign, hk, if_true, List.map_cons, List.mem_cons] at hx
          rcases hx with hx | hx
          · exact Or.inl hx
          · exact Or.inr (List.mem_cons_of_mem _ hx)
        · simp only [mapAssign, hk, if_false, List.map_cons, List.mem_cons] at hx
          rcases hx with hx | hx
          · exact Or.inr (by rw [hx]; exact List.mem_cons_self _ _)
          · rcases ih hnd.2 x hx with h | h
            · exact Or.inl h
            · exact Or.inr (List.mem_cons_of_mem _ h)
    have nd : ∀ l : List (String × String), (l.map Prod.fst).Nodup →
        ((mapAssign l name value).map Prod.fst).Nodup := by
      intro l
      induction l with
      | nil => intro _; simp [mapAssign]
      | cons p rest ih =>
        intro hnd
        have hnd2 := hnd
        rw [List.map_cons, List.nodup_cons] at hnd2
        by_cases hk : p.1 = name
        · simp only [mapAssign, hk, if_true, List.map_cons, List.nodup_cons]
          exact ⟨hk ▸ hnd2.1, hnd2.2⟩
        · simp only [mapAssign, hk, if_false, List.map_cons, List.nodup_cons]
          refine ⟨fun hmem => ?_, ih hnd2.2⟩
          rcases key rest hnd2.2 _ hmem with h | h
          · exact hk h
          · exact hnd2.1 h
    exact nd _ s.nodup⟩

/-- The index expression `s[name]`: the value, or the empty string when the
name is absent. -/
def get (s : LabelSet) (name : String) : String := (mapGet? s.entries name).getD ""

/-- The library method `LabelSet.Merge`: a new map that holds the entries of `l`
and then those of `other`, so that on a common name the value of `other` stands. -/
def Merge (l other : LabelSet) : LabelSet :=
  other.entries.foldl (fun r kv => r.set kv.1 kv.2)
    (l.entries.foldl (fun r kv => r.set kv.1 kv.2) make)

end LabelSet

end model

/-! ## The client library (`client_golang/prometheus`) -/

namespace prometheus

/-- An error of the library: what `NewDesc` records in a descriptor, or what keeps a
constructor of a sample from returning one. -/
inductive Error where
  | invalidMetricName (name : String)
  | invalidLabelName (label : String)
  | duplicateLabelNames
  | inconsistentCardinality (expected got : Nat)
deriving DecidableEq, Repr

/-- The character rule of names: a letter or `_`, `:` where `colon` allows it, a digit
except in the first place. -/
def isNameChar (colon first : Bool) (c : Char) : Bool :=
  (decide (97 ≤ c.toNat) && decide (c.toNat ≤ 122)) ||
    (decide (65 ≤ c.toNat) && decide (c.toNat ≤ 90)) ||
    decide (c.toNat = 95) || (colon && decide (c.toNat = 58)) ||
    (decide (48 ≤ c.toNat) && decide (c.toNat ≤ 57) && !first)

/-- Every character of the name passes `isNameChar`; `first` tells whether the next
character is the first of the name. -/
def validNameChars (colon : Bool) : Bool → List Char → Bool
  | _, [] => true
  | first, c :: rest => isNameChar colon first c && validNameChars colon false rest

/-- The library's `model.IsValidMetricName`: not empty, letters, digits, `_` and `:`, no
digit first. -/
def IsValidMetricName (n : String) : Bool :=
  !n.data.isEmpty && validNameChars true true n.data

/-- The library's `LabelName.IsValid`: not empty, letters, digits and `_`, no digit
first. -/
def IsValidLabelName (n : String) : Bool :=
  !n.data.isEmpty && validNameChars false true n.data

/-- The library's `checkLabelName`: a valid label name that does not start with `__`. -/
def checkLabelName (l : String) : Bool :=
  IsValidLabelName l && !("__".data.isPrefixOf l.data)

/-- A descriptor: what `NewDesc` is given, and the error it records, if any. -/
structure Desc where
  fqName : String
  help : String
  variableLabels : List String
  constLabels : List (String × String)
  err : Option Error
deriving DecidableEq, Repr

/-- The library's `NewDesc`. It never panics: when the metric name or a label name is not
valid, or a label name occurs twice, it records the error in the descriptor and returns
it. For the test of a name that occurs twice it marks the variable label names with
`$`. -/
def NewDesc (fqName help : String) (variableLabels : List String)
    (constLabels : List (String × String)) : Desc :=
  let err : Option Error :=
    if !IsValidMetricName fqName then some (Error.invalidMetricName fqName)
    else
      match (constLabels.map Prod.fst).find? (fun l => !checkLabelName l) with
      | some l => some (Error.invalidLabelName l)
      | none =>
        match variableLabels.find? (fun l => !checkLabelName l) with
        | some l => some (Error.invalidLabelName l)
        | none =>
          if (constLabels.map Prod.fst ++ variableLabels.map (fun l => "$" ++ l)).Nodup then
            none
          else some Error.duplicateLabelNames
  ⟨fqName, help, variableLabels, constLabels, err⟩

inductive ValueType where
  | CounterValue
  | GaugeValue
  | UntypedValue
deriving DecidableEq, Repr

/-- A sample (`prometheus.Metric`), as the three constructors used here build it; the maps
are lists of entries. -/
inductive Metric where
  | constMetric (desc : Desc) (valueType : ValueType) (value : Float64)
      (labelValues : List String)
  | constSummary (desc : Desc) (count : Nat) (sum : Float64)
      (quantiles : List (Float64 × Float64)) (labelValues : List String)
  | constHistogram (desc : Desc) (count : Nat) (sum : Float64)
      (buckets : List (Float64 × Nat)) (labelValues : List String)
deriving DecidableEq, Repr

/-- The library's `validateLabelValues`: as many values as expected. Its second check, that
every value is valid UTF-8, holds of every string of this model. -/
def validateLabelValues (vals : List String) (expectedNumberOfValues : Nat) : Option Error :=
  if vals.length = expectedNumberOfValues then none
  else some (Error.inconsistentCardinality expectedNumberOfValues vals.length)

/-- The check that `NewConstMetric`, `NewConstSummary` and `NewConstHistogram` make before
they build a sample: the error of the descriptor, else that of the label values. -/
def checkSample (desc : Desc) (labelValues : List String) : Option Error :=
  match desc.err with
  | some err => some err
  | none => validateLabelValues labelValues desc.variableLabels.length

def NewConstMetric (desc : Desc) (valueType : ValueType) (value : Float64)
    (labelValues : List String) : Except Error Metric :=
  match checkSample desc labelValues with
  | some err => Except.error err
  | none => Except.ok (Metric.constMetric desc valueType value labelValues)

def NewConstSummary (desc : Desc) (count : Nat) (sum : Float64)
    (quantiles : List (Float64 × Float64)) (labelValues : List String) :
    Except Error Metric :=
  match checkSample desc labelValues with
  | some err => Except.error err
  | none => Except.ok (Metric.constSummary desc count sum quantiles labelValues)

def NewConstHistogram (desc : Desc) (count : Nat) (sum : Float64)
    (buckets : List (Float64 × Nat)) (labelValues : List String) : Except Error Metric :=
  match checkSample desc labelValues with
  | some err => Except.error err
  | none => Except.ok (Metric.constHistogram desc count sum buckets labelValues)

end prometheus

/-- A Go panic: of the runtime, with a message, or with an error of the library. -/
inductive Panic where
  | indexOutOfRange
  | message (text : String)
  | error (err : prometheus.Error)
deriving DecidableEq, Repr

namespace prometheus

/-- The pattern of the library's `Must` constructors: panic with the error, if any. -/
def must {α : Type} (result : Except Error α) : Except Panic α :=
  match result with
  | Except.error err => Except.error (Panic.error err)
  | Except.ok value => Except.ok value

def MustNewConstMetric (desc : Desc) (valueType : ValueType) (value : Float64)
    (labelValues : List String) : Except Panic Metric :=
  must (NewConstMetric desc valueType value labelValues)

def MustNewConstSummary (desc : Desc) (count : Nat) (sum : Float64)
    (quantiles : List (Float64 × Float64)) (labelValues : List String) :
    Except Panic Metric :=
  must (NewConstSummary desc count sum quantiles labelValues)

def MustNewConstHistogram (desc : Desc) (count : Nat) (sum : Float64)
    (buckets : List (Float64 × Nat)) (labelValues : List String) : Except Panic Metric :=
  must (NewConstHistogram desc count sum buckets labelValues)

end prometheus

/-! ## `label.go` -/

/-- The first loop of the body of `AddLabels`: the labels of a series as a map;
a pair whose `Name` is nil is skipped. -/
def sourceSet (labels : List dto.LabelPair) : model.LabelSet :=
  labels.foldl
    (fun s l =>
      match l.Name with
      | some _ => s.set l.GetName l.GetValue
      | none => s)
    model.LabelSet.make

/-- The body of the inner loop of `AddLabels`, for one series `m`. -/
def addLabelsMetric (labels : model.LabelSet) (m : dto.Metric) : dto.Metric :=
  let outputSet := (sourceSet m.GetLabel).Merge labels
  let outputPairs : List dto.LabelPair :=
    outputSet.entries.map (fun kv => ⟨some kv.1, some kv.2⟩)
  { m with Label := sortSlice (fun a b => strLess a.GetName b.GetName) outputPairs }

/-- The function `AddLabels`, which updates `mfs` in place: the value returned is `mfs`
after the call. -/
def AddLabels (mfs : List dto.MetricFamily) (labels : model.LabelSet) :
    List dto.MetricFamily :=
  mfs.map (fun mf => { mf with Metric := mf.Metric.map (addLabelsMetric labels) })

/-! ## `merge.go` -/

/-- A `MergeOption` may update both slices in place: it returns them as they
are after the call. -/
abbrev MergeOption :=
  List dto.MetricFamily → List dto.MetricFamily →
    List dto.MetricFamily × List dto.MetricFamily

/-- The body of the inner loop of `MergeMetricFamily`, for one family `mf`. -/
def mergeStep (mfSet : List (String × dto.MetricFamily)) (mf : dto.MetricFamily) :
    List (String × dto.MetricFamily) :=
  match mapGet? mfSet mf.GetName with
  | some cur => mapAssign mfSet mf.GetName { cur with Metric := cur.Metric ++ mf.GetMetric }
  | none => mapAssign mfSet mf.GetName mf

def MergeMetricFamily (mfs1 mfs2 : List dto.MetricFamily) (opts : List MergeOption) :
    List dto.MetricFamily :=
  let p := opts.foldl (fun p o => o p.1 p.2) (mfs1, mfs2)
  let mfSet := [p.1, p.2].foldl (fun acc mfs => mfs.foldl mergeStep acc) []
  mfSet.map Prod.snd

/-- The function `AddIdentifierLabel`; the option it returns does not use the two slices
given here, but the two it is called with. -/
def AddIdentifierLabel (_mfs1 _mfs2 : List dto.MetricFamily) (label : String)
    (mfs1Identifier mfs2Identifier : String) : MergeOption :=
  fun mfs1 mfs2 =>
    (AddLabels mfs1 (model.LabelSet.single label mfs1Identifier),
     AddLabels mfs2 (model.LabelSet.single label mfs2Identifier))

/-! ## `convert.go` -/

def newLabelSet (labels : List dto.LabelPair) : model.LabelSet :=
  labels.foldl (fun s l => s.set l.GetName l.GetValue) model.LabelSet.make

def toLabelNameSlice (s : model.LabelSet) : List String :=
  sortStrings (s.entries.map Prod.fst)

def toLabelValueSlice (s : model.LabelSet) : List String :=
  (sortStrings (s.entries.map Prod.fst)).map (fun labelName => s.get labelName)

/-- The function `MetricFamilyToDesc`; `f.Metric[0]` panics when the family has no
series. -/
def MetricFamilyToDesc (f : dto.MetricFamily) : Except Panic prometheus.Desc :=
  match f.Metric with
  | [] => Except.error Panic.indexOutOfRange
  | m :: _ =>
    Except.ok
      (prometheus.NewDesc f.GetName f.GetHelp (toLabelNameSlice (newLabelSet m.GetLabel)) [])

def convertMetric (metricType : dto.MetricType) (desc : prometheus.Desc)
    (metric : dto.Metric) : Except Panic prometheus.Metric :=
  let labelSet := newLabelSet metric.GetLabel
  if metricType = dto.MetricType_COUNTER then
    prometheus.MustNewConstMetric desc prometheus.ValueType.CounterValue
      (dto.Counter.GetValue metric.Counter) (toLabelValueSlice labelSet)
  else if metricType = dto.MetricType_GAUGE then
    prometheus.MustNewConstMetric desc prometheus.ValueType.GaugeValue
      (dto.Gauge.GetValue metric.Gauge) (toLabelValueSlice labelSet)
  else if metricType = dto.MetricType_UNTYPED then
    prometheus.MustNewConstMetric desc prometheus.ValueType.UntypedValue
      (dto.Untyped.GetValue metric.Untyped) (toLabelValueSlice labelSet)
  else if metricType = dto.MetricType_SUMMARY then
    let quantiles :=
      (dto.Summary.GetQuantile metric.Summary).foldl
        (fun qs q => floatMapAssign qs q.GetQuantile q.GetValue) []
    prometheus.MustNewConstSummary desc
      (dto.Summary.GetSampleCount metric.Summary) (dto.Summary.GetSampleSum metric.Summary)
      quantiles (toLabelValueSlice labelSet)
  else if metricType = dto.MetricType_HISTOGRAM then
    let buckets :=
      (dto.Histogram.GetBucket metric.Histogram).foldl
        (fun bs b => floatMapAssign bs b.GetUpperBound b.GetCumulativeCount) []
    prometheus.MustNewConstHistogram desc
      (dto.Histogram.GetSampleCount metric.Histogram)
      (dto.Histogram.GetSampleSum metric.Histogram) buckets (toLabelValueSlice labelSet)
  else
    Except.error (Panic.message "unsupported metric type")

def MetricFamilyToMetrics (f : dto.MetricFamily) : Except Panic (List prometheus.Metric) :=
  f.GetMetric.foldlM
    (fun metrics metric => do
      let desc ← MetricFamilyToDesc f
      let converted ← convertMetric f.GetType desc metric
      pure (metrics ++ [converted]))
    []

/-! ## `aggregator.go` -/

structure Scraper where
  URL : String
  Labels : Option model.LabelSet

/-- The method `Scraper.Scrape`; `fetched` is what the request and the parser give for the
target: the parsed families, or the error of one of the three failing steps. -/
def Scraper.Scrape (s : Scraper) (fetched : Except String (List dto.MetricFamily)) :
    Except String (List dto.MetricFamily) :=
  match fetched with
  | Except.error err => Except.error err
  | Except.ok mfs =>
    match s.Labels with
    | some labels => Except.ok (AddLabels mfs labels)
    | none => Except.ok mfs

/-- The state of a `Collector`: whether a logger is set and what was reported
to it, whether the `sync.Once` has run, and the cache. -/
structure Collector where
  Scrapers : List Scraper
  Logger : Bool
  logged : List String
  once : Bool
  cache : List dto.MetricFamily

/-- What one scrape goroutine of `rsyncCache` does with its result: an error
goes to `errCh`, whose reader reports it when a logger is set, a family set goes
to `mfsCh`, whose reader merges it into `newMfs`. The state is `newMfs` and the
reports. -/
def deliver (logger : Bool) (st : List dto.MetricFamily × List String)
    (result : Except String (List dto.MetricFamily)) : List dto.MetricFamily × List String :=
  match result with
  | Except.error err => (st.1, if logger then st.2 ++ [err] else st.2)
  | Except.ok mfs => (MergeMetricFamily st.1 mfs [], st.2)

/-- The method `Collector.rsyncCache`; `results` are what the calls of `Scrape` of this
cycle return, one for each scraper, in the order in which they are delivered. A
refresh starts from an empty `newMfs` and ends by storing it as the cache. -/
def Collector.rsyncCache (c : Collector) (results : List (Except String (List dto.MetricFamily))) :
    Collector :=
  let st := results.foldl (deliver c.Logger) ([], c.logged)
  { c with cache := st.1, logged := st.2 }

/-- What a loop that sends on a channel has sent when it ends, and the panic that ended
it, if one did. -/
structure Sent (α : Type) where
  values : List α
  panic : Option Panic
deriving DecidableEq, Repr

/-- The loops of `Describe` and `Collect` over the cache: for each family in turn the
values `f mf` are computed and then sent, one after the other; a panic of `f` ends the
loop, what was sent before stays sent. -/
def sendAll {α β : Type} (f : α → Except Panic (List β)) : List α → Sent β
  | [] => ⟨[], none⟩
  | x :: xs =>
    match f x with
    | Except.error p => ⟨[], some p⟩
    | Except.ok ys => ⟨ys ++ (sendAll f xs).values, (sendAll f xs).panic⟩

/-- The method `Collector.Describe`: the new state and what is sent on `ch`; `results`
are what the scrapes return if the call refreshes. `c.once.Do` runs the refresh when the
guard is not set, and sets the guard. -/
def Collector.Describe (c : Collector)
    (results : List (Except String (List dto.MetricFamily))) :
    Collector × Sent prometheus.Desc :=
  let c₁ := if c.once then c else { c.rsyncCache results with once := true }
  (c₁, sendAll (fun mf => (MetricFamilyToDesc mf).map (fun desc => [desc])) c₁.cache)

/-- The method `Collector.Collect`: the new state and what is sent on `ch`; `results` are
what the scrapes of its refresh return. -/
def Collector.Collect (c : Collector)
    (results : List (Except String (List dto.MetricFamily))) :
    Collector × Sent prometheus.Metric :=
  let c₁ := c.rsyncCache results
  (c₁, sendAll MetricFamilyToMetrics c₁.cache)

/-- A call of one of the two methods of the `prometheus.Collector` interface, with what
the scrapes return if the call refreshes. -/
inductive Call where
  | Describe (results : List (Except String (List dto.MetricFamily)))
  | Collect (results : List (Except String (List dto.MetricFamily)))

/-- The state after a call. -/
def Collector.call (c : Collector) : Call → Collector
  | Call.Describe results => (c.Describe results).1
  | Call.Collect results => (c.Collect results).1

/-- The state after a sequence of calls, one after the other. -/
def Collector.run (c : Collector) (calls : List Call) : Collector :=
  calls.foldl Collector.call c

/-! ### The goroutines of `rsyncCache` -/

/-- One scrape goroutine of `rsyncCache`. -/
inductive ScrapeTask where
  /-- Inside `scraper.Scrape(ctx)`, which is going to return `result`. -/
  | scraping (result : Except String (List dto.MetricFamily))
  /-- Blocked at `errCh <- err` or at `mfsCh <- mfs`, with the result of the scrape. -/
  | sending (result : Except String (List dto.MetricFamily))
  /-- Its send was received and it has returned: the deferred `wg.Done()` has run. -/
  | returned

/-- The goroutine of `rsyncCache` that reads `mfsCh`. -/
inductive FoldPc where
  /-- At `range mfsCh`, ready to receive. -/
  | receiving
  /-- It has received `mfs` and has yet to run `newMfs = MergeMetricFamily(newMfs, mfs)`. -/
  | merging (mfs : List dto.MetricFamily)
  /-- Out of the loop: `done` is closed. -/
  | exited

/-- The goroutine of `rsyncCache` that reads `errCh`. -/
inductive LogPc where
  | receiving
  | logging (err : String)
  | exited

/-- The goroutine that runs `rsyncCache` itself, once it has started the others. -/
inductive MainPc where
  /-- At `wg.Wait()`. -/
  | waiting
  /-- After `wg.Wait()`, before `close(mfsCh)`. -/
  | closingMfs
  /-- Before `close(errCh)`. -/
  | closingErr
  /-- At `<-done`. -/
  | awaitingDone
  /-- After `<-done`, before `c.cache = newMfs` under the write lock. -/
  | locking
  /-- After the assignment to the cache. -/
  | finished

/-- One run of `rsyncCache`: the result that each of its scrapes returns, its goroutines,
its channels and its local variable `newMfs`. -/
structure Refresh where
  results : List (Except String (List dto.MetricFamily))
  tasks : List ScrapeTask
  folder : FoldPc
  logger : LogPc
  main : MainPc
  mfsClosed : Bool
  errClosed : Bool
  newMfs : List dto.MetricFamily

/-- A run of `rsyncCache` when its goroutines have been started. -/
def Refresh.start (results : List (Except String (List dto.MetricFamily))) : Refresh :=
  { results := results, tasks := results.map ScrapeTask.scraping, folder := FoldPc.receiving,
    logger := LogPc.receiving, main := MainPc.waiting, mfsClosed := false,
    errClosed := false, newMfs := [] }

/-- One step of one goroutine of a run of `rsyncCache`, the assignment to the cache apart.
The channels are unbuffered, so a send and its receive are one step. -/
inductive RefreshStep : Refresh → Refresh → Prop
  /-- A scrape returns. -/
  | scraped (r : Refresh) (pre post : List ScrapeTask)
      (result : Except String (List dto.MetricFamily)) :
      r.tasks = pre ++ ScrapeTask.scraping result :: post →
      RefreshStep r { r with tasks := pre ++ ScrapeTask.sending result :: post }
  /-- The send `mfsCh <- mfs` meets the receive of the loop over `mfsCh`. -/
  | sentMfs (r : Refresh) (pre post : List ScrapeTask) (mfs : List dto.MetricFamily) :
      r.tasks = pre ++ ScrapeTask.sending (Except.ok mfs) :: post →
      r.folder = FoldPc.receiving → r.mfsClosed = false →
      RefreshStep r
        { r with tasks := pre ++ ScrapeTask.returned :: post, folder := FoldPc.merging mfs }
  /-- The body of the loop over `mfsCh`; the merge returns its families in some order. -/
  | merged (r : Refresh) (mfs next : List dto.MetricFamily) :
      r.folder = FoldPc.merging mfs → next.Perm (MergeMetricFamily r.newMfs mfs []) →
      RefreshStep r { r with folder := FoldPc.receiving, newMfs := next }
  /-- The send `errCh <- err` meets the receive of the loop over `errCh`. -/
  | sentErr (r : Refresh) (pre post : List ScrapeTask) (err : String) :
      r.tasks = pre ++ ScrapeTask.sending (Except.error err) :: post →
      r.logger = LogPc.receiving → r.errClosed = false →
      RefreshStep r
        { r with tasks := pre ++ ScrapeTask.returned :: post, logger := LogPc.logging err }
  /-- The body of the loop over `errCh`. -/
  | logged (r : Refresh) (err : String) :
      r.logger = LogPc.logging err → RefreshStep r { r with logger := LogPc.receiving }
  /-- The call `wg.Wait()` returns: every scrape goroutine has called `wg.Done()`. -/
  | waited (r : Refresh) :
      r.main = MainPc.waiting → (∀ t ∈ r.tasks, t = ScrapeTask.returned) →
      RefreshStep r { r with main := MainPc.closingMfs }
  /-- The call `close(mfsCh)`. -/
  | closedMfs (r : Refresh) :
      r.main = MainPc.closingMfs →
      RefreshStep r { r with main := MainPc.closingErr, mfsClosed := true }
  /-- The call `close(errCh)`. -/
  | closedErr (r : Refresh) :
      r.main = MainPc.closingErr →
      RefreshStep r { r with main := MainPc.awaitingDone, errClosed := true }
  /-- The loop over `mfsCh` ends on the closed channel, and `close(done)` runs. -/
  | foldExited (r : Refresh) :
      r.folder = FoldPc.receiving → r.mfsClosed = true →
      RefreshStep r { r with folder := FoldPc.exited }
  /-- The loop over `errCh` ends on the closed channel. -/
  | logExited (r : Refresh) :
      r.logger = LogPc.receiving → r.errClosed = true →
      RefreshStep r { r with logger := LogPc.exited }
  /-- The receive `<-done` returns: `done` is closed. -/
  | doneReceived (r : Refresh) :
      r.main = MainPc.awaitingDone → r.folder = FoldPc.exited →
      RefreshStep r { r with main := MainPc.locking }

/-- The collector with the runs of `rsyncCache` in progress, started by calls of `Describe`
and `Collect` that run side by side; a reader of the cache finds `cache`. -/
structure System where
  cache : List dto.MetricFamily
  refreshes : List Refresh

/-- One step of the collector: a call starts a run of `rsyncCache`, a goroutine of a run
takes a step, or a run assigns its `newMfs` to the cache, under the write lock. Runs may
start at any time: the guard of `Describe` and the lock only leave out some of these
schedules. -/
inductive SystemStep : System → System → Prop
  | started (s : System) (results : List (Except String (List dto.MetricFamily))) :
      SystemStep s { s with refreshes := s.refreshes ++ [Refresh.start results] }
  | stepped (s : System) (pre post : List Refresh) (r r' : Refresh) :
      s.refreshes = pre ++ r :: post → RefreshStep r r' →
      SystemStep s { s with refreshes := pre ++ r' :: post }
  | swapped (s : System) (pre post : List Refresh) (r : Refresh) :
      s.refreshes = pre ++ r :: post → r.main = MainPc.locking →
      SystemStep s
        { cache := r.newMfs, refreshes := pre ++ { r with main := MainPc.finished } :: post }

/-- The states that the collector can be in, in some schedule, when its cache is `cache₀`
at first. -/
inductive Reachable (cache₀ : List dto.MetricFamily) : System → Prop
  | init : Reachable cache₀ { cache := cache₀, refreshes := [] }
  | step (s s' : System) : Reachable cache₀ s → SystemStep s s' → Reachable cache₀ s'

/-! ## Vocabulary of the statements -/

open dto

/-- The family names of a set, in order. -/
def names (mfs : List dto.MetricFamily) : List String := mfs.map (fun f => f.GetName)

/-- The series lists of all families of `mfs` named `name`, concatenated in order. -/
def seriesOf (name : String) (mfs : List dto.MetricFamily) : List dto.Metric :=
  (mfs.filter (fun f => decide (f.GetName = name))).flatMap (fun f => f.Metric)

/-- The family that the merge builds for `name` from the families `mfs`, met in
order: the first one with that name, holding all series of that name. -/
def groupOf (name : String) (mfs : List dto.MetricFamily) : Option dto.MetricFamily :=
  (mfs.find? (fun f => decide (f.GetName = name))).map
    (fun f => { f with Metric := seriesOf name mfs })

/-- Every entry of `mfSet` is stored under the name of its family. -/
def Keyed (mfSet : List (String × dto.MetricFamily)) : Prop :=
  ∀ p ∈ mfSet, p.2.GetName = p.1

/-- The value that the pairs `labels` give the name `name`, when pair `p` is
read as naming `key p`: the value of the last pair so named. -/
def lastValue (key : dto.LabelPair → Option String) :
    List dto.LabelPair → String → Option String
  | [], _ => none
  | p :: rest, name =>
    match lastValue key rest name with
    | some v => some v
    | none => if key p = some name then some p.GetValue else none

/-- Strictly ascending in the order of Go's `<` on strings. -/
def Ascending (l : List String) : Prop := l.Pairwise (fun x y => strLess x y = true)

/-- An example series: a counter of value bits `v` with the label pairs `labels`. -/
def exSeries (labels : List (String × String)) (v : Nat) : dto.Metric :=
  { Label := labels.map (fun kv => ⟨some kv.1, some kv.2⟩), Gauge := none,
    Counter := some ⟨some ⟨v⟩⟩, Summary := none, Untyped := none, Histogram := none,
    TimestampMs := none }

/-- An example counter family. -/
def exFamily (name : String) (series : List dto.Metric) : dto.MetricFamily :=
  { Name := some name, Help := some "Dummy text.", Type_ := some MetricType_COUNTER,
    Metric := series }

/-- The value that a series of native pairs `native` carries for `name` once the
overlay `labels` is laid over it: the overlay's value, else the native one. -/
def overlaid (labels : model.LabelSet) (native : List dto.LabelPair) (name : String) :
    Option String :=
  match mapGet? labels.entries name with
  | some v => some v
  | none => lastValue LabelPair.Name native name

/-- The pairs `out` are exactly the pairs of `native` and of the overlay `labels`
together, each name with its value, in ascending order of name. -/
def IsUnionSorted (native : List dto.LabelPair) (labels : model.LabelSet)
    (out : List dto.LabelPair) : Prop :=
  Ascending (out.map (fun q => q.GetName)) ∧
  ∀ n v, (∃ q ∈ out, q.GetName = n ∧ q.GetValue = v) ↔
    ((∃ p ∈ native, p.GetName = n ∧ p.GetValue = v) ∨ (n, v) ∈ labels.entries)

/-- Every name of the overlay `labels` occurs exactly once in `out`, with the
overlay's value. -/
def OverlayWins (labels : model.LabelSet) (out : List dto.LabelPair) : Prop :=
  ∀ n v, (n, v) ∈ labels.entries →
    out.filter (fun q => decide (q.GetName = n)) = [⟨some n, some v⟩]

/-- Every pair of `native` whose name is not in the overlay `labels` is in `out`
with its value. -/
def NativeKept (native : List dto.LabelPair) (labels : model.LabelSet)
    (out : List dto.LabelPair) : Prop :=
  ∀ p ∈ native, p.GetName ∉ labels.entries.map Prod.fst →
    ∃ q ∈ out, q.GetName = p.GetName ∧ q.GetValue = p.GetValue

/-- A series whose only label pair has no name. -/
def exNameless : dto.Metric :=
  { Label := [⟨none, some "v"⟩], Gauge := none, Counter := some ⟨some ⟨1⟩⟩, Summary := none,
    Untyped := none, Histogram := none, TimestampMs := none }

/-- The series `tagged` come, one by one and in order, from the series `original`, with
nothing but the label pairs changed, and each carries the label `l` once, with value `id`. -/
def TaggedFrom (l id : String) (original tagged : List dto.Metric) : Prop :=
  List.Forall₂
    (fun s s' => s' = { s with Label := s'.Label } ∧
      s'.Label.filter (fun q => decide (q.GetName = l)) = [⟨some l, some id⟩])
    original tagged

/-- The family sets among the scrape results, in order: the results that are no error. -/
def successes (results : List (Except String (List dto.MetricFamily))) :
    List (List dto.MetricFamily) :=
  results.filterMap (fun result =>
    match result with
    | Except.ok mfs => some mfs
    | Except.error _ => none)

/-- The relation `MergeFold acc sets r`: `r` is a possible result of folding
`MergeMetricFamily` over `sets`, starting from `acc`, where each merge returns its families
in some order. -/
inductive MergeFold :
    List dto.MetricFamily → List (List dto.MetricFamily) → List dto.MetricFamily → Prop
  | nil (acc : List dto.MetricFamily) : MergeFold acc [] acc
  | cons (acc mfs next : List dto.MetricFamily) (rest : List (List dto.MetricFamily))
      (r : List dto.MetricFamily) :
      next.Perm (MergeMetricFamily acc mfs []) → MergeFold next rest r →
      MergeFold acc (mfs :: rest) r

/-- The relation `Delivered acc results r`: `r` is a possible value of `newMfs` in
`rsyncCache` once the results `results` have been delivered, when it is `acc` before: an
error leaves it as it is, a family set is merged into it, the merge returning its families
in some order. -/
inductive Delivered :
    List dto.MetricFamily → List (Except String (List dto.MetricFamily)) →
      List dto.MetricFamily → Prop
  | nil (acc : List dto.MetricFamily) : Delivered acc [] acc
  | error (acc : List dto.MetricFamily) (err : String)
      (rest : List (Except String (List dto.MetricFamily))) (r : List dto.MetricFamily) :
      Delivered acc rest r → Delivered acc (Except.error err :: rest) r
  | ok (acc mfs next : List dto.MetricFamily)
      (rest : List (Except String (List dto.MetricFamily))) (r : List dto.MetricFamily) :
      next.Perm (MergeMetricFamily acc mfs []) → Delivered next rest r →
      Delivered acc (Except.ok mfs :: rest) r

/-- Two lists of label pairs carry the same set of label names. -/
def SameLabelNames (L L' : List dto.LabelPair) : Prop :=
  ∀ n, (∃ p ∈ L, p.GetName = n) ↔ (∃ p ∈ L', p.GetName = n)

/-- The scalar of a series in a family of type `t`, `t` one of the three scalar types:
the value of the counter, of the gauge, or of the untyped payload. -/
def scalarOf (t : dto.MetricType) (m : dto.Metric) : Float64 :=
  if t = MetricType_COUNTER then dto.Counter.GetValue m.Counter
  else if t = MetricType_GAUGE then dto.Gauge.GetValue m.Gauge
  else dto.Untyped.GetValue m.Untyped

/-- The value type of the sample of a family of type `t`, `t` one of the three scalar
types. -/
def valueTypeOf (t : dto.MetricType) : prometheus.ValueType :=
  if t = MetricType_COUNTER then prometheus.ValueType.CounterValue
  else if t = MetricType_GAUGE then prometheus.ValueType.GaugeValue
  else prometheus.ValueType.UntypedValue

/-- Pairwise different under Go's `==` on `float64`: no two of them are equal keys of a
map. -/
def FloatDistinct (l : List Float64) : Prop := l.Pairwise (fun x y => Float64.eq x y = false)

/-- The sample `sample` carries the histogram of the series `m` as it stands: its sample
count and sample sum, and, when the upper bounds of its buckets are pairwise different,
a bucket map with exactly the entries upper bound, cumulative count of its buckets, in
which every upper bound that is no NaN is found with its count. -/
def HistogramCopied (m : dto.Metric) (sample : prometheus.Metric) : Prop :=
  ∃ desc buckets labelValues,
    sample = prometheus.Metric.constHistogram desc (dto.Histogram.GetSampleCount m.Histogram)
      (dto.Histogram.GetSampleSum m.Histogram) buckets labelValues ∧
    (FloatDistinct ((dto.Histogram.GetBucket m.Histogram).map (fun b => b.GetUpperBound)) →
      buckets = (dto.Histogram.GetBucket m.Histogram).map
        (fun b => (b.GetUpperBound, b.GetCumulativeCount)) ∧
      ∀ b ∈ dto.Histogram.GetBucket m.Histogram, b.GetUpperBound.isNaN = false →
        floatMapGet? buckets b.GetUpperBound = some b.GetCumulativeCount)

/-- The sample `sample` carries the summary of the series `m` as it stands: its sample
count and sample sum, and, when its quantiles are pairwise different, a quantile map with
exactly the entries quantile, value of its quantiles, in which every quantile that is no
NaN is found with its value. -/
def SummaryCopied (m : dto.Metric) (sample : prometheus.Metric) : Prop :=
  ∃ desc quantiles labelValues,
    sample = prometheus.Metric.constSummary desc (dto.Summary.GetSampleCount m.Summary)
      (dto.Summary.GetSampleSum m.Summary) quantiles labelValues ∧
    (FloatDistinct ((dto.Summary.GetQuantile m.Summary).map (fun q => q.GetQuantile)) →
      quantiles = (dto.Summary.GetQuantile m.Summary).map
        (fun q => (q.GetQuantile, q.GetValue)) ∧
      ∀ q ∈ dto.Summary.GetQuantile m.Summary, q.GetQuantile.isNaN = false →
        floatMapGet? quantiles q.GetQuantile = some q.GetValue)

/-- An example histogram series with the buckets `buckets` (bits of the upper bound,
cumulative count). -/
def exHistogramSeries (buckets : List (Nat × Nat)) (sum count : Nat) : dto.Metric :=
  { Label := [⟨some "name", some "foo"⟩], Gauge := none, Counter := none, Summary := none,
    Untyped := none,
    Histogram := some ⟨some count, some ⟨sum⟩,
      buckets.map (fun b => ⟨some b.2, some ⟨b.1⟩⟩)⟩,
    TimestampMs := none }

/-- An example summary series with the quantiles `quantiles` (bits of the quantile, bits
of the value). -/
def exSummarySeries (quantiles : List (Nat × Nat)) (sum count : Nat) : dto.Metric :=
  { Label := [], Gauge := none, Counter := none,
    Summary := some ⟨some count, some ⟨sum⟩,
      quantiles.map (fun q => ⟨some ⟨q.1⟩, some ⟨q.2⟩⟩)⟩,
    Untyped := none, Histogram := none, TimestampMs := none }

/-- An example family of type `t`. -/
def exFamilyOf (t : dto.MetricType) (name : String) (series : List dto.Metric) :
    dto.MetricFamily :=
  { Name := some name, Help := some "Dummy text.", Type_ := some t, Metric := series }

/-- One of the five metric types that `convertMetric` has a case for. -/
def Supported (t : dto.MetricType) : Prop :=
  t = MetricType_COUNTER ∨ t = MetricType_GAUGE ∨ t = MetricType_UNTYPED ∨
    t = MetricType_SUMMARY ∨ t = MetricType_HISTOGRAM

/-- The family set that a scrape goroutine has yet to hand over, if it has one. -/
def ScrapeTask.pending : ScrapeTask → Option (List dto.MetricFamily)
  | ScrapeTask.scraping (Except.ok mfs) => some mfs
  | ScrapeTask.sending (Except.ok mfs) => some mfs
  | _ => none

/-- The family set that the reader of `mfsCh` has received and not merged yet, if any. -/
def FoldPc.pending : FoldPc → List (List dto.MetricFamily)
  | FoldPc.merging mfs => [mfs]
  | _ => []

/-- The cache `cache` is a complete fold: the fold of `MergeMetricFamily`, from the empty
set, over all family sets among `results`, in some order of delivery. -/
def CompleteFold (results : List (Except String (List dto.MetricFamily)))
    (cache : List dto.MetricFamily) : Prop :=
  ∃ got, got.Perm (successes results) ∧ MergeFold [] got cache

/-- What holds of a run of `rsyncCache` in every reachable state. -/
structure RefreshInv (r : Refresh) : Prop where
  fold : ∃ got, MergeFold [] got r.newMfs ∧
    (got ++ (r.folder.pending ++ r.tasks.filterMap ScrapeTask.pending)).Perm
      (successes r.results)
  waited : r.main ≠ MainPc.waiting → ∀ t ∈ r.tasks, t = ScrapeTask.returned
  done : r.main = MainPc.locking ∨ r.main = MainPc.finished → r.folder = FoldPc.exited

/-- What holds of the collector in every reachable state. -/
structure SystemInv (cache₀ : List dto.MetricFamily) (s : System) : Prop where
  runs : ∀ r ∈ s.refreshes, RefreshInv r
  cache : s.cache = cache₀ ∨
    ∃ r ∈ s.refreshes, r.main = MainPc.finished ∧ CompleteFold r.results s.cache

/-- The state of an example run of `rsyncCache` over one family set and one error, after
its assignment to the cache. -/
def exFinishedRun : Refresh :=
  { results := [Except.ok [exFamily "A" [exSeries [] 1]], Except.error "boom"],
    tasks := [ScrapeTask.returned, ScrapeTask.returned], folder := FoldPc.exited,
    logger := LogPc.receiving, main := MainPc.finished, mfsClosed := true,
    errClosed := true, newMfs := [exFamily "A" [exSeries [] 1]] }

/-- The series `m'` is the series `m` with nothing but its label pairs changed: the
payloads and the timestamp are those of `m`. -/
def SamePayload (m m' : dto.Metric) : Prop :=
  m'.Gauge = m.Gauge ∧ m'.Counter = m.Counter ∧ m'.Summary = m.Summary ∧
    m'.Untyped = m.Untyped ∧ m'.Histogram = m.Histogram ∧ m'.TimestampMs = m.TimestampMs

/-- The family `f'` is the family `f` with nothing but the label pairs of its series
changed: same name, help and type, and the same series, one by one and in order. -/
def SameButLabels (f f' : dto.MetricFamily) : Prop :=
  f'.Name = f.Name ∧ f'.Help = f.Help ∧ f'.Type_ = f.Type_ ∧
    List.Forall₂ SamePayload f.Metric f'.Metric

/-- The library takes every series of the family `f`: the descriptor of the family, if it
has one, carries no error, and every series has as many different label names as the
first series. -/
def Convertible (f : dto.MetricFamily) : Prop :=
  (∀ desc, MetricFamilyToDesc f = Except.ok desc → desc.err = none) ∧
  ∀ first ∈ f.Metric.head?, ∀ m ∈ f.Metric,
    (m.Label.map (fun p => p.GetName)).dedup.length =
      (first.Label.map (fun p => p.GetName)).dedup.length

/-! ## Lemmas -/

section MapLemmas

variable {κ ν : Type} [DecidableEq κ]

theorem mapGet?_mapAssign (m : List (κ × ν)) (k : κ) (v : ν) (k' : κ) :
    mapGet? (mapAssign m k v) k' = if k = k' then some v else mapGet? m k' := by
  induction m with
  | nil => simp [mapAssign, mapGet?]
  | cons p rest ih =>
    by_cases h : p.1 = k
    · by_cases h' : k = k'
      · simp [mapAssign, mapGet?, h, h']
      · have : ¬ p.1 = k' := fun e => h' (h ▸ e)
        simp [mapAssign, mapGet?, h, h', this]
    · by_cases h' : p.1 = k'
      · have h1 : ¬ k = k' := fun e => h (e ▸ h')
        have h2 : ¬ k' = k := fun e => h1 e.symm
        obtain ⟨pk, pv⟩ := p
        simp only at h h'
        subst h'
        simp [mapAssign, mapGet?, h1, h2]
      · simp [mapAssign, mapGet?, h, h', ih]

theorem mem_keys_mapAssign (m : List (κ × ν)) (k : κ) (v : ν) (k' : κ) :
    k' ∈ (mapAssign m k v).map Prod.fst ↔ k' = k ∨ k' ∈ m.map Prod.fst := by
  induction m with
  | nil => simp [mapAssign]
  | cons p rest ih =>
    by_cases h : p.1 = k
    · simp only [mapAssign, h, if_true, List.map_cons, List.mem_cons]
      tauto
    · simp only [mapAssign, h, if_false, List.map_cons, List.mem_cons, ih]
      tauto

theorem nodup_keys_mapAssign (m : List (κ × ν)) (k : κ) (v : ν)
    (h : (m.map Prod.fst).Nodup) : ((mapAssign m k v).map Prod.fst).Nodup := by
  induction m with
  | nil => simp [mapAssign]
  | cons p rest ih =>
    rw [List.map_cons, List.nodup_cons] at h
    by_cases hk : p.1 = k
    · simp only [mapAssign, hk, if_true, List.map_cons, List.nodup_cons]
      exact ⟨hk ▸ h.1, h.2⟩
    · simp only [mapAssign, hk, if_false, List.map_cons, List.nodup_cons]
      refine ⟨fun hmem => ?_, ih h.2⟩
      rcases (mem_keys_mapAssign rest k v p.1).1 hmem with e | e
      · exact hk e
      · exact h.1 e

theorem mapGet?_eq_none_iff (m : List (κ × ν)) (k : κ) :
    mapGet? m k = none ↔ k ∉ m.map Prod.fst := by
  induction m with
  | nil => simp [mapGet?]
  | cons p rest ih =>
    by_cases h : p.1 = k
    · simp [mapGet?, h]
    · have h' : ¬ k = p.1 := fun e => h e.symm
      simp [mapGet?, h, h', ih]

theorem mapGet?_eq_some_iff (m : List (κ × ν)) (h : (m.map Prod.fst).Nodup) (k : κ) (v : ν) :
    mapGet? m k = some v ↔ (k, v) ∈ m := by
  induction m with
  | nil => simp [mapGet?]
  | cons p rest ih =>
    rw [List.map_cons, List.nodup_cons] at h
    obtain ⟨pk, pv⟩ := p
    by_cases hk : pk = k
    · subst hk
      have : (pk, v) ∉ rest := fun hm => h.1 (List.mem_map.2 ⟨(pk, v), hm, rfl⟩)
      simp [mapGet?, this, eq_comm]
    · have hk' : ¬ k = pk := fun e => hk e.symm
      simp [mapGet?, hk, hk', ih h.2]

end MapLemmas

theorem seriesOf_nil (n : String) : seriesOf n [] = [] := rfl

theorem seriesOf_cons (n : String) (f : dto.MetricFamily) (l : List dto.MetricFamily) :
    seriesOf n (f :: l) = (if f.GetName = n then f.Metric else []) ++ seriesOf n l := by
  by_cases h : f.GetName = n <;> simp [seriesOf, List.filter_cons, h]

theorem seriesOf_append (n : String) (l₁ l₂ : List dto.MetricFamily) :
    seriesOf n (l₁ ++ l₂) = seriesOf n l₁ ++ seriesOf n l₂ := by
  simp [seriesOf, List.filter_append, List.flatMap_append]

theorem seriesOf_of_not_mem_names (n : String) (l : List dto.MetricFamily)
    (h : n ∉ names l) : seriesOf n l = [] := by
  induction l with
  | nil => rfl
  | cons f l ih =>
    simp only [names, List.map_cons, List.mem_cons, not_or] at h
    have h1 : ¬ f.GetName = n := fun e => h.1 e.symm
    rw [seriesOf_cons, if_neg h1, List.nil_append]
    exact ih h.2

theorem seriesOf_of_mem (l : List dto.MetricFamily) (hnd : (names l).Nodup)
    (f : dto.MetricFamily) (hf : f ∈ l) : seriesOf f.GetName l = f.Metric := by
  induction l with
  | nil => cases hf
  | cons g l ih =>
    simp only [names, List.map_cons, List.nodup_cons] at hnd
    rw [seriesOf_cons]
    rcases List.mem_cons.1 hf with e | hm
    · subst e
      rw [if_pos rfl, seriesOf_of_not_mem_names _ _ hnd.1, List.append_nil]
    · have hne : ¬ g.GetName = f.GetName := by
        intro e
        exact hnd.1 (e ▸ List.mem_map_of_mem _ hm)
      rw [if_neg hne, List.nil_append]
      exact ih hnd.2 hm

theorem seriesOf_perm (n : String) {l l' : List dto.MetricFamily} (h : l.Perm l')
    (hnd : (names l).Nodup) : seriesOf n l' = seriesOf n l := by
  have hnd' : (names l').Nodup := (h.map _).nodup_iff.1 hnd
  by_cases hn : n ∈ names l
  · obtain ⟨f, hf, rfl⟩ := List.mem_map.1 hn
    rw [seriesOf_of_mem l hnd f hf, seriesOf_of_mem l' hnd' f (h.subset hf)]
  · have hn' : n ∉ names l' := fun e => hn ((h.map _).symm.subset e)
    rw [seriesOf_of_not_mem_names _ _ hn, seriesOf_of_not_mem_names _ _ hn']

theorem mapGet?_mem {κ ν : Type} [DecidableEq κ] (m : List (κ × ν)) (k : κ) (v : ν)
    (h : mapGet? m k = some v) : (k, v) ∈ m := by
  induction m with
  | nil => simp [mapGet?] at h
  | cons p rest ih =>
    obtain ⟨pk, pv⟩ := p
    by_cases hk : pk = k
    · simp [mapGet?, hk] at h
      simp [hk, h]
    · simp [mapGet?, hk] at h
      exact List.mem_cons_of_mem _ (ih h)

theorem mem_mapAssign {κ ν : Type} [DecidableEq κ] (m : List (κ × ν)) (k : κ) (v : ν)
    (p : κ × ν) (h : p ∈ mapAssign m k v) : p = (k, v) ∨ p ∈ m := by
  induction m with
  | nil => simpa [mapAssign] using h
  | cons q rest ih =>
    by_cases hk : q.1 = k
    · simp only [mapAssign, hk, if_true, List.mem_cons] at h
      rcases h with h | h
      · exact Or.inl h
      · exact Or.inr (List.mem_cons_of_mem _ h)
    · simp only [mapAssign, hk, if_false, List.mem_cons] at h
      rcases h with h | h
      · exact Or.inr (h ▸ List.mem_cons_self _ _)
      · rcases ih h with h | h
        · exact Or.inl h
        · exact Or.inr (List.mem_cons_of_mem _ h)

theorem keyed_mergeStep (S : List (String × dto.MetricFamily)) (mf : dto.MetricFamily)
    (h : Keyed S) : Keyed (mergeStep S mf) := by
  intro p hp
  unfold mergeStep at hp
  cases hget : mapGet? S mf.GetName with
  | none =>
    rw [hget] at hp
    rcases mem_mapAssign _ _ _ _ hp with e | e
    · rw [e]
    · exact h p e
  | some cur =>
    rw [hget] at hp
    rcases mem_mapAssign _ _ _ _ hp with e | e
    · rw [e]
      exact h (mf.GetName, cur) (mapGet?_mem _ _ _ hget)
    · exact h p e

theorem nodup_keys_mergeStep (S : List (String × dto.MetricFamily)) (mf : dto.MetricFamily)
    (h : (S.map Prod.fst).Nodup) : ((mergeStep S mf).map Prod.fst).Nodup := by
  unfold mergeStep
  cases mapGet? S mf.GetName <;> exact nodup_keys_mapAssign _ _ _ h

theorem keyed_foldl (l : List dto.MetricFamily) (S : List (String × dto.MetricFamily))
    (h : Keyed S) : Keyed (l.foldl mergeStep S) := by
  induction l generalizing S with
  | nil => exact h
  | cons mf l ih => exact ih _ (keyed_mergeStep S mf h)

theorem nodup_keys_foldl (l : List dto.MetricFamily) (S : List (String × dto.MetricFamily))
    (h : (S.map Prod.fst).Nodup) : ((l.foldl mergeStep S).map Prod.fst).Nodup := by
  induction l generalizing S with
  | nil => exact h
  | cons mf l ih => exact ih _ (nodup_keys_mergeStep S mf h)

theorem mapGet?_mergeStep (S : List (String × dto.MetricFamily)) (mf : dto.MetricFamily)
    (n : String) :
    mapGet? (mergeStep S mf) n =
      if mf.GetName = n then
        some (match mapGet? S n with
          | some cur => { cur with Metric := cur.Metric ++ mf.Metric }
          | none => mf)
      else mapGet? S n := by
  unfold mergeStep
  by_cases h : mf.GetName = n
  · subst h
    cases hget : mapGet? S mf.GetName <;> simp [mapGet?_mapAssign, MetricFamily.GetMetric]
  · cases hget : mapGet? S mf.GetName <;> simp [mapGet?_mapAssign, h]

theorem groupOf_cons_of_ne (n : String) (f : dto.MetricFamily) (l : List dto.MetricFamily)
    (h : ¬ f.GetName = n) : groupOf n (f :: l) = groupOf n l := by
  simp [groupOf, List.find?_cons, h, seriesOf_cons]

theorem groupOf_cons_of_eq (n : String) (f : dto.MetricFamily) (l : List dto.MetricFamily)
    (h : f.GetName = n) :
    groupOf n (f :: l) = some { f with Metric := f.Metric ++ seriesOf n l } := by
  simp [groupOf, List.find?_cons, h, seriesOf_cons]

theorem mapGet?_foldl_mergeStep (l : List dto.MetricFamily)
    (S : List (String × dto.MetricFamily)) (n : String) :
    mapGet? (l.foldl mergeStep S) n =
      match mapGet? S n with
      | some cur => some { cur with Metric := cur.Metric ++ seriesOf n l }
      | none => groupOf n l := by
  induction l generalizing S with
  | nil =>
    rw [List.foldl_nil]
    cases mapGet? S n <;> simp [seriesOf_nil, groupOf]
  | cons mf l ih =>
    rw [List.foldl_cons, ih, mapGet?_mergeStep]
    by_cases h : mf.GetName = n
    · rw [if_pos h]
      cases mapGet? S n with
      | none => simp [groupOf_cons_of_eq n mf l h]
      | some cur => simp [seriesOf_cons, h]
    · rw [if_neg h]
      cases mapGet? S n with
      | none => simp [groupOf_cons_of_ne n mf l h]
      | some cur => simp [seriesOf_cons, h]

theorem MergeMetricFamily_eq (a b : List dto.MetricFamily) :
    MergeMetricFamily a b [] = ((a ++ b).foldl mergeStep []).map Prod.snd := by
  simp [MergeMetricFamily, List.foldl_append]

theorem mem_MergeMetricFamily (a b : List dto.MetricFamily) (f : dto.MetricFamily) :
    f ∈ MergeMetricFamily a b [] ↔ groupOf f.GetName (a ++ b) = some f := by
  have hk : Keyed ((a ++ b).foldl mergeStep []) := keyed_foldl _ _ (by intro p hp; cases hp)
  have hnd : (((a ++ b).foldl mergeStep []).map Prod.fst).Nodup :=
    nodup_keys_foldl _ _ (by simp)
  have hget := mapGet?_foldl_mergeStep (a ++ b) [] f.GetName
  simp only [mapGet?] at hget
  rw [MergeMetricFamily_eq, ← hget, mapGet?_eq_some_iff _ hnd]
  constructor
  · intro hf
    obtain ⟨p, hp, rfl⟩ := List.mem_map.1 hf
    have := hk p hp
    rw [this]
    exact hp
  · intro hf
    exact List.mem_map.2 ⟨_, hf, rfl⟩

theorem names_MergeMetricFamily (a b : List dto.MetricFamily) :
    names (MergeMetricFamily a b []) = ((a ++ b).foldl mergeStep []).map Prod.fst := by
  have hk : Keyed ((a ++ b).foldl mergeStep []) := keyed_foldl _ _ (by intro p hp; cases hp)
  rw [MergeMetricFamily_eq, names, List.map_map]
  exact List.map_congr_left (fun p hp => hk p hp)

theorem nodup_names_MergeMetricFamily (a b : List dto.MetricFamily) :
    (names (MergeMetricFamily a b [])).Nodup := by
  rw [names_MergeMetricFamily]
  exact nodup_keys_foldl _ _ (by simp)

theorem groupOf_eq_none_iff (n : String) (l : List dto.MetricFamily) :
    groupOf n l = none ↔ n ∉ names l := by
  simp [groupOf, names, List.find?_eq_none]

theorem mem_names_MergeMetricFamily (a b : List dto.MetricFamily) (n : String) :
    n ∈ names (MergeMetricFamily a b []) ↔ n ∈ names a ∨ n ∈ names b := by
  rw [names_MergeMetricFamily]
  have hget := mapGet?_foldl_mergeStep (a ++ b) [] n
  simp only [mapGet?] at hget
  have h1 := mapGet?_eq_none_iff ((a ++ b).foldl mergeStep []) n
  rw [hget, groupOf_eq_none_iff] at h1
  have h2 : n ∈ names (a ++ b) ↔ n ∈ names a ∨ n ∈ names b := by simp [names]
  rw [← h2]
  constructor
  · intro h; by_contra hc; exact (h1.1 hc) h
  · intro h; by_contra hc; exact (h1.2 hc) h

theorem metric_of_mem_MergeMetricFamily (a b : List dto.MetricFamily) (f : dto.MetricFamily)
    (hf : f ∈ MergeMetricFamily a b []) :
    f.Metric = seriesOf f.GetName a ++ seriesOf f.GetName b := by
  have h := (mem_MergeMetricFamily a b f).1 hf
  unfold groupOf at h
  cases hfind : (a ++ b).find? (fun g => decide (g.GetName = f.GetName)) with
  | none => rw [hfind] at h; cases h
  | some g =>
    rw [hfind] at h
    simp only [Option.map_some', Option.some.injEq] at h
    have hM := congrArg MetricFamily.Metric h
    simp only at hM
    rw [← hM, seriesOf_append]

theorem seriesOf_MergeMetricFamily (n : String) (a b : List dto.MetricFamily) :
    seriesOf n (MergeMetricFamily a b []) = seriesOf n a ++ seriesOf n b := by
  by_cases hn : n ∈ names (MergeMetricFamily a b [])
  · obtain ⟨f, hf, rfl⟩ := List.mem_map.1 hn
    rw [seriesOf_of_mem _ (nodup_names_MergeMetricFamily a b) f hf]
    exact metric_of_mem_MergeMetricFamily a b f hf
  · rw [seriesOf_of_not_mem_names _ _ hn]
    rw [mem_names_MergeMetricFamily, not_or] at hn
    rw [seriesOf_of_not_mem_names _ _ hn.1, seriesOf_of_not_mem_names _ _ hn.2]
    rfl

theorem entries_foldl_set (l : List (String × String)) (S : model.LabelSet) :
    (l.foldl (fun r kv => r.set kv.1 kv.2) S).entries =
      l.foldl (fun r kv => mapAssign r kv.1 kv.2) S.entries := by
  induction l generalizing S with
  | nil => rfl
  | cons p l ih => rw [List.foldl_cons, List.foldl_cons, ih]; rfl

theorem mapGet?_foldl_mapAssign (l : List (String × String))
    (hnd : (l.map Prod.fst).Nodup) (S : List (String × String)) (n : String) :
    mapGet? (l.foldl (fun r kv => mapAssign r kv.1 kv.2) S) n =
      match mapGet? l n with
      | some v => some v
      | none => mapGet? S n := by
  induction l generalizing S with
  | nil => rfl
  | cons p l ih =>
    rw [List.map_cons, List.nodup_cons] at hnd
    rw [List.foldl_cons, ih hnd.2, mapGet?_mapAssign]
    by_cases h : p.1 = n
    · have hn : mapGet? l n = none := (mapGet?_eq_none_iff l n).2 (h ▸ hnd.1)
      simp [mapGet?, h, hn]
    · simp [mapGet?, h]

theorem mapGet?_Merge (s other : model.LabelSet) (n : String) :
    mapGet? (s.Merge other).entries n =
      match mapGet? other.entries n with
      | some v => some v
      | none => mapGet? s.entries n := by
  unfold model.LabelSet.Merge
  rw [entries_foldl_set, mapGet?_foldl_mapAssign _ other.nodup, entries_foldl_set,
    mapGet?_foldl_mapAssign _ s.nodup]
  cases mapGet? s.entries n <;> rfl

theorem mapGet?_foldl_key (key : dto.LabelPair → Option String) (L : List dto.LabelPair)
    (S : model.LabelSet) (n : String) :
    mapGet? (L.foldl (fun s l =>
        match key l with
        | some k => s.set k l.GetValue
        | none => s) S).entries n =
      match lastValue key L n with
      | some v => some v
      | none => mapGet? S.entries n := by
  induction L generalizing S with
  | nil => rfl
  | cons p L ih =>
    rw [List.foldl_cons, ih]
    cases hl : lastValue key L n with
    | some v => simp [lastValue, hl]
    | none =>
      cases hk : key p with
      | none => simp [lastValue, hl, hk]
      | some k =>
        by_cases h : k = n
        · simp [lastValue, hl, hk, h, model.LabelSet.set, mapGet?_mapAssign]
        · simp [lastValue, hl, hk, h, model.LabelSet.set, mapGet?_mapAssign]

theorem sourceSet_eq (L : List dto.LabelPair) :
    sourceSet L = L.foldl (fun s l =>
        match LabelPair.Name l with
        | some k => s.set k l.GetValue
        | none => s) model.LabelSet.make := by
  unfold sourceSet
  congr 1
  funext s l
  cases h : l.Name <;> simp [LabelPair.GetName, h]

theorem mapGet?_sourceSet (L : List dto.LabelPair) (n : String) :
    mapGet? (sourceSet L).entries n = lastValue LabelPair.Name L n := by
  rw [sourceSet_eq, mapGet?_foldl_key]
  cases lastValue LabelPair.Name L n <;> rfl

theorem mapGet?_newLabelSet (L : List dto.LabelPair) (n : String) :
    mapGet? (newLabelSet L).entries n = lastValue (fun p => some p.GetName) L n := by
  have := mapGet?_foldl_key (fun p => some p.GetName) L model.LabelSet.make n
  simp only at this
  unfold newLabelSet
  rw [this]
  cases lastValue (fun p => some p.GetName) L n <;> rfl

theorem lastValue_isSome_iff (key : dto.LabelPair → Option String) (L : List dto.LabelPair)
    (n : String) : (lastValue key L n).isSome ↔ ∃ p ∈ L, key p = some n := by
  induction L with
  | nil => simp [lastValue]
  | cons p L ih =>
    cases hl : lastValue key L n with
    | some v =>
      have := ih.1 (by simp [hl])
      obtain ⟨q, hq, hk⟩ := this
      simp only [lastValue, hl, Option.isSome_some, true_iff]
      exact ⟨q, List.mem_cons_of_mem _ hq, hk⟩
    | none =>
      have hnone : ¬ ∃ q ∈ L, key q = some n := fun h => by
        have := ih.2 h
        simp [hl] at this
      by_cases hk : key p = some n
      · simp only [lastValue, hl, hk, if_true, Option.isSome_some, true_iff]
        exact ⟨p, List.mem_cons_self _ _, hk⟩
      · simp only [lastValue, hl, hk, if_false, Option.isSome_none, Bool.false_eq_true, false_iff]
        rintro ⟨q, hq, hqk⟩
        rcases List.mem_cons.1 hq with e | hm
        · exact hk (e ▸ hqk)
        · exact hnone ⟨q, hm, hqk⟩

theorem lastValue_mem (key : dto.LabelPair → Option String) (L : List dto.LabelPair)
    (n v : String) (h : lastValue key L n = some v) :
    ∃ p ∈ L, key p = some n ∧ p.GetValue = v := by
  induction L with
  | nil => simp [lastValue] at h
  | cons p L ih =>
    cases hl : lastValue key L n with
    | some w =>
      simp only [lastValue, hl, Option.some.injEq] at h
      obtain ⟨q, hq, hk, hv⟩ := ih (h ▸ hl)
      exact ⟨q, List.mem_cons_of_mem _ hq, hk, hv⟩
    | none =>
      by_cases hk : key p = some n
      · simp only [lastValue, hl, hk, if_true, Option.some.injEq] at h
        exact ⟨p, List.mem_cons_self _ _, hk, h⟩
      · simp [lastValue, hl, hk] at h

theorem strLess_iff (a b : String) : strLess a b = true ↔ a.data < b.data := by
  simp [strLess]

theorem strLess_eq_false_iff (a b : String) : strLess a b = false ↔ b.data ≤ a.data := by
  rw [← not_lt, ← strLess_iff]
  simp

theorem strLess_irrefl (a : String) : strLess a a = false :=
  (strLess_eq_false_iff a a).2 le_rfl

theorem strLess_trans {a b c : String} (h₁ : strLess a b = true) (h₂ : strLess b c = true) :
    strLess a c = true :=
  (strLess_iff a c).2 (lt_trans ((strLess_iff a b).1 h₁) ((strLess_iff b c).1 h₂))

theorem strLess_asymm {a b : String} (h₁ : strLess a b = true) : strLess b a = false :=
  (strLess_eq_false_iff b a).2 (le_of_lt ((strLess_iff a b).1 h₁))

theorem strLess_of_ne {a b : String} (hne : a ≠ b) (h : strLess b a = false) :
    strLess a b = true := by
  rw [strLess_eq_false_iff] at h
  rw [strLess_iff]
  refine lt_of_le_of_ne h (fun e => hne ?_)
  exact String.ext e

theorem sortSlice_perm {α : Type} (less : α → α → Bool) (l : List α) :
    (sortSlice less l).Perm l :=
  List.perm_insertionSort _ l

theorem sortSlice_sorted {α : Type} (key : α → String) (l : List α) :
    (sortSlice (fun a b => strLess (key a) (key b)) l).Pairwise
      (fun a b => strLess (key b) (key a) = false) := by
  haveI : IsTotal α (fun a b => strLess (key b) (key a) = false) :=
    ⟨fun a b => by
      simp only [strLess_eq_false_iff]
      exact le_total _ _⟩
  haveI : IsTrans α (fun a b => strLess (key b) (key a) = false) :=
    ⟨fun a b c h₁ h₂ => by
      simp only [strLess_eq_false_iff] at *
      exact le_trans h₁ h₂⟩
  exact List.sorted_insertionSort (fun a b => strLess (key b) (key a) = false) l

theorem sortSlice_ascending {α : Type} (key : α → String) (l : List α)
    (hnd : (l.map key).Nodup) :
    Ascending ((sortSlice (fun a b => strLess (key a) (key b)) l).map key) := by
  have hs := sortSlice_sorted key l
  have hp := sortSlice_perm (fun a b => strLess (key a) (key b)) l
  have hnd' : ((sortSlice (fun a b => strLess (key a) (key b)) l).map key).Nodup :=
    (hp.map key).nodup_iff.2 hnd
  unfold Ascending
  rw [List.pairwise_map]
  rw [List.Nodup, List.pairwise_map] at hnd'
  exact (hs.and hnd').imp (fun h => strLess_of_ne h.2 h.1)

theorem ascending_unique {α : Type} (key : α → String) {l₁ l₂ : List α}
    (hp : l₁.Perm l₂) (h₁ : Ascending (l₁.map key)) (h₂ : Ascending (l₂.map key)) :
    l₁ = l₂ := by
  haveI : IsAntisymm α (fun a b => strLess (key a) (key b) = true) :=
    ⟨fun a b h₁ h₂ => by
      rw [strLess_asymm h₁] at h₂
      cases h₂⟩
  unfold Ascending at h₁ h₂
  rw [List.pairwise_map] at h₁ h₂
  exact List.eq_of_perm_of_sorted hp h₁ h₂

theorem ascending_nodup (l : List String) (h : Ascending l) : l.Nodup := by
  unfold Ascending at h
  exact h.imp (fun hlt e => by
    rw [e, strLess_irrefl] at hlt
    cases hlt)

/-- The result of sorting is fixed by its statement: whatever the order in which the map
is ranged over and whatever the sorting procedure, a rearrangement in ascending order of
pairwise different keys is the one the model computes. -/
theorem sortSlice_eq_of_perm_ascending {α : Type} (key : α → String) (l out : List α)
    (hnd : (l.map key).Nodup) (hp : out.Perm l) (ha : Ascending (out.map key)) :
    out = sortSlice (fun a b => strLess (key a) (key b)) l :=
  ascending_unique key (hp.trans (sortSlice_perm _ l).symm) ha (sortSlice_ascending key l hnd)

theorem perm_MergeMetricFamily_spec (a b r : List dto.MetricFamily)
    (hr : r.Perm (MergeMetricFamily a b [])) :
    (∀ n, n ∈ names r ↔ n ∈ names a ∨ n ∈ names b) ∧
    (names r).Nodup ∧
    ∀ f ∈ r, f.Metric = seriesOf f.GetName a ++ seriesOf f.GetName b := by
  refine ⟨fun n => ?_, ?_, fun f hf => ?_⟩
  · rw [← mem_names_MergeMetricFamily a b n]
    exact (hr.map _).mem_iff
  · exact (hr.map _).nodup_iff.2 (nodup_names_MergeMetricFamily a b)
  · exact metric_of_mem_MergeMetricFamily a b f (hr.subset hf)

theorem seriesOf_perm_MergeMetricFamily (n : String) (a b r : List dto.MetricFamily)
    (hr : r.Perm (MergeMetricFamily a b [])) :
    seriesOf n r = seriesOf n a ++ seriesOf n b := by
  rw [seriesOf_perm n hr.symm (nodup_names_MergeMetricFamily a b)]
  exact seriesOf_MergeMetricFamily n a b

theorem MergeMetricFamily_singletons (name help : Option String) (t₁ t₂ : Option dto.MetricType)
    (help₂ : Option String) (l₁ l₂ : List dto.Metric) :
    MergeMetricFamily [⟨name, help, t₁, l₁⟩] [⟨name, help₂, t₂, l₂⟩] [] =
      [⟨name, help, t₁, l₁ ++ l₂⟩] := by
  simp [MergeMetricFamily, mergeStep, mapGet?, mapAssign, MetricFamily.GetName,
    MetricFamily.GetMetric]

theorem addLabelsMetric_Label (labels : model.LabelSet) (m : dto.Metric) :
    (addLabelsMetric labels m).Label =
      sortSlice (fun a b => strLess a.GetName b.GetName)
        (((sourceSet m.Label).Merge labels).entries.map
          (fun kv => (⟨some kv.1, some kv.2⟩ : dto.LabelPair))) := rfl

theorem mem_addLabelsMetric_Label (labels : model.LabelSet) (m : dto.Metric)
    (p : dto.LabelPair) :
    p ∈ (addLabelsMetric labels m).Label ↔
      ∃ n v, p = ⟨some n, some v⟩ ∧ overlaid labels m.Label n = some v := by
  rw [addLabelsMetric_Label, (sortSlice_perm _ _).mem_iff, List.mem_map]
  have hE : ∀ n v, (n, v) ∈ ((sourceSet m.Label).Merge labels).entries ↔
      overlaid labels m.Label n = some v := by
    intro n v
    rw [← mapGet?_eq_some_iff _ ((sourceSet m.Label).Merge labels).nodup, mapGet?_Merge,
      mapGet?_sourceSet]
    rfl
  constructor
  · rintro ⟨⟨n, v⟩, hkv, rfl⟩
    exact ⟨n, v, rfl, (hE n v).1 hkv⟩
  · rintro ⟨n, v, rfl, h⟩
    exact ⟨(n, v), (hE n v).2 h, rfl⟩

theorem ascending_addLabelsMetric (labels : model.LabelSet) (m : dto.Metric) :
    Ascending ((addLabelsMetric labels m).Label.map (fun p => p.GetName)) := by
  rw [addLabelsMetric_Label]
  apply sortSlice_ascending (fun p : dto.LabelPair => p.GetName)
  rw [List.map_map]
  have : ((fun p : dto.LabelPair => p.GetName) ∘
      fun kv : String × String => (⟨some kv.1, some kv.2⟩ : dto.LabelPair)) = Prod.fst := by
    funext kv; rfl
  rw [this]
  exact ((sourceSet m.Label).Merge labels).nodup

theorem filter_eq_singleton_of_nodup {α β : Type} [DecidableEq β] (key : α → β)
    (l : List α) (hnd : (l.map key).Nodup) (x : α) (hx : x ∈ l) :
    l.filter (fun y => decide (key y = key x)) = [x] := by
  induction l with
  | nil => cases hx
  | cons y l ih =>
    rw [List.map_cons, List.nodup_cons] at hnd
    rcases List.mem_cons.1 hx with e | hm
    · subst e
      have : l.filter (fun y => decide (key y = key x)) = [] := by
        rw [List.filter_eq_nil_iff]
        intro z hz hk
        exact hnd.1 (List.mem_map.2 ⟨z, hz, of_decide_eq_true hk⟩)
      simp [List.filter_cons, this]
    · have hne : ¬ key y = key x := fun e => hnd.1 (e ▸ List.mem_map_of_mem key hm)
      simp [List.filter_cons, hne, ih hnd.2 hm]

theorem filter_addLabelsMetric (labels : model.LabelSet) (m : dto.Metric) (n : String) :
    (addLabelsMetric labels m).Label.filter (fun q => decide (q.GetName = n)) =
      match overlaid labels m.Label n with
      | some v => [⟨some n, some v⟩]
      | none => [] := by
  cases h : overlaid labels m.Label n with
  | some v =>
    have hmem := (mem_addLabelsMetric_Label labels m ⟨some n, some v⟩).2 ⟨n, v, rfl, h⟩
    exact filter_eq_singleton_of_nodup (fun p : dto.LabelPair => p.GetName) _
      (ascending_nodup _ (ascending_addLabelsMetric labels m)) ⟨some n, some v⟩ hmem
  | none =>
    simp only
    rw [List.filter_eq_nil_iff]
    intro q hq hk
    obtain ⟨n', v', rfl, hv⟩ := (mem_addLabelsMetric_Label labels m q).1 hq
    have : n' = n := of_decide_eq_true hk
    subst this
    rw [h] at hv
    cases hv

theorem mem_zip_map_self {α β : Type} (g : α → β) (l : List α) (x : α) (y : β)
    (h : (x, y) ∈ l.zip (l.map g)) : x ∈ l ∧ y = g x := by
  induction l with
  | nil => simp at h
  | cons a l ih =>
    rw [List.map_cons, List.zip_cons_cons, List.mem_cons] at h
    rcases h with e | hm
    · simp only [Prod.mk.injEq] at e
      exact ⟨e.1 ▸ List.mem_cons_self _ _, e.2 ▸ e.1 ▸ rfl⟩
    · exact ⟨List.mem_cons_of_mem _ (ih hm).1, (ih hm).2⟩

theorem zip_AddLabels (mfs : List dto.MetricFamily) (labels : model.LabelSet)
    (f f' : dto.MetricFamily) (hf : (f, f') ∈ mfs.zip (AddLabels mfs labels))
    (m m' : dto.Metric) (hm : (m, m') ∈ f.Metric.zip f'.Metric) :
    m' = addLabelsMetric labels m := by
  have e := (mem_zip_map_self _ mfs f f' hf).2
  subst e
  exact (mem_zip_map_self _ f.Metric m m' hm).2

theorem overlaid_of_mem (labels : model.LabelSet) (native : List dto.LabelPair)
    (n v : String) (h : (n, v) ∈ labels.entries) : overlaid labels native n = some v := by
  unfold overlaid
  rw [(mapGet?_eq_some_iff _ labels.nodup n v).2 h]

theorem overlaid_of_not_mem (labels : model.LabelSet) (native : List dto.LabelPair)
    (n : String) (h : n ∉ labels.entries.map Prod.fst) :
    overlaid labels native n = lastValue LabelPair.Name native n := by
  unfold overlaid
  rw [(mapGet?_eq_none_iff _ n).2 h]

theorem lastValue_of_named_nodup (L : List dto.LabelPair)
    (hnamed : ∀ p ∈ L, p.Name ≠ none) (hnd : (L.map (fun p => p.GetName)).Nodup)
    (p : dto.LabelPair) (hp : p ∈ L) :
    lastValue LabelPair.Name L p.GetName = some p.GetValue := by
  have hname : ∀ q ∈ L, q.Name = some q.GetName := by
    intro q hq
    cases h : q.Name with
    | none => exact absurd h (hnamed q hq)
    | some k => simp [LabelPair.GetName, h]
  have hsome : (lastValue LabelPair.Name L p.GetName).isSome :=
    (lastValue_isSome_iff _ L _).2 ⟨p, hp, hname p hp⟩
  obtain ⟨w, hw⟩ := Option.isSome_iff_exists.1 hsome
  obtain ⟨q, hq, hqn, hqv⟩ := lastValue_mem _ L _ w hw
  have hqp : q.GetName = p.GetName := by
    have := hname q hq
    rw [hqn] at this
    exact (Option.some.inj this).symm
  have : q = p := List.inj_on_of_nodup_map hnd hq hp hqp
  rw [hw, ← hqv, this]

theorem isUnionSorted_addLabelsMetric (labels : model.LabelSet) (m : dto.Metric)
    (hnamed : ∀ p ∈ m.Label, p.Name ≠ none)
    (hnd : (m.Label.map (fun p => p.GetName)).Nodup)
    (hdisj : ∀ p ∈ m.Label, p.GetName ∉ labels.entries.map Prod.fst) :
    IsUnionSorted m.Label labels (addLabelsMetric labels m).Label := by
  refine ⟨ascending_addLabelsMetric labels m, fun n v => ⟨?_, ?_⟩⟩
  · rintro ⟨q, hq, rfl, rfl⟩
    obtain ⟨n, v, rfl, hv⟩ := (mem_addLabelsMetric_Label labels m q).1 hq
    unfold overlaid at hv
    cases hg : mapGet? labels.entries n with
    | some w =>
      rw [hg] at hv
      simp only [Option.some.injEq] at hv
      subst hv
      exact Or.inr (mapGet?_mem _ _ _ hg)
    | none =>
      rw [hg] at hv
      obtain ⟨p, hp, hpn, hpv⟩ := lastValue_mem _ _ _ _ hv
      exact Or.inl ⟨p, hp, by simp [LabelPair.GetName, hpn], hpv⟩
  · rintro (⟨p, hp, rfl, rfl⟩ | h)
    · refine ⟨⟨some p.GetName, some p.GetValue⟩, ?_, rfl, rfl⟩
      rw [mem_addLabelsMetric_Label]
      refine ⟨_, _, rfl, ?_⟩
      rw [overlaid_of_not_mem _ _ _ (hdisj p hp)]
      exact lastValue_of_named_nodup _ hnamed hnd p hp
    · refine ⟨⟨some n, some v⟩, ?_, rfl, rfl⟩
      rw [mem_addLabelsMetric_Label]
      exact ⟨n, v, rfl, overlaid_of_mem _ _ _ _ h⟩

theorem overlayWins_addLabelsMetric (labels : model.LabelSet) (m : dto.Metric) :
    OverlayWins labels (addLabelsMetric labels m).Label := by
  intro n v h
  rw [filter_addLabelsMetric, overlaid_of_mem _ _ _ _ h]

theorem nativeKept_addLabelsMetric (labels : model.LabelSet) (m : dto.Metric)
    (hnamed : ∀ p ∈ m.Label, p.Name ≠ none)
    (hnd : (m.Label.map (fun p => p.GetName)).Nodup) :
    NativeKept m.Label labels (addLabelsMetric labels m).Label := by
  intro p hp hnot
  refine ⟨⟨some p.GetName, some p.GetValue⟩, ?_, rfl, rfl⟩
  rw [mem_addLabelsMetric_Label]
  refine ⟨_, _, rfl, ?_⟩
  rw [overlaid_of_not_mem _ _ _ hnot]
  exact lastValue_of_named_nodup _ hnamed hnd p hp

theorem names_AddLabels (mfs : List dto.MetricFamily) (labels : model.LabelSet) :
    names (AddLabels mfs labels) = names mfs := by
  simp [names, AddLabels, List.map_map, Function.comp_def, MetricFamily.GetName]

theorem seriesOf_AddLabels (n : String) (mfs : List dto.MetricFamily)
    (labels : model.LabelSet) :
    seriesOf n (AddLabels mfs labels) = (seriesOf n mfs).map (addLabelsMetric labels) := by
  induction mfs with
  | nil => rfl
  | cons f l ih =>
    have e : AddLabels (f :: l) labels =
        { f with Metric := f.Metric.map (addLabelsMetric labels) } :: AddLabels l labels := rfl
    rw [e, seriesOf_cons, seriesOf_cons, ih, List.map_append]
    by_cases h : f.GetName = n
    · have h' : ({ f with Metric := f.Metric.map (addLabelsMetric labels) } :
          dto.MetricFamily).GetName = n := h
      rw [if_pos h, if_pos h']
    · have h' : ¬ ({ f with Metric := f.Metric.map (addLabelsMetric labels) } :
          dto.MetricFamily).GetName = n := h
      rw [if_neg h, if_neg h']
      rfl

theorem MergeMetricFamily_AddIdentifierLabel (a b x y : List dto.MetricFamily) (l id1 id2 : String) :
    MergeMetricFamily a b [AddIdentifierLabel x y l id1 id2] =
      MergeMetricFamily (AddLabels a (model.LabelSet.single l id1))
        (AddLabels b (model.LabelSet.single l id2)) [] := rfl

theorem tagged_addLabelsMetric (l id : String) (m : dto.Metric) :
    (addLabelsMetric (model.LabelSet.single l id) m).Label.filter
      (fun q => decide (q.GetName = l)) = [⟨some l, some id⟩] :=
  overlayWins_addLabelsMetric (model.LabelSet.single l id) m l id (by simp [model.LabelSet.single])

theorem taggedFrom_map (l id : String) (original : List dto.Metric) :
    TaggedFrom l id original (original.map (addLabelsMetric (model.LabelSet.single l id))) := by
  unfold TaggedFrom
  induction original with
  | nil => exact List.Forall₂.nil
  | cons s rest ih =>
    exact List.Forall₂.cons ⟨rfl, tagged_addLabelsMetric l id s⟩ ih

theorem taggedFrom_label (l id : String) (original tagged : List dto.Metric)
    (h : TaggedFrom l id original tagged) (s : dto.Metric) (hs : s ∈ tagged) :
    s.Label.filter (fun q => decide (q.GetName = l)) = [⟨some l, some id⟩] := by
  unfold TaggedFrom at h
  induction h with
  | nil => cases hs
  | cons hab _ ih =>
    rcases List.mem_cons.1 hs with e | hm
    · rw [e]; exact hab.2
    · exact ih hm

theorem successes_error (err : String) (rest : List (Except String (List dto.MetricFamily))) :
    successes (Except.error err :: rest) = successes rest := rfl

theorem successes_ok (mfs : List dto.MetricFamily)
    (rest : List (Except String (List dto.MetricFamily))) :
    successes (Except.ok mfs :: rest) = mfs :: successes rest := rfl

theorem delivered_iff_mergeFold (results : List (Except String (List dto.MetricFamily)))
    (acc r : List dto.MetricFamily) :
    Delivered acc results r ↔ MergeFold acc (successes results) r := by
  induction results generalizing acc with
  | nil =>
    constructor
    · intro h; cases h; exact MergeFold.nil _
    · intro h; cases h; exact Delivered.nil _
  | cons x rest ih =>
    cases x with
    | error err =>
      rw [successes_error, ← ih]
      constructor
      · intro h; cases h; assumption
      · intro h; exact Delivered.error _ _ _ _ h
    | ok mfs =>
      rw [successes_ok]
      constructor
      · intro h
        cases h with
        | ok _ _ next _ _ hp hd => exact MergeFold.cons _ _ next _ _ hp ((ih next).1 hd)
      · intro h
        cases h with
        | cons _ _ next _ _ hp hd => exact Delivered.ok _ _ next _ _ hp ((ih next).2 hd)

theorem foldl_deliver_fst (logger : Bool)
    (results : List (Except String (List dto.MetricFamily)))
    (st : List dto.MetricFamily × List String) :
    (results.foldl (deliver logger) st).1 =
      (successes results).foldl (fun acc mfs => MergeMetricFamily acc mfs []) st.1 := by
  induction results generalizing st with
  | nil => rfl
  | cons x rest ih =>
    cases x with
    | error err => rw [List.foldl_cons, ih, successes_error]; rfl
    | ok mfs => rw [List.foldl_cons, ih, successes_ok]; rfl

theorem mergeFold_foldl (sets : List (List dto.MetricFamily)) (acc : List dto.MetricFamily) :
    MergeFold acc sets (sets.foldl (fun acc mfs => MergeMetricFamily acc mfs []) acc) := by
  induction sets generalizing acc with
  | nil => exact MergeFold.nil _
  | cons mfs rest ih => exact MergeFold.cons _ _ _ _ _ (List.Perm.refl _) (ih _)

theorem mergeFold_spec (sets : List (List dto.MetricFamily)) (acc r : List dto.MetricFamily)
    (h : MergeFold acc sets r) (hnd : (names acc).Nodup) :
    (names r).Nodup ∧
    (∀ n, n ∈ names r ↔ n ∈ names acc ∨ ∃ mfs ∈ sets, n ∈ names mfs) ∧
    ∀ n, seriesOf n r = seriesOf n acc ++ sets.flatMap (seriesOf n) := by
  induction h with
  | nil acc => simp [hnd]
  | cons acc mfs next rest r hp _ ih =>
    have hs := perm_MergeMetricFamily_spec acc mfs next hp
    obtain ⟨h1, h2, h3⟩ := ih hs.2.1
    refine ⟨h1, fun n => ?_, fun n => ?_⟩
    · rw [h2 n, hs.1 n]
      simp only [List.mem_cons, exists_eq_or_imp, or_assoc]
    · rw [h3 n, seriesOf_perm_MergeMetricFamily n acc mfs next hp, List.flatMap_cons,
        List.append_assoc]

theorem metric_eq_seriesOf (l : List dto.MetricFamily) (hnd : (names l).Nodup)
    (f : dto.MetricFamily) (hf : f ∈ l) : f.Metric = seriesOf f.GetName l :=
  (seriesOf_of_mem l hnd f hf).symm

theorem mem_seriesOf (n : String) (l : List dto.MetricFamily) (s : dto.Metric) :
    s ∈ seriesOf n l ↔ ∃ f ∈ l, f.GetName = n ∧ s ∈ f.Metric := by
  simp only [seriesOf, List.mem_flatMap, List.mem_filter, decide_eq_true_eq]
  constructor
  · rintro ⟨f, ⟨hf, hn⟩, hs⟩; exact ⟨f, hf, hn, hs⟩
  · rintro ⟨f, hf, hn, hs⟩; exact ⟨f, ⟨hf, hn⟩, hs⟩

theorem sortStrings_perm (l : List String) : (sortStrings l).Perm l :=
  sortSlice_perm _ l

theorem sortStrings_ascending (l : List String) (hnd : l.Nodup) :
    Ascending (sortStrings l) := by
  have h := sortSlice_ascending (fun s : String => s) l (by simpa using hnd)
  simpa [sortStrings] using h

theorem sortStrings_congr (l l' : List String) (hnd : l.Nodup) (hnd' : l'.Nodup)
    (h : ∀ n, n ∈ l ↔ n ∈ l') : sortStrings l = sortStrings l' := by
  have hp : l.Perm l' := (List.perm_ext_iff_of_nodup hnd hnd').2 h
  have hp' : (sortStrings l).Perm (sortStrings l') :=
    ((sortStrings_perm l).trans hp).trans (sortStrings_perm l').symm
  exact ascending_unique (fun s : String => s) hp'
    (by simpa using sortStrings_ascending l hnd)
    (by simpa using sortStrings_ascending l' hnd')

theorem mem_keys_newLabelSet (L : List dto.LabelPair) (n : String) :
    n ∈ (newLabelSet L).entries.map Prod.fst ↔ ∃ p ∈ L, p.GetName = n := by
  have h1 := mapGet?_eq_none_iff (newLabelSet L).entries n
  rw [mapGet?_newLabelSet] at h1
  have h2 := lastValue_isSome_iff (fun p => some p.GetName) L n
  simp only [Option.some.injEq] at h2
  rw [← h2]
  constructor
  · intro h
    cases hl : lastValue (fun p => some p.GetName) L n with
    | none => exact absurd h (h1.1 hl)
    | some v => rfl
  · intro h
    by_contra hc
    rw [h1.2 hc] at h
    cases h

theorem mem_toLabelNameSlice (L : List dto.LabelPair) (n : String) :
    n ∈ toLabelNameSlice (newLabelSet L) ↔ ∃ p ∈ L, p.GetName = n := by
  unfold toLabelNameSlice
  rw [(sortStrings_perm _).mem_iff, mem_keys_newLabelSet]

theorem ascending_toLabelNameSlice (s : model.LabelSet) : Ascending (toLabelNameSlice s) :=
  sortStrings_ascending _ s.nodup

theorem toLabelValueSlice_aligned (L L' : List dto.LabelPair) (h : SameLabelNames L L') :
    (toLabelValueSlice (newLabelSet L)).length = (toLabelNameSlice (newLabelSet L')).length ∧
    ∀ nv ∈ (toLabelNameSlice (newLabelSet L')).zip (toLabelValueSlice (newLabelSet L)),
      lastValue (fun p => some p.GetName) L nv.1 = some nv.2 := by
  have hk : sortStrings ((newLabelSet L).entries.map Prod.fst) =
      sortStrings ((newLabelSet L').entries.map Prod.fst) :=
    sortStrings_congr _ _ (newLabelSet L).nodup (newLabelSet L').nodup (fun n => by
      rw [mem_keys_newLabelSet, mem_keys_newLabelSet]; exact h n)
  unfold toLabelValueSlice toLabelNameSlice
  rw [← hk]
  refine ⟨by simp, fun nv hnv => ?_⟩
  obtain ⟨hmem, hval⟩ := mem_zip_map_self _ _ nv.1 nv.2 hnv
  rw [(sortStrings_perm _).mem_iff] at hmem
  rw [← mapGet?_newLabelSet, hval]
  unfold model.LabelSet.get
  cases hg : mapGet? (newLabelSet L).entries nv.1 with
  | none => exact absurd hmem ((mapGet?_eq_none_iff _ _).1 hg)
  | some v => rfl

theorem MetricFamilyToDesc_cons (f : dto.MetricFamily) (first : dto.Metric)
    (rest : List dto.Metric) (hf : f.Metric = first :: rest) :
    MetricFamilyToDesc f =
      Except.ok (prometheus.NewDesc f.GetName f.GetHelp
        (toLabelNameSlice (newLabelSet first.Label)) []) := by
  unfold MetricFamilyToDesc
  rw [hf]
  rfl

theorem floatMapAssign_fresh {ν : Type} (m : List (Float64 × ν)) (k : Float64) (v : ν)
    (h : ∀ p ∈ m, Float64.eq p.1 k = false) : floatMapAssign m k v = m ++ [(k, v)] := by
  induction m with
  | nil => rfl
  | cons p rest ih =>
    have hp := h p (List.mem_cons_self _ _)
    simp only [floatMapAssign, hp, Bool.false_eq_true, if_false, List.cons_append]
    rw [ih (fun q hq => h q (List.mem_cons_of_mem _ hq))]

theorem foldl_floatMapAssign_fresh {α ν : Type} (key : α → Float64) (val : α → ν)
    (l : List α) (m : List (Float64 × ν))
    (hm : ∀ p ∈ m, ∀ x ∈ l, Float64.eq p.1 (key x) = false)
    (hl : FloatDistinct (l.map key)) :
    l.foldl (fun acc x => floatMapAssign acc (key x) (val x)) m =
      m ++ l.map (fun x => (key x, val x)) := by
  induction l generalizing m with
  | nil => simp
  | cons x l ih =>
    unfold FloatDistinct at hl
    rw [List.map_cons, List.pairwise_cons] at hl
    rw [List.foldl_cons, floatMapAssign_fresh m (key x) (val x)
      (fun p hp => hm p hp x (List.mem_cons_self _ _)), ih]
    · simp
    · intro p hp y hy
      rcases List.mem_append.1 hp with h | h
      · exact hm p h y (List.mem_cons_of_mem _ hy)
      · simp only [List.mem_singleton] at h
        rw [h]
        exact hl.1 (key y) (List.mem_map_of_mem _ hy)
    · exact hl.2

theorem Float64.eq_self (x : Float64) (h : x.isNaN = false) : Float64.eq x x = true := by
  simp [Float64.eq, h]

theorem floatMapGet?_of_distinct {α ν : Type} (key : α → Float64) (val : α → ν)
    (l : List α) (hl : FloatDistinct (l.map key)) (x : α) (hx : x ∈ l)
    (hn : (key x).isNaN = false) :
    floatMapGet? (l.map (fun y => (key y, val y))) (key x) = some (val x) := by
  induction l with
  | nil => cases hx
  | cons y l ih =>
    unfold FloatDistinct at hl
    rw [List.map_cons, List.pairwise_cons] at hl
    rcases List.mem_cons.1 hx with e | hm
    · subst e
      simp [floatMapGet?, Float64.eq_self _ hn]
    · have : Float64.eq (key y) (key x) = false := hl.1 _ (List.mem_map_of_mem _ hm)
      simp only [List.map_cons, floatMapGet?, this, Bool.false_eq_true, if_false]
      exact ih hl.2 hm

theorem MetricFamilyToMetrics_nil (f : dto.MetricFamily) (hf : f.Metric = []) :
    MetricFamilyToMetrics f = Except.ok [] := by
  simp [MetricFamilyToMetrics, MetricFamily.GetMetric, hf, List.foldlM, pure, Except.pure]

theorem convertMetric_unsupported (t : dto.MetricType) (desc : prometheus.Desc)
    (m : dto.Metric) (h : ¬ Supported t) :
    convertMetric t desc m = Except.error (Panic.message "unsupported metric type") := by
  unfold Supported at h
  simp only [not_or] at h
  simp [convertMetric, h.1, h.2.1, h.2.2.1, h.2.2.2.1, h.2.2.2.2]

theorem MetricFamilyToMetrics_unsupported (f : dto.MetricFamily) (first : dto.Metric)
    (rest : List dto.Metric) (hf : f.Metric = first :: rest) (h : ¬ Supported f.GetType) :
    MetricFamilyToMetrics f = Except.error (Panic.message "unsupported metric type") := by
  unfold MetricFamilyToMetrics
  rw [MetricFamily.GetMetric, hf, List.foldlM_cons, MetricFamilyToDesc_cons f first rest hf]
  simp only [bind, Except.bind]
  rw [convertMetric_unsupported _ _ _ h]

theorem mem_perm_MergeMetricFamily (a b r : List dto.MetricFamily)
    (hr : r.Perm (MergeMetricFamily a b [])) (f : dto.MetricFamily) :
    f ∈ r ↔ groupOf f.GetName (a ++ b) = some f := by
  rw [hr.mem_iff]
  exact mem_MergeMetricFamily a b f

theorem groupOf_of_count_one (l : List dto.MetricFamily) (f : dto.MetricFamily)
    (hf : f ∈ l) (hu : (names l).count f.GetName = 1) :
    groupOf f.GetName l = some f := by
  induction l with
  | nil => cases hf
  | cons g l ih =>
    by_cases hg : g.GetName = f.GetName
    · have hc : (names l).count f.GetName = 0 := by
        simp only [names, List.map_cons, hg, List.count_cons_self] at hu
        simpa [names] using hu
      have hn : f.GetName ∉ names l := List.count_eq_zero.1 hc
      have hfg : f = g := by
        rcases List.mem_cons.1 hf with e | hm
        · exact e
        · exact absurd (List.mem_map_of_mem _ hm) hn
      subst hfg
      rw [groupOf_cons_of_eq _ _ _ rfl, seriesOf_of_not_mem_names _ _ hn, List.append_nil]
    · have hfl : f ∈ l := by
        rcases List.mem_cons.1 hf with e | hm
        · exact absurd (e ▸ rfl) hg
        · exact hm
      have hc : (names l).count f.GetName = 1 := by
        simp only [names, List.map_cons] at hu
        rw [List.count_cons_of_ne (fun e => hg e.symm)] at hu
        exact hu
      rw [groupOf_cons_of_ne _ _ _ hg]
      exact ih hfl hc

theorem length_perm_MergeMetricFamily (a b r : List dto.MetricFamily)
    (hr : r.Perm (MergeMetricFamily a b [])) :
    r.length = (names (a ++ b)).dedup.length := by
  have h := perm_MergeMetricFamily_spec a b r hr
  have hp : (names r).Perm (names (a ++ b)).dedup := by
    rw [List.perm_ext_iff_of_nodup h.2.1 (List.nodup_dedup _)]
    intro n
    rw [h.1 n, List.mem_dedup]
    simp [names]
  have := hp.length_eq
  simpa [names] using this

theorem groupOf_eq_some (n : String) (l : List dto.MetricFamily) (f : dto.MetricFamily)
    (h : groupOf n l = some f) :
    ∃ g, l.find? (fun h => decide (h.GetName = n)) = some g ∧
      f = { g with Metric := seriesOf n l } := by
  unfold groupOf at h
  cases hfind : l.find? (fun h => decide (h.GetName = n)) with
  | none => rw [hfind] at h; cases h
  | some g =>
    rw [hfind] at h
    simp only [Option.map_some', Option.some.injEq] at h
    exact ⟨g, rfl, h.symm⟩

theorem rsyncCache_cache (c : Collector)
    (results : List (Except String (List dto.MetricFamily))) :
    (c.rsyncCache results).cache =
      (successes results).foldl (fun acc mfs => MergeMetricFamily acc mfs []) [] :=
  foldl_deliver_fst c.Logger results ([], c.logged)

theorem successes_of_all_errors (results : List (Except String (List dto.MetricFamily)))
    (h : ∀ x ∈ results, ∃ err, x = Except.error err) : successes results = [] := by
  induction results with
  | nil => rfl
  | cons x rest ih =>
    obtain ⟨err, rfl⟩ := h x (List.mem_cons_self _ _)
    rw [successes_error]
    exact ih (fun y hy => h y (List.mem_cons_of_mem _ hy))

theorem once_call (c : Collector) (call : Call) (h : c.once = true) :
    (c.call call).once = true := by
  cases call with
  | Describe results => simp [Collector.call, Collector.Describe, h]
  | Collect results => simpa [Collector.call, Collector.Collect, Collector.rsyncCache] using h

theorem once_run (c : Collector) (calls : List Call) (h : c.once = true) :
    (c.run calls).once = true := by
  induction calls generalizing c with
  | nil => exact h
  | cons call rest ih => exact ih (c.call call) (once_call c call h)

theorem once_Describe (c : Collector)
    (results : List (Except String (List dto.MetricFamily))) :
    (c.Describe results).1.once = true := by
  cases h : c.once <;> simp [Collector.Describe, h]

theorem Describe_of_once (c : Collector)
    (results : List (Except String (List dto.MetricFamily))) (h : c.once = true) :
    c.Describe results =
      (c, sendAll (fun mf => (MetricFamilyToDesc mf).map (fun desc => [desc])) c.cache) := by
  simp [Collector.Describe, h]

theorem mergeFold_snoc (acc : List dto.MetricFamily) (sets : List (List dto.MetricFamily))
    (r mfs next : List dto.MetricFamily) (h : MergeFold acc sets r)
    (hn : next.Perm (MergeMetricFamily r mfs [])) : MergeFold acc (sets ++ [mfs]) next := by
  induction h with
  | nil acc => exact MergeFold.cons _ _ _ _ _ hn (MergeFold.nil _)
  | cons acc x nxt rest r hp _ ih => exact MergeFold.cons _ _ _ _ _ hp (ih hn)

theorem filterMap_pending_scraping (results : List (Except String (List dto.MetricFamily))) :
    (results.map ScrapeTask.scraping).filterMap ScrapeTask.pending = successes results := by
  induction results with
  | nil => rfl
  | cons x rest ih =>
    cases x with
    | error err => rw [List.map_cons, successes_error, ← ih]; rfl
    | ok mfs =>
      rw [List.map_cons, successes_ok, ← ih]
      rfl

theorem filterMap_pending_returned (tasks : List ScrapeTask)
    (h : ∀ t ∈ tasks, t = ScrapeTask.returned) :
    tasks.filterMap ScrapeTask.pending = [] := by
  induction tasks with
  | nil => rfl
  | cons t rest ih =>
    rw [h t (List.mem_cons_self _ _)]
    simp only [List.filterMap_cons, ScrapeTask.pending]
    exact ih (fun u hu => h u (List.mem_cons_of_mem _ hu))

theorem refreshInv_start (results : List (Except String (List dto.MetricFamily))) :
    RefreshInv (Refresh.start results) where
  fold := ⟨[], MergeFold.nil _, by
    show ([] ++ ([] ++ (results.map ScrapeTask.scraping).filterMap ScrapeTask.pending)).Perm
      (successes results)
    rw [filterMap_pending_scraping]
    exact List.Perm.refl _⟩
  waited := fun h => absurd rfl h
  done := fun h => by rcases h with h | h <;> cases h

theorem refreshInv_complete (r : Refresh) (h : RefreshInv r)
    (hm : r.main = MainPc.locking ∨ r.main = MainPc.finished) :
    (∀ t ∈ r.tasks, t = ScrapeTask.returned) ∧ r.folder = FoldPc.exited ∧
      CompleteFold r.results r.newMfs := by
  have hw : r.main ≠ MainPc.waiting := by
    rcases hm with e | e <;> rw [e] <;> intro c <;> cases c
  have ht := h.waited hw
  have hf := h.done hm
  obtain ⟨got, hfold, hperm⟩ := h.fold
  rw [hf, filterMap_pending_returned _ ht] at hperm
  simp only [FoldPc.pending, List.append_nil] at hperm
  exact ⟨ht, hf, got, hperm, hfold⟩

theorem refreshInv_step (r r' : Refresh) (h : RefreshInv r) (hs : RefreshStep r r') :
    RefreshInv r' := by
  cases hs with
  | scraped pre post result ht =>
    refine ⟨?_, fun hw => ?_, h.done⟩
    · obtain ⟨got, hfold, hperm⟩ := h.fold
      refine ⟨got, hfold, ?_⟩
      rw [ht] at hperm
      have e : (pre ++ ScrapeTask.sending result :: post).filterMap ScrapeTask.pending =
          (pre ++ ScrapeTask.scraping result :: post).filterMap ScrapeTask.pending := by
        cases result <;> simp [ScrapeTask.pending]
      simpa only [e] using hperm
    · have := h.waited hw (ScrapeTask.scraping result) (by rw [ht]; simp)
      cases this
  | sentMfs pre post mfs ht hf hc =>
    refine ⟨?_, fun hw => ?_, fun hm => ?_⟩
    · obtain ⟨got, hfold, hperm⟩ := h.fold
      refine ⟨got, hfold, ?_⟩
      rw [ht, hf] at hperm
      simp only [FoldPc.pending, List.nil_append, List.filterMap_append, List.filterMap_cons,
        ScrapeTask.pending, List.singleton_append] at hperm ⊢
      refine List.Perm.trans ?_ hperm
      exact List.Perm.append_left got List.perm_middle.symm
    · have := h.waited hw (ScrapeTask.sending (Except.ok mfs)) (by rw [ht]; simp)
      cases this
    · have := h.done hm
      rw [hf] at this
      cases this
  | merged mfs next hf hn =>
    refine ⟨?_, h.waited, fun hm => ?_⟩
    · obtain ⟨got, hfold, hperm⟩ := h.fold
      refine ⟨got ++ [mfs], mergeFold_snoc _ _ _ _ _ hfold hn, ?_⟩
      rw [hf] at hperm
      simpa [FoldPc.pending] using hperm
    · have := h.done hm
      rw [hf] at this
      cases this
  | sentErr pre post err ht hl hc =>
    refine ⟨?_, fun hw => ?_, h.done⟩
    · obtain ⟨got, hfold, hperm⟩ := h.fold
      refine ⟨got, hfold, ?_⟩
      rw [ht] at hperm
      simpa [ScrapeTask.pending] using hperm
    · have := h.waited hw (ScrapeTask.sending (Except.error err)) (by rw [ht]; simp)
      cases this
  | logged err hl => exact ⟨h.fold, h.waited, h.done⟩
  | waited hm ht =>
    refine ⟨h.fold, fun _ => ht, fun hm' => ?_⟩
    rcases hm' with e | e <;> cases e
  | closedMfs hm =>
    have hw : r.main ≠ MainPc.waiting := by rw [hm]; intro c; cases c
    refine ⟨h.fold, fun _ => h.waited hw, fun hm' => ?_⟩
    rcases hm' with e | e <;> cases e
  | closedErr hm =>
    have hw : r.main ≠ MainPc.waiting := by rw [hm]; intro c; cases c
    refine ⟨h.fold, fun _ => h.waited hw, fun hm' => ?_⟩
    rcases hm' with e | e <;> cases e
  | foldExited hf hc =>
    refine ⟨?_, h.waited, fun _ => rfl⟩
    obtain ⟨got, hfold, hperm⟩ := h.fold
    refine ⟨got, hfold, ?_⟩
    rw [hf] at hperm
    simpa [FoldPc.pending] using hperm
  | logExited hl hc => exact ⟨h.fold, h.waited, h.done⟩
  | doneReceived hm hf =>
    have hw : r.main ≠ MainPc.waiting := by rw [hm]; intro c; cases c
    exact ⟨h.fold, fun _ => h.waited hw, fun _ => hf⟩

theorem refreshStep_results (r r' : Refresh) (hs : RefreshStep r r') :
    r'.results = r.results ∧ (r.main = MainPc.finished → r'.main = MainPc.finished) := by
  cases hs with
  | scraped pre post result ht => exact ⟨rfl, id⟩
  | sentMfs pre post mfs ht hf hc => exact ⟨rfl, id⟩
  | merged mfs next hf hn => exact ⟨rfl, id⟩
  | sentErr pre post err ht hl hc => exact ⟨rfl, id⟩
  | logged err hl => exact ⟨rfl, id⟩
  | waited hm ht => exact ⟨rfl, fun h => by rw [h] at hm; cases hm⟩
  | closedMfs hm => exact ⟨rfl, fun h => by rw [h] at hm; cases hm⟩
  | closedErr hm => exact ⟨rfl, fun h => by rw [h] at hm; cases hm⟩
  | foldExited hf hc => exact ⟨rfl, id⟩
  | logExited hl hc => exact ⟨rfl, id⟩
  | doneReceived hm hf => exact ⟨rfl, fun h => by rw [h] at hm; cases hm⟩

theorem systemInv_step (cache₀ : List dto.MetricFamily) (s s' : System)
    (h : SystemInv cache₀ s) (hs : SystemStep s s') : SystemInv cache₀ s' := by
  cases hs with
  | started results =>
    refine ⟨fun r hr => ?_, ?_⟩
    · rcases List.mem_append.1 hr with hr | hr
      · exact h.runs r hr
      · rw [List.mem_singleton.1 hr]; exact refreshInv_start results
    · rcases h.cache with e | ⟨r, hr, hm, hc⟩
      · exact Or.inl e
      · exact Or.inr ⟨r, List.mem_append_left _ hr, hm, hc⟩
  | stepped pre post r r' he hstep =>
    have hr : r ∈ s.refreshes := by rw [he]; simp
    refine ⟨fun x hx => ?_, ?_⟩
    · simp only [List.mem_append, List.mem_cons] at hx
      rcases hx with hx | rfl | hx
      · exact h.runs x (by rw [he]; simp [hx])
      · exact refreshInv_step r x (h.runs r hr) hstep
      · exact h.runs x (by rw [he]; simp [hx])
    · rcases h.cache with e | ⟨x, hx, hm, hc⟩
      · exact Or.inl e
      · rw [he] at hx
        simp only [List.mem_append, List.mem_cons] at hx
        rcases hx with hx | rfl | hx
        · exact Or.inr ⟨x, by simp [hx], hm, hc⟩
        · have hres := refreshStep_results x r' hstep
          refine Or.inr ⟨r', by simp, hres.2 hm, ?_⟩
          rw [hres.1]; exact hc
        · exact Or.inr ⟨x, by simp [hx], hm, hc⟩
  | swapped pre post r he hm =>
    have hr : r ∈ s.refreshes := by rw [he]; simp
    have hinv := h.runs r hr
    have hcomp := refreshInv_complete r hinv (Or.inl hm)
    refine ⟨fun x hx => ?_, Or.inr ⟨{ r with main := MainPc.finished }, by simp, rfl,
      hcomp.2.2⟩⟩
    simp only [List.mem_append, List.mem_cons] at hx
    rcases hx with hx | rfl | hx
    · exact h.runs x (by rw [he]; simp [hx])
    · exact ⟨hinv.fold, fun _ => hcomp.1, fun _ => hcomp.2.1⟩
    · exact h.runs x (by rw [he]; simp [hx])

theorem systemInv_reachable (cache₀ : List dto.MetricFamily) (s : System)
    (h : Reachable cache₀ s) : SystemInv cache₀ s := by
  induction h with
  | init => exact ⟨fun r hr => absurd hr (List.not_mem_nil r), Or.inl rfl⟩
  | step s s' _ hs ih => exact systemInv_step cache₀ s s' ih hs

theorem cache_step (cache₀ : List dto.MetricFamily) (s s' : System)
    (h : SystemInv cache₀ s) (hs : SystemStep s s') :
    s'.cache = s.cache ∨
      ∃ r ∈ s.refreshes, r.main = MainPc.locking ∧ s'.cache = r.newMfs ∧
        (∀ t ∈ r.tasks, t = ScrapeTask.returned) ∧ r.folder = FoldPc.exited ∧
        CompleteFold r.results r.newMfs := by
  cases hs with
  | started results => exact Or.inl rfl
  | stepped pre post r r' he hstep => exact Or.inl rfl
  | swapped pre post r he hm =>
    have hr : r ∈ s.refreshes := by rw [he]; simp
    exact Or.inr ⟨r, hr, hm, rfl, refreshInv_complete r (h.runs r hr) (Or.inl hm)⟩

theorem forall₂_map_self {α β : Type} (R : α → β → Prop) (g : α → β) (l : List α)
    (h : ∀ x ∈ l, R x (g x)) : List.Forall₂ R l (l.map g) := by
  rw [List.forall₂_map_right_iff, List.forall₂_same]
  exact h

theorem sameButLabels_AddLabels (mfs : List dto.MetricFamily) (labels : model.LabelSet) :
    List.Forall₂ SameButLabels mfs (AddLabels mfs labels) := by
  unfold AddLabels
  refine forall₂_map_self _ _ _ (fun f _ => ⟨rfl, rfl, rfl, ?_⟩)
  exact forall₂_map_self _ _ _ (fun m _ => ⟨rfl, rfl, rfl, rfl, rfl, rfl⟩)

theorem option_ext_of_some {α : Type} (a b : Option α)
    (h : ∀ v, a = some v ↔ b = some v) : a = b := by
  cases a with
  | none =>
    cases b with
    | none => rfl
    | some w => exact absurd ((h w).2 rfl) (by simp)
  | some v => exact ((h v).1 rfl).symm

theorem named_addLabelsMetric (labels : model.LabelSet) (m : dto.Metric) :
    ∀ p ∈ (addLabelsMetric labels m).Label, p.Name ≠ none := by
  intro p hp
  obtain ⟨n, v, rfl, _⟩ := (mem_addLabelsMetric_Label labels m p).1 hp
  simp

theorem lastValue_addLabelsMetric (labels : model.LabelSet) (m : dto.Metric) (n : String) :
    lastValue LabelPair.Name (addLabelsMetric labels m).Label n =
      overlaid labels m.Label n := by
  have hnd : ((addLabelsMetric labels m).Label.map (fun p => p.GetName)).Nodup :=
    ascending_nodup _ (ascending_addLabelsMetric labels m)
  have hnamed := named_addLabelsMetric labels m
  apply option_ext_of_some
  intro v
  constructor
  · intro h
    obtain ⟨p, hp, hpn, hpv⟩ := lastValue_mem _ _ _ _ h
    obtain ⟨n', v', rfl, hv⟩ := (mem_addLabelsMetric_Label labels m p).1 hp
    simp only [Option.some.injEq] at hpn
    simp only [LabelPair.GetValue, Option.getD_some] at hpv
    rw [← hpn, ← hpv]
    exact hv
  · intro h
    have hp := (mem_addLabelsMetric_Label labels m ⟨some n, some v⟩).2 ⟨n, v, rfl, h⟩
    exact lastValue_of_named_nodup _ hnamed hnd ⟨some n, some v⟩ hp

theorem overlaid_addLabelsMetric (labels : model.LabelSet) (m : dto.Metric) (n : String) :
    overlaid labels (addLabelsMetric labels m).Label n = overlaid labels m.Label n := by
  unfold overlaid
  cases hg : mapGet? labels.entries n with
  | some v => rfl
  | none =>
    simp only
    rw [lastValue_addLabelsMetric]
    unfold overlaid
    rw [hg]

theorem addLabelsMetric_idem (labels : model.LabelSet) (m : dto.Metric) :
    addLabelsMetric labels (addLabelsMetric labels m) = addLabelsMetric labels m := by
  have hL : (addLabelsMetric labels (addLabelsMetric labels m)).Label =
      (addLabelsMetric labels m).Label := by
    apply ascending_unique (fun p : dto.LabelPair => p.GetName)
    · rw [List.perm_ext_iff_of_nodup]
      · intro p
        rw [mem_addLabelsMetric_Label, mem_addLabelsMetric_Label]
        simp only [overlaid_addLabelsMetric]
      · exact (ascending_nodup _ (ascending_addLabelsMetric labels _)).of_map _
      · exact (ascending_nodup _ (ascending_addLabelsMetric labels _)).of_map _
    · exact ascending_addLabelsMetric labels _
    · exact ascending_addLabelsMetric labels _
  have e : ∀ x : dto.Metric, addLabelsMetric labels x =
      { x with Label := (addLabelsMetric labels x).Label } := fun _ => rfl
  rw [e (addLabelsMetric labels m), hL]

theorem checkSample_eq_none_iff (desc : prometheus.Desc) (labelValues : List String) :
    prometheus.checkSample desc labelValues = none ↔
      desc.err = none ∧ labelValues.length = desc.variableLabels.length := by
  unfold prometheus.checkSample prometheus.validateLabelValues
  cases desc.err with
  | some err => simp
  | none => by_cases h : labelValues.length = desc.variableLabels.length <;> simp [h]

theorem must_eq_ok_iff {α : Type} (result : Except prometheus.Error α) (value : α) :
    prometheus.must result = Except.ok value ↔ result = Except.ok value := by
  cases result with
  | error err => simp [prometheus.must]
  | ok v => simp [prometheus.must]

theorem must_cases {α : Type} (result : Except prometheus.Error α) :
    (∃ value, prometheus.must result = Except.ok value) ∨
      ∃ err, prometheus.must result = Except.error (Panic.error err) := by
  cases result with
  | error err => exact Or.inr ⟨err, rfl⟩
  | ok v => exact Or.inl ⟨v, rfl⟩

theorem MustNewConstMetric_eq_ok_iff (desc : prometheus.Desc)
    (valueType : prometheus.ValueType) (value : Float64) (labelValues : List String)
    (sample : prometheus.Metric) :
    prometheus.MustNewConstMetric desc valueType value labelValues = Except.ok sample ↔
      prometheus.checkSample desc labelValues = none ∧
        sample = prometheus.Metric.constMetric desc valueType value labelValues := by
  unfold prometheus.MustNewConstMetric prometheus.NewConstMetric
  rw [must_eq_ok_iff]
  cases prometheus.checkSample desc labelValues with
  | some err => simp
  | none => simp [eq_comm]

theorem MustNewConstSummary_eq_ok_iff (desc : prometheus.Desc) (count : Nat) (sum : Float64)
    (quantiles : List (Float64 × Float64)) (labelValues : List String)
    (sample : prometheus.Metric) :
    prometheus.MustNewConstSummary desc count sum quantiles labelValues = Except.ok sample ↔
      prometheus.checkSample desc labelValues = none ∧
        sample = prometheus.Metric.constSummary desc count sum quantiles labelValues := by
  unfold prometheus.MustNewConstSummary prometheus.NewConstSummary
  rw [must_eq_ok_iff]
  cases prometheus.checkSample desc labelValues with
  | some err => simp
  | none => simp [eq_comm]

theorem MustNewConstHistogram_eq_ok_iff (desc : prometheus.Desc) (count : Nat) (sum : Float64)
    (buckets : List (Float64 × Nat)) (labelValues : List String)
    (sample : prometheus.Metric) :
    prometheus.MustNewConstHistogram desc count sum buckets labelValues = Except.ok sample ↔
      prometheus.checkSample desc labelValues = none ∧
        sample = prometheus.Metric.constHistogram desc count sum buckets labelValues := by
  unfold prometheus.MustNewConstHistogram prometheus.NewConstHistogram
  rw [must_eq_ok_iff]
  cases prometheus.checkSample desc labelValues with
  | some err => simp
  | none => simp [eq_comm]

theorem convertMetric_scalar (t : dto.MetricType) (desc : prometheus.Desc) (m : dto.Metric)
    (ht : t = MetricType_COUNTER ∨ t = MetricType_GAUGE ∨ t = MetricType_UNTYPED) :
    convertMetric t desc m =
      prometheus.MustNewConstMetric desc (valueTypeOf t) (scalarOf t m)
        (toLabelValueSlice (newLabelSet m.Label)) := by
  have h1 : MetricType_GAUGE ≠ MetricType_COUNTER := by decide
  have h2 : MetricType_UNTYPED ≠ MetricType_COUNTER := by decide
  have h3 : MetricType_UNTYPED ≠ MetricType_GAUGE := by decide
  rcases ht with rfl | rfl | rfl <;>
    simp [convertMetric, valueTypeOf, scalarOf, h1, h2, h3, Metric.GetLabel]

theorem convertMetric_histogram (desc : prometheus.Desc) (m : dto.Metric) :
    convertMetric MetricType_HISTOGRAM desc m =
      prometheus.MustNewConstHistogram desc
        (dto.Histogram.GetSampleCount m.Histogram) (dto.Histogram.GetSampleSum m.Histogram)
        ((dto.Histogram.GetBucket m.Histogram).foldl
          (fun bs b => floatMapAssign bs b.GetUpperBound b.GetCumulativeCount) [])
        (toLabelValueSlice (newLabelSet m.Label)) := by
  have h1 : MetricType_HISTOGRAM ≠ MetricType_COUNTER := by decide
  have h2 : MetricType_HISTOGRAM ≠ MetricType_GAUGE := by decide
  have h3 : MetricType_HISTOGRAM ≠ MetricType_UNTYPED := by decide
  have h4 : MetricType_HISTOGRAM ≠ MetricType_SUMMARY := by decide
  simp [convertMetric, h1, h2, h3, h4, Metric.GetLabel]

theorem convertMetric_summary (desc : prometheus.Desc) (m : dto.Metric) :
    convertMetric MetricType_SUMMARY desc m =
      prometheus.MustNewConstSummary desc
        (dto.Summary.GetSampleCount m.Summary) (dto.Summary.GetSampleSum m.Summary)
        ((dto.Summary.GetQuantile m.Summary).foldl
          (fun qs q => floatMapAssign qs q.GetQuantile q.GetValue) [])
        (toLabelValueSlice (newLabelSet m.Label)) := by
  have h1 : MetricType_SUMMARY ≠ MetricType_COUNTER := by decide
  have h2 : MetricType_SUMMARY ≠ MetricType_GAUGE := by decide
  have h3 : MetricType_SUMMARY ≠ MetricType_UNTYPED := by decide
  simp [convertMetric, h1, h2, h3, Metric.GetLabel]

theorem convertMetric_returns_iff (t : dto.MetricType) (desc : prometheus.Desc)
    (m : dto.Metric) (h : Supported t) :
    (∃ sample, convertMetric t desc m = Except.ok sample) ↔
      prometheus.checkSample desc (toLabelValueSlice (newLabelSet m.Label)) = none := by
  rcases h with h | h | h | h | h
  · rw [convertMetric_scalar t desc m (Or.inl h)]
    simp [MustNewConstMetric_eq_ok_iff]
  · rw [convertMetric_scalar t desc m (Or.inr (Or.inl h))]
    simp [MustNewConstMetric_eq_ok_iff]
  · rw [convertMetric_scalar t desc m (Or.inr (Or.inr h))]
    simp [MustNewConstMetric_eq_ok_iff]
  · rw [h, convertMetric_summary]
    simp [MustNewConstSummary_eq_ok_iff]
  · rw [h, convertMetric_histogram]
    simp [MustNewConstHistogram_eq_ok_iff]

theorem convertMetric_supported (t : dto.MetricType) (desc : prometheus.Desc)
    (m : dto.Metric) (h : Supported t) :
    (∃ sample, convertMetric t desc m = Except.ok sample) ∨
      ∃ err, convertMetric t desc m = Except.error (Panic.error err) := by
  rcases h with h | h | h | h | h
  · rw [convertMetric_scalar t desc m (Or.inl h)]; exact must_cases _
  · rw [convertMetric_scalar t desc m (Or.inr (Or.inl h))]; exact must_cases _
  · rw [convertMetric_scalar t desc m (Or.inr (Or.inr h))]; exact must_cases _
  · rw [h, convertMetric_summary]; exact must_cases _
  · rw [h, convertMetric_histogram]; exact must_cases _

theorem histogramCopied_convert (desc : prometheus.Desc) (m : dto.Metric)
    (sample : prometheus.Metric)
    (h : convertMetric MetricType_HISTOGRAM desc m = Except.ok sample) :
    HistogramCopied m sample := by
  rw [convertMetric_histogram, MustNewConstHistogram_eq_ok_iff] at h
  refine ⟨_, _, _, h.2, fun hd => ?_⟩
  have e := foldl_floatMapAssign_fresh (fun b : dto.Bucket => b.GetUpperBound)
    (fun b => b.GetCumulativeCount) (dto.Histogram.GetBucket m.Histogram) []
    (fun p hp => by cases hp) hd
  rw [List.nil_append] at e
  refine ⟨e, fun b hb hn => ?_⟩
  rw [e]
  exact floatMapGet?_of_distinct _ _ _ hd b hb hn

theorem summaryCopied_convert (desc : prometheus.Desc) (m : dto.Metric)
    (sample : prometheus.Metric)
    (h : convertMetric MetricType_SUMMARY desc m = Except.ok sample) :
    SummaryCopied m sample := by
  rw [convertMetric_summary, MustNewConstSummary_eq_ok_iff] at h
  refine ⟨_, _, _, h.2, fun hd => ?_⟩
  have e := foldl_floatMapAssign_fresh (fun q : dto.Quantile => q.GetQuantile)
    (fun q => q.GetValue) (dto.Summary.GetQuantile m.Summary) []
    (fun p hp => by cases hp) hd
  rw [List.nil_append] at e
  refine ⟨e, fun q hq hn => ?_⟩
  rw [e]
  exact floatMapGet?_of_distinct _ _ _ hd q hq hn

theorem foldlM_collect_ok_iff {α β : Type} (step : List β → α → Except Panic (List β))
    (g : α → Except Panic β)
    (hstep : ∀ acc a, step acc a =
      match g a with
      | Except.error p => Except.error p
      | Except.ok b => Except.ok (acc ++ [b]))
    (l : List α) (init out : List β) :
    l.foldlM step init = Except.ok out ↔
      ∃ bs, out = init ++ bs ∧ List.Forall₂ (fun a b => g a = Except.ok b) l bs := by
  induction l generalizing init with
  | nil =>
    simp only [List.foldlM, pure, Except.pure]
    constructor
    · intro h
      exact ⟨[], by rw [List.append_nil]; exact (Except.ok.inj h).symm, List.Forall₂.nil⟩
    · rintro ⟨bs, rfl, hbs⟩
      cases hbs
      rw [List.append_nil]
  | cons a l ih =>
    rw [List.foldlM_cons, hstep]
    cases hg : g a with
    | error p =>
      simp only [bind, Except.bind]
      constructor
      · intro h; cases h
      · rintro ⟨bs, -, hbs⟩
        cases hbs with
        | cons hab _ => rw [hg] at hab; cases hab
    | ok b =>
      simp only [bind, Except.bind]
      rw [ih]
      constructor
      · rintro ⟨bs, rfl, hbs⟩
        exact ⟨b :: bs, by simp, List.Forall₂.cons hg hbs⟩
      · rintro ⟨bs, rfl, hbs⟩
        cases hbs with
        | cons hab hrest =>
          rw [hg] at hab
          cases hab
          exact ⟨_, by simp, hrest⟩

theorem MetricFamilyToMetrics_eq_ok_iff (f : dto.MetricFamily)
    (samples : List prometheus.Metric) :
    MetricFamilyToMetrics f = Except.ok samples ↔
      List.Forall₂ (fun m sample => ∃ desc, MetricFamilyToDesc f = Except.ok desc ∧
        convertMetric f.GetType desc m = Except.ok sample) f.Metric samples := by
  unfold MetricFamilyToMetrics
  rw [foldlM_collect_ok_iff _
    (fun m => match MetricFamilyToDesc f with
      | Except.error p => Except.error p
      | Except.ok desc => convertMetric f.GetType desc m)]
  · simp only [List.nil_append, exists_eq_left', MetricFamily.GetMetric]
    constructor <;> intro h <;> refine h.imp (fun m sample hm => ?_)
    · cases hd : MetricFamilyToDesc f with
      | error p => rw [hd] at hm; cases hm
      | ok desc => rw [hd] at hm; exact ⟨desc, rfl, hm⟩
    · obtain ⟨desc, hd, hc⟩ := hm
      rw [hd]
      exact hc
  · intro acc a
    cases MetricFamilyToDesc f with
    | error p => rfl
    | ok desc =>
      simp only [bind, Except.bind, pure, Except.pure]
      cases convertMetric f.GetType desc a <;> rfl

theorem length_toLabelNameSlice (L : List dto.LabelPair) :
    (toLabelNameSlice (newLabelSet L)).length =
      (L.map (fun p => p.GetName)).dedup.length := by
  unfold toLabelNameSlice
  rw [(sortStrings_perm _).length_eq]
  refine List.Perm.length_eq ((List.perm_ext_iff_of_nodup (newLabelSet L).nodup
    (List.nodup_dedup _)).2 (fun n => ?_))
  rw [mem_keys_newLabelSet, List.mem_dedup, List.mem_map]

theorem length_toLabelValueSlice (L : List dto.LabelPair) :
    (toLabelValueSlice (newLabelSet L)).length =
      (L.map (fun p => p.GetName)).dedup.length := by
  rw [← length_toLabelNameSlice]
  unfold toLabelValueSlice toLabelNameSlice
  rw [List.length_map]

theorem variableLabels_NewDesc (fqName help : String) (variableLabels : List String)
    (constLabels : List (String × String)) :
    (prometheus.NewDesc fqName help variableLabels constLabels).variableLabels =
      variableLabels := rfl

theorem exists_forall₂_iff {α β : Type} (R : α → β → Prop) (l : List α) :
    (∃ l', List.Forall₂ R l l') ↔ ∀ a ∈ l, ∃ b, R a b := by
  induction l with
  | nil => exact ⟨fun _ a ha => absurd ha (List.not_mem_nil a), fun _ => ⟨[], List.Forall₂.nil⟩⟩
  | cons x l ih =>
    constructor
    · rintro ⟨l', h⟩ a ha
      cases h with
      | cons hxb hrest =>
        rcases List.mem_cons.1 ha with rfl | hm
        · exact ⟨_, hxb⟩
        · exact ih.1 ⟨_, hrest⟩ a hm
    · intro h
      obtain ⟨b, hb⟩ := h x (List.mem_cons_self _ _)
      obtain ⟨l', hl'⟩ := ih.2 (fun a ha => h a (List.mem_cons_of_mem _ ha))
      exact ⟨b :: l', List.Forall₂.cons hb hl'⟩

theorem convertible_cons (f : dto.MetricFamily) (first : dto.Metric)
    (rest : List dto.Metric) (hf : f.Metric = first :: rest) :
    Convertible f ↔
      (prometheus.NewDesc f.GetName f.GetHelp
        (toLabelNameSlice (newLabelSet first.Label)) []).err = none ∧
      ∀ m ∈ f.Metric, (m.Label.map (fun p => p.GetName)).dedup.length =
        (first.Label.map (fun p => p.GetName)).dedup.length := by
  unfold Convertible
  rw [MetricFamilyToDesc_cons f first rest hf]
  constructor
  · rintro ⟨h1, h2⟩
    exact ⟨h1 _ rfl, h2 first (by rw [hf]; rfl)⟩
  · rintro ⟨h1, h2⟩
    refine ⟨fun desc hd => ?_, fun first' hfirst => ?_⟩
    · rw [← Except.ok.inj hd]; exact h1
    · rw [hf] at hfirst
      simp only [List.head?_cons, Option.mem_def, Option.some.injEq] at hfirst
      rw [← hfirst]; exact h2

theorem convertible_nil (f : dto.MetricFamily) (hf : f.Metric = []) : Convertible f := by
  constructor
  · intro desc hd
    unfold MetricFamilyToDesc at hd
    rw [hf] at hd
    cases hd
  · intro first hfirst
    rw [hf] at hfirst
    cases hfirst

theorem MetricFamilyToMetrics_returns_iff (f : dto.MetricFamily) (h : Supported f.GetType) :
    (∃ samples, MetricFamilyToMetrics f = Except.ok samples) ↔ Convertible f := by
  cases hf : f.Metric with
  | nil =>
    exact ⟨fun _ => convertible_nil f hf, fun _ => ⟨[], MetricFamilyToMetrics_nil f hf⟩⟩
  | cons first rest =>
    rw [convertible_cons f first rest hf]
    simp only [MetricFamilyToMetrics_eq_ok_iff, exists_forall₂_iff,
      MetricFamilyToDesc_cons f first rest hf, Except.ok.injEq, exists_eq_left']
    simp only [convertMetric_returns_iff _ _ _ h, checkSample_eq_none_iff,
      variableLabels_NewDesc, length_toLabelValueSlice, length_toLabelNameSlice]
    constructor
    · intro hall
      exact ⟨(hall first (by rw [hf]; exact List.mem_cons_self _ _)).1, fun m hm => (hall m hm).2⟩
    · rintro ⟨h1, h2⟩ m hm
      exact ⟨h1, h2 m hm⟩

theorem marked_injective : Function.Injective (fun l : String => "$" ++ l) := by
  intro a b h
  have h' := congrArg String.data h
  simp only [String.data_append] at h'
  exact String.ext (List.append_cancel_left h')

theorem err_NewDesc_eq_none_iff (fqName help : String) (variableLabels : List String) :
    (prometheus.NewDesc fqName help variableLabels []).err = none ↔
      prometheus.IsValidMetricName fqName = true ∧
      (∀ l ∈ variableLabels, prometheus.checkLabelName l = true) ∧
      variableLabels.Nodup := by
  unfold prometheus.NewDesc
  simp only [List.map_nil, List.find?_nil, List.nil_append]
  by_cases hn : prometheus.IsValidMetricName fqName = true
  · simp only [hn, Bool.not_true, Bool.false_eq_true, if_false, true_and]
    cases hfind : variableLabels.find? (fun l => !prometheus.checkLabelName l) with
    | some l =>
      have hl := List.find?_some hfind
      have hm := List.mem_of_find?_eq_some hfind
      simp only [Bool.not_eq_true', ] at hl
      constructor
      · intro h; cases h
      · rintro ⟨h, -⟩
        rw [h l hm] at hl; cases hl
    | none =>
      rw [List.find?_eq_none] at hfind
      simp only [Bool.not_eq_true', Bool.not_eq_false] at hfind
      have hmark := List.nodup_map_iff (l := variableLabels) marked_injective
      by_cases hd : variableLabels.Nodup
      · have hd' := hmark.2 hd
        simp only [hd, hd', if_true, and_true, true_iff]; exact hfind
      · have hd' : ¬ (variableLabels.map (fun l => "$" ++ l)).Nodup := fun h => hd (hmark.1 h)
        simp only [hd, hd', if_false, and_false]
        exact ⟨fun h => (by cases h), fun h => h.elim⟩
  · have hn' : prometheus.IsValidMetricName fqName = false := by
      cases h : prometheus.IsValidMetricName fqName with
      | true => exact absurd h hn
      | false => rfl
    simp only [hn', Bool.not_false, if_true]
    exact ⟨fun h => (by cases h), fun h => (by cases h.1)⟩

theorem convertible_iff_names (f : dto.MetricFamily) :
    Convertible f ↔
      ∀ first ∈ f.Metric.head?,
        prometheus.IsValidMetricName f.GetName = true ∧
        (∀ p ∈ first.Label, prometheus.checkLabelName p.GetName = true) ∧
        ∀ m ∈ f.Metric, (m.Label.map (fun p => p.GetName)).dedup.length =
          (first.Label.map (fun p => p.GetName)).dedup.length := by
  cases hf : f.Metric with
  | nil =>
    constructor
    · intro _ first hfirst
      cases hfirst
    · exact fun _ => convertible_nil f hf
  | cons first rest =>
    rw [← hf, convertible_cons f first rest hf, err_NewDesc_eq_none_iff]
    have hnd : (toLabelNameSlice (newLabelSet first.Label)).Nodup :=
      (sortStrings_perm _).nodup_iff.2 (newLabelSet first.Label).nodup
    have hmem : (∀ l ∈ toLabelNameSlice (newLabelSet first.Label),
        prometheus.checkLabelName l = true) ↔
        ∀ p ∈ first.Label, prometheus.checkLabelName p.GetName = true := by
      constructor
      · intro h p hp
        exact h _ ((mem_toLabelNameSlice first.Label _).2 ⟨p, hp, rfl⟩)
      · intro h l hl
        obtain ⟨p, hp, rfl⟩ := (mem_toLabelNameSlice first.Label l).1 hl
        exact h p hp
    rw [hmem]
    constructor
    · rintro ⟨⟨h1, h2, -⟩, h3⟩ first' hfirst
      rw [hf] at hfirst
      simp only [List.head?_cons, Option.mem_def, Option.some.injEq] at hfirst
      subst hfirst
      exact ⟨h1, h2, h3⟩
    · intro h
      obtain ⟨h1, h2, h3⟩ := h first (by rw [hf]; rfl)
      exact ⟨⟨h1, h2, hnd⟩, h3⟩

/-! ## The claims -/

/-- C1: for every pair of family sets `a` and `b` and no option, whatever the order `r` in
which `MergeMetricFamily a b` returns its families: a name occurs in the result iff it
occurs in `a` or in `b`, the result holds one family per name, and the series list of each
result family is the concatenation, in order, of the series lists of all families of `a`
with its name followed by those of all families of `b` with its name. -/
theorem C1_merge_groups_by_name (a b r : List dto.MetricFamily)
    (hr : r.Perm (MergeMetricFamily a b [])) :
    (∀ n, n ∈ names r ↔ n ∈ names a ∨ n ∈ names b) ∧
    (names r).Nodup ∧
    ∀ f ∈ r, f.Metric = seriesOf f.GetName a ++ seriesOf f.GetName b := by
  refine ⟨fun n => ?_, ?_, fun f hf => ?_⟩
  · rw [← mem_names_MergeMetricFamily a b n]
    exact (hr.map _).mem_iff
  · exact (hr.map _).nodup_iff.2 (nodup_names_MergeMetricFamily a b)
  · exact metric_of_mem_MergeMetricFamily a b f (hr.subset hf)

theorem C1_merge_groups_by_name_witness :
    [exFamily "B" [exSeries [] 2], exFamily "A" [exSeries [] 1, exSeries [] 1]].Perm
        (MergeMetricFamily [exFamily "A" [exSeries [] 1], exFamily "B" [exSeries [] 2]]
          [exFamily "A" [exSeries [] 1]] []) ∧
      ((∀ n, n ∈ names [exFamily "B" [exSeries [] 2],
            exFamily "A" [exSeries [] 1, exSeries [] 1]] ↔
          n ∈ names [exFamily "A" [exSeries [] 1], exFamily "B" [exSeries [] 2]] ∨
            n ∈ names [exFamily "A" [exSeries [] 1]]) ∧
        (names [exFamily "B" [exSeries [] 2],
          exFamily "A" [exSeries [] 1, exSeries [] 1]]).Nodup ∧
        ∀ f ∈ [exFamily "B" [exSeries [] 2], exFamily "A" [exSeries [] 1, exSeries [] 1]],
          f.Metric =
            seriesOf f.GetName [exFamily "A" [exSeries [] 1], exFamily "B" [exSeries [] 2]] ++
              seriesOf f.GetName [exFamily "A" [exSeries [] 1]]) :=
  ⟨by decide, C1_merge_groups_by_name _ _ _ (by decide)⟩

/-- C2: `MergeMetricFamily a b` and `MergeMetricFamily b a`, each in whatever order it
returns its families, hold the same family names, and the family of a name in the one has
the same series, as a multiset, as the family of that name in the other, so the same
number of series. -/
theorem C2_merge_commutative (a b r r' : List dto.MetricFamily)
    (hr : r.Perm (MergeMetricFamily a b [])) (hr' : r'.Perm (MergeMetricFamily b a [])) :
    (∀ n, n ∈ names r ↔ n ∈ names r') ∧
    (∀ f ∈ r, ∃ g ∈ r', g.GetName = f.GetName ∧ f.Metric.Perm g.Metric ∧
      f.Metric.length = g.Metric.length) ∧
    (∀ g ∈ r', ∃ f ∈ r, f.GetName = g.GetName ∧ f.Metric.Perm g.Metric ∧
      f.Metric.length = g.Metric.length) := by
  have h1 := perm_MergeMetricFamily_spec a b r hr
  have h2 := perm_MergeMetricFamily_spec b a r' hr'
  have hn : ∀ n, n ∈ names r ↔ n ∈ names r' := fun n => by
    rw [h1.1 n, h2.1 n]; exact or_comm
  refine ⟨hn, fun f hf => ?_, fun g hg => ?_⟩
  · obtain ⟨g, hg, hgn⟩ := List.mem_map.1 ((hn f.GetName).1 (List.mem_map_of_mem _ hf))
    have hp : f.Metric.Perm g.Metric := by
      rw [h1.2.2 f hf, h2.2.2 g hg, hgn]
      exact List.perm_append_comm
    exact ⟨g, hg, hgn, hp, hp.length_eq⟩
  · obtain ⟨f, hf, hfn⟩ := List.mem_map.1 ((hn g.GetName).2 (List.mem_map_of_mem _ hg))
    have hp : f.Metric.Perm g.Metric := by
      rw [h1.2.2 f hf, h2.2.2 g hg, hfn]
      exact List.perm_append_comm
    exact ⟨f, hf, hfn, hp, hp.length_eq⟩

theorem C2_merge_commutative_witness :
    [exFamily "A" [exSeries [] 1, exSeries [] 2]].Perm
        (MergeMetricFamily [exFamily "A" [exSeries [] 1]] [exFamily "A" [exSeries [] 2]] []) ∧
      [exFamily "A" [exSeries [] 2, exSeries [] 1]].Perm
        (MergeMetricFamily [exFamily "A" [exSeries [] 2]] [exFamily "A" [exSeries [] 1]] []) ∧
      ((∀ n, n ∈ names [exFamily "A" [exSeries [] 1, exSeries [] 2]] ↔
          n ∈ names [exFamily "A" [exSeries [] 2, exSeries [] 1]]) ∧
        (∀ f ∈ [exFamily "A" [exSeries [] 1, exSeries [] 2]],
          ∃ g ∈ [exFamily "A" [exSeries [] 2, exSeries [] 1]],
            g.GetName = f.GetName ∧ f.Metric.Perm g.Metric ∧
              f.Metric.length = g.Metric.length) ∧
        (∀ g ∈ [exFamily "A" [exSeries [] 2, exSeries [] 1]],
          ∃ f ∈ [exFamily "A" [exSeries [] 1, exSeries [] 2]],
            f.GetName = g.GetName ∧ f.Metric.Perm g.Metric ∧
              f.Metric.length = g.Metric.length)) :=
  ⟨by decide, by decide,
    C2_merge_commutative [exFamily "A" [exSeries [] 1]] [exFamily "A" [exSeries [] 2]]
      [exFamily "A" [exSeries [] 1, exSeries [] 2]]
      [exFamily "A" [exSeries [] 2, exSeries [] 1]] (by decide) (by decide)⟩

/-- C3: merging `a` with `b` and the result with `c`, or `a` with the result of merging
`b` with `c`, each result in whatever order it is returned, gives the same family names
and, for every name, families with the same series as a multiset (here even in the same
order); in particular three sets of one family each, all of one name, with the series
`s1`, `s2`, `s3`, give in either grouping one family of that name with exactly the series
`s1`, `s2`, `s3`. -/
theorem C3_merge_associative (a b c ab bc r r' : List dto.MetricFamily)
    (hab : ab.Perm (MergeMetricFamily a b [])) (hbc : bc.Perm (MergeMetricFamily b c []))
    (hr : r.Perm (MergeMetricFamily ab c [])) (hr' : r'.Perm (MergeMetricFamily a bc [])) :
    (∀ n, n ∈ names r ↔ n ∈ names r') ∧
    (∀ f ∈ r, ∃ g ∈ r', g.GetName = f.GetName ∧ f.Metric.Perm g.Metric ∧
      f.Metric = g.Metric) ∧
    (∀ g ∈ r', ∃ f ∈ r, f.GetName = g.GetName ∧ f.Metric.Perm g.Metric ∧
      f.Metric = g.Metric) ∧
    (∀ (name help₁ help₂ help₃ : Option String) (t₁ t₂ t₃ : Option dto.MetricType)
        (s1 s2 s3 : dto.Metric),
      a = [⟨name, help₁, t₁, [s1]⟩] → b = [⟨name, help₂, t₂, [s2]⟩] →
      c = [⟨name, help₃, t₃, [s3]⟩] →
      r = [⟨name, help₁, t₁, [s1, s2, s3]⟩] ∧ r' = [⟨name, help₁, t₁, [s1, s2, s3]⟩]) := by
  have h1 := perm_MergeMetricFamily_spec ab c r hr
  have h2 := perm_MergeMetricFamily_spec a bc r' hr'
  have hab1 := perm_MergeMetricFamily_spec a b ab hab
  have hbc1 := perm_MergeMetricFamily_spec b c bc hbc
  have hn : ∀ n, n ∈ names r ↔ n ∈ names r' := fun n => by
    rw [h1.1 n, h2.1 n, hab1.1 n, hbc1.1 n]; exact or_assoc
  have hm : ∀ f ∈ r, ∀ g ∈ r', f.GetName = g.GetName → f.Metric = g.Metric := by
    intro f hf g hg hfg
    rw [h1.2.2 f hf, h2.2.2 g hg, hfg, seriesOf_perm_MergeMetricFamily _ a b ab hab,
      seriesOf_perm_MergeMetricFamily _ b c bc hbc, List.append_assoc]
  refine ⟨hn, fun f hf => ?_, fun g hg => ?_, ?_⟩
  · obtain ⟨g, hg, hgn⟩ := List.mem_map.1 ((hn f.GetName).1 (List.mem_map_of_mem _ hf))
    have e := hm f hf g hg hgn.symm
    exact ⟨g, hg, hgn, e ▸ List.Perm.refl _, e⟩
  · obtain ⟨f, hf, hfn⟩ := List.mem_map.1 ((hn g.GetName).2 (List.mem_map_of_mem _ hg))
    have e := hm f hf g hg hfn
    exact ⟨f, hf, hfn, e ▸ List.Perm.refl _, e⟩
  · intro name help₁ help₂ help₃ t₁ t₂ t₃ s1 s2 s3 ha hb hc
    subst ha hb hc
    rw [MergeMetricFamily_singletons] at hab hbc
    have eab := List.perm_singleton.1 hab
    have ebc := List.perm_singleton.1 hbc
    subst eab ebc
    rw [MergeMetricFamily_singletons] at hr hr'
    exact ⟨List.perm_singleton.1 hr, List.perm_singleton.1 hr'⟩

theorem C3_merge_associative_witness :
    [exFamily "A" [exSeries [] 1, exSeries [] 2]].Perm
        (MergeMetricFamily [exFamily "A" [exSeries [] 1]] [exFamily "A" [exSeries [] 2]] []) ∧
      [exFamily "A" [exSeries [] 2, exSeries [] 3]].Perm
        (MergeMetricFamily [exFamily "A" [exSeries [] 2]] [exFamily "A" [exSeries [] 3]] []) ∧
      [exFamily "A" [exSeries [] 1, exSeries [] 2, exSeries [] 3]].Perm
        (MergeMetricFamily [exFamily "A" [exSeries [] 1, exSeries [] 2]]
          [exFamily "A" [exSeries [] 3]] []) ∧
      [exFamily "A" [exSeries [] 1, exSeries [] 2, exSeries [] 3]].Perm
        (MergeMetricFamily [exFamily "A" [exSeries [] 1]]
          [exFamily "A" [exSeries [] 2, exSeries [] 3]] []) ∧
      ∀ f ∈ [exFamily "A" [exSeries [] 1, exSeries [] 2, exSeries [] 3]],
        ∃ g ∈ [exFamily "A" [exSeries [] 1, exSeries [] 2, exSeries [] 3]],
          g.GetName = f.GetName ∧ f.Metric.Perm g.Metric ∧ f.Metric = g.Metric :=
  ⟨by decide, by decide, by decide, by decide,
    (C3_merge_associative [exFamily "A" [exSeries [] 1]] [exFamily "A" [exSeries [] 2]]
      [exFamily "A" [exSeries [] 3]] [exFamily "A" [exSeries [] 1, exSeries [] 2]]
      [exFamily "A" [exSeries [] 2, exSeries [] 3]]
      [exFamily "A" [exSeries [] 1, exSeries [] 2, exSeries [] 3]]
      [exFamily "A" [exSeries [] 1, exSeries [] 2, exSeries [] 3]]
      (by decide) (by decide) (by decide) (by decide)).2.1⟩

/-- C4 as stated fails for a native pair whose `Name` is nil: it has the (unique) name `""`
and a name that the empty overlay does not have, and `AddLabels` drops it. -/
theorem C4_counterexample :
    (exNameless.Label.map (fun p => p.GetName)).Nodup ∧
      (∀ p ∈ exNameless.Label,
        p.GetName ∉ (model.LabelSet.make).entries.map Prod.fst) ∧
      AddLabels [exFamily "dummy" [exNameless]] model.LabelSet.make =
        [exFamily "dummy" [{ exNameless with Label := [] }]] ∧
      ¬ IsUnionSorted exNameless.Label model.LabelSet.make [] := by
  refine ⟨by decide, by decide, by decide, fun h => ?_⟩
  obtain ⟨q, hq, _⟩ := (h.2 "" "v").2 (Or.inl ⟨⟨none, some "v"⟩, by decide, rfl, rfl⟩)
  cases hq

/-- C4 (amended): for every series `m` whose native pairs all have a name set and have
pairwise different names, and every overlay whose names are none of them, the label pairs
of the series after `AddLabels` (`m'`, at the place of `m` in the family `f'` that is at
the place of its family `f`) are exactly the native pairs and the overlay's pairs
together, each name with its value, in ascending order of name. -/
theorem C4_addLabels_union_sorted (mfs : List dto.MetricFamily) (labels : model.LabelSet)
    (f f' : dto.MetricFamily) (hf : (f, f') ∈ mfs.zip (AddLabels mfs labels))
    (m m' : dto.Metric) (hm : (m, m') ∈ f.Metric.zip f'.Metric)
    (hnamed : ∀ p ∈ m.Label, p.Name ≠ none)
    (hnd : (m.Label.map (fun p => p.GetName)).Nodup)
    (hdisj : ∀ p ∈ m.Label, p.GetName ∉ labels.entries.map Prod.fst) :
    IsUnionSorted m.Label labels m'.Label := by
  rw [zip_AddLabels mfs labels f f' hf m m' hm]
  exact isUnionSorted_addLabelsMetric labels m hnamed hnd hdisj

theorem C4_addLabels_union_sorted_witness :
    (exFamily "dummy" [exSeries [("foo", "foo")] 1],
        exFamily "dummy" [exSeries [("bar", "bar"), ("foo", "foo")] 1]) ∈
        [exFamily "dummy" [exSeries [("foo", "foo")] 1]].zip
          (AddLabels [exFamily "dummy" [exSeries [("foo", "foo")] 1]]
            (model.LabelSet.single "bar" "bar")) ∧
      IsUnionSorted (exSeries [("foo", "foo")] 1).Label (model.LabelSet.single "bar" "bar")
        (exSeries [("bar", "bar"), ("foo", "foo")] 1).Label :=
  ⟨by decide,
    C4_addLabels_union_sorted [exFamily "dummy" [exSeries [("foo", "foo")] 1]]
      (model.LabelSet.single "bar" "bar") (exFamily "dummy" [exSeries [("foo", "foo")] 1])
      (exFamily "dummy" [exSeries [("bar", "bar"), ("foo", "foo")] 1]) (by decide)
      (exSeries [("foo", "foo")] 1) (exSeries [("bar", "bar"), ("foo", "foo")] 1) (by decide)
      (by decide) (by decide) (by decide)⟩

/-- C5 as stated fails in its last part: a native pair whose `Name` is nil is dropped, and
of two native pairs of one name the first does not keep its value. -/
theorem C5_counterexample :
    (AddLabels [exFamily "dummy" [exNameless]] model.LabelSet.make =
        [exFamily "dummy" [{ exNameless with Label := [] }]] ∧
      ¬ NativeKept exNameless.Label model.LabelSet.make []) ∧
    (AddLabels [exFamily "dummy" [exSeries [("a", "1"), ("a", "2")] 1]] model.LabelSet.make =
        [exFamily "dummy" [exSeries [("a", "2")] 1]] ∧
      ¬ NativeKept (exSeries [("a", "1"), ("a", "2")] 1).Label model.LabelSet.make
        (exSeries [("a", "2")] 1).Label) := by
  refine ⟨⟨by decide, fun h => ?_⟩, ⟨by decide, fun h => ?_⟩⟩
  · obtain ⟨q, hq, _⟩ := h ⟨none, some "v"⟩ (by decide) (by decide)
    cases hq
  · obtain ⟨q, hq, _, hv⟩ := h ⟨some "a", some "1"⟩ (by decide) (by decide)
    have hq' : q = ⟨some "a", some "2"⟩ := by simpa [exSeries] using hq
    rw [hq'] at hv
    exact absurd hv (by decide)

/-- C5 (amended): for every series `m` and every overlay, after `AddLabels` (the series is
then `m'`, at the place of `m` in the family `f'` that is at the place of its family `f`)
each name of the overlay occurs exactly once and with the overlay's value, whatever the
series held for it;
a name that is not in the overlay occurs iff a native pair with a set `Name` carries it, then
exactly once and with the value of the last such native pair; so when every native pair has
a name set and the native names are pairwise different, every native label whose name is not
in the overlay keeps its native value. -/
theorem C5_addLabels_overlay_wins (mfs : List dto.MetricFamily) (labels : model.LabelSet)
    (f f' : dto.MetricFamily) (hf : (f, f') ∈ mfs.zip (AddLabels mfs labels))
    (m m' : dto.Metric) (hm : (m, m') ∈ f.Metric.zip f'.Metric) :
    OverlayWins labels m'.Label ∧
    (∀ n, n ∉ labels.entries.map Prod.fst →
      m'.Label.filter (fun q => decide (q.GetName = n)) =
        match lastValue LabelPair.Name m.Label n with
        | some v => [⟨some n, some v⟩]
        | none => []) ∧
    ((∀ p ∈ m.Label, p.Name ≠ none) → (m.Label.map (fun p => p.GetName)).Nodup →
      NativeKept m.Label labels m'.Label) := by
  rw [zip_AddLabels mfs labels f f' hf m m' hm]
  refine ⟨overlayWins_addLabelsMetric labels m, fun n hn => ?_,
    nativeKept_addLabelsMetric labels m⟩
  rw [filter_addLabelsMetric, overlaid_of_not_mem _ _ _ hn]

theorem C5_addLabels_overlay_wins_witness :
    (exFamily "dummy" [exSeries [("foo", "old"), ("baz", "baz")] 1],
        exFamily "dummy" [exSeries [("baz", "baz"), ("foo", "new")] 1]) ∈
        [exFamily "dummy" [exSeries [("foo", "old"), ("baz", "baz")] 1]].zip
          (AddLabels [exFamily "dummy" [exSeries [("foo", "old"), ("baz", "baz")] 1]]
            (model.LabelSet.single "foo" "new")) ∧
      OverlayWins (model.LabelSet.single "foo" "new")
        (exSeries [("baz", "baz"), ("foo", "new")] 1).Label :=
  ⟨by decide,
    (C5_addLabels_overlay_wins [exFamily "dummy" [exSeries [("foo", "old"), ("baz", "baz")] 1]]
      (model.LabelSet.single "foo" "new")
      (exFamily "dummy" [exSeries [("foo", "old"), ("baz", "baz")] 1])
      (exFamily "dummy" [exSeries [("baz", "baz"), ("foo", "new")] 1]) (by decide)
      (exSeries [("foo", "old"), ("baz", "baz")] 1)
      (exSeries [("baz", "baz"), ("foo", "new")] 1) (by decide)).1⟩

/-- C6: with the option `AddIdentifierLabel a b l id1 id2` and `id1 ≠ id2`, the merge, in
whatever order it returns its families, holds one family for each name of `a` and `b`; the
series of that family are those of the families of that name in `a`, in order, each with
nothing but its labels changed and carrying `l = id1`, followed by those of `b`, each
carrying `l = id2`; so no series that comes from `a` has the label pairs of a series that
comes from `b`. -/
theorem C6_identifier_label_separates (a b r : List dto.MetricFamily) (l id1 id2 : String)
    (hne : id1 ≠ id2)
    (hr : r.Perm (MergeMetricFamily a b [AddIdentifierLabel a b l id1 id2])) :
    (∀ n, n ∈ names r ↔ n ∈ names a ∨ n ∈ names b) ∧
    (names r).Nodup ∧
    ∀ f ∈ r, ∃ sa sb, f.Metric = sa ++ sb ∧
      TaggedFrom l id1 (seriesOf f.GetName a) sa ∧
      TaggedFrom l id2 (seriesOf f.GetName b) sb ∧
      ∀ s ∈ sa, ∀ t ∈ sb, s.Label ≠ t.Label := by
  rw [MergeMetricFamily_AddIdentifierLabel] at hr
  have h := perm_MergeMetricFamily_spec _ _ r hr
  refine ⟨fun n => ?_, h.2.1, fun f hf => ?_⟩
  · rw [h.1 n, names_AddLabels, names_AddLabels]
  · refine ⟨_, _, h.2.2 f hf, ?_, ?_, ?_⟩
    · rw [seriesOf_AddLabels]; exact taggedFrom_map l id1 _
    · rw [seriesOf_AddLabels]; exact taggedFrom_map l id2 _
    · intro s hs t ht e
      rw [seriesOf_AddLabels] at hs ht
      have h1 := taggedFrom_label l id1 _ _ (taggedFrom_map l id1 _) s hs
      have h2 := taggedFrom_label l id2 _ _ (taggedFrom_map l id2 _) t ht
      rw [e, h2] at h1
      simp only [List.cons.injEq, LabelPair.mk.injEq, Option.some.injEq, true_and,
        and_true] at h1
      exact hne h1.symm

theorem C6_identifier_label_separates_witness :
    ("foo" : String) ≠ "bar" ∧
      [exFamily "dummy_gauge_metric"
          [exSeries [("cluster_name", "foo")] 2, exSeries [("cluster_name", "bar")] 2],
        exFamily "dummy_counter_metric"
          [exSeries [("cluster_name", "foo")] 1, exSeries [("cluster_name", "bar")] 1]].Perm
        (MergeMetricFamily
          [exFamily "dummy_counter_metric" [exSeries [] 1],
            exFamily "dummy_gauge_metric" [exSeries [] 2]]
          [exFamily "dummy_counter_metric" [exSeries [] 1],
            exFamily "dummy_gauge_metric" [exSeries [] 2]]
          [AddIdentifierLabel
            [exFamily "dummy_counter_metric" [exSeries [] 1],
              exFamily "dummy_gauge_metric" [exSeries [] 2]]
            [exFamily "dummy_counter_metric" [exSeries [] 1],
              exFamily "dummy_gauge_metric" [exSeries [] 2]]
            "cluster_name" "foo" "bar"]) ∧
      (names [exFamily "dummy_gauge_metric"
          [exSeries [("cluster_name", "foo")] 2, exSeries [("cluster_name", "bar")] 2],
        exFamily "dummy_counter_metric"
          [exSeries [("cluster_name", "foo")] 1, exSeries [("cluster_name", "bar")] 1]]).Nodup :=
  ⟨by decide, by decide,
    (C6_identifier_label_separates
      [exFamily "dummy_counter_metric" [exSeries [] 1],
        exFamily "dummy_gauge_metric" [exSeries [] 2]]
      [exFamily "dummy_counter_metric" [exSeries [] 1],
        exFamily "dummy_gauge_metric" [exSeries [] 2]]
      [exFamily "dummy_gauge_metric"
          [exSeries [("cluster_name", "foo")] 2, exSeries [("cluster_name", "bar")] 2],
        exFamily "dummy_counter_metric"
          [exSeries [("cluster_name", "foo")] 1, exSeries [("cluster_name", "bar")] 1]]
      "cluster_name" "foo" "bar" (by decide) (by decide)).2.1⟩

/-- C7: one refresh caches the fold of `MergeMetricFamily`, from the empty set, over exactly
the family sets among the scrape results, errors left out: this holds of the cache that
`rsyncCache` computes and of every value the cache may take when each merge returns its
families in some order. Such a cache has one family per name; a name is in it iff a
successful result has it; the series of its family named `n` are those of the families
named `n` of the successful results, in order of delivery; so every series of every
successful result is in the cache under its family name, and an error adds nothing. -/
theorem C7_refresh_folds_successes (c : Collector)
    (results : List (Except String (List dto.MetricFamily))) :
    (c.rsyncCache results).cache =
        (successes results).foldl (fun acc mfs => MergeMetricFamily acc mfs []) [] ∧
    Delivered [] results (c.rsyncCache results).cache ∧
    ∀ r, Delivered [] results r →
      MergeFold [] (successes results) r ∧
      (names r).Nodup ∧
      (∀ n, n ∈ names r ↔ ∃ mfs ∈ successes results, n ∈ names mfs) ∧
      (∀ f ∈ r, f.Metric = (successes results).flatMap (seriesOf f.GetName)) ∧
      (∀ mfs ∈ successes results, ∀ f ∈ mfs, ∀ s ∈ f.Metric,
        ∃ g ∈ r, g.GetName = f.GetName ∧ s ∈ g.Metric) := by
  have e : (c.rsyncCache results).cache =
      (successes results).foldl (fun acc mfs => MergeMetricFamily acc mfs []) [] :=
    foldl_deliver_fst c.Logger results ([], c.logged)
  refine ⟨e, ?_, fun r hr => ?_⟩
  · rw [e, delivered_iff_mergeFold]
    exact mergeFold_foldl _ _
  · have hm := (delivered_iff_mergeFold results [] r).1 hr
    obtain ⟨h1, h2, h3⟩ := mergeFold_spec _ _ _ hm (by simp [names])
    have h3' : ∀ n, seriesOf n r = (successes results).flatMap (seriesOf n) := fun n => by
      rw [h3 n]; rfl
    refine ⟨hm, h1, fun n => ?_, fun f hf => ?_, fun mfs hmfs f hf s hs => ?_⟩
    · rw [h2 n]; simp [names]
    · rw [metric_eq_seriesOf r h1 f hf, h3']
    · have : s ∈ seriesOf f.GetName r := by
        rw [h3']
        exact List.mem_flatMap.2 ⟨mfs, hmfs, (mem_seriesOf _ _ _).2 ⟨f, hf, rfl, hs⟩⟩
      obtain ⟨g, hg, hgn, hsg⟩ := (mem_seriesOf _ _ _).1 this
      exact ⟨g, hg, hgn, hsg⟩

/-- C8: folding `MergeMetricFamily` from the empty set over a list of family sets and over a
permutation of that list, each merge returning its families in some order, gives the same
family names and, for every name, families with the same series as a multiset. -/
theorem C8_fold_order_insensitive (sets sets' : List (List dto.MetricFamily))
    (hp : sets.Perm sets') (r r' : List dto.MetricFamily)
    (hr : MergeFold [] sets r) (hr' : MergeFold [] sets' r') :
    (∀ n, n ∈ names r ↔ n ∈ names r') ∧
    (∀ f ∈ r, ∃ g ∈ r', g.GetName = f.GetName ∧ f.Metric.Perm g.Metric) ∧
    (∀ g ∈ r', ∃ f ∈ r, f.GetName = g.GetName ∧ f.Metric.Perm g.Metric) := by
  obtain ⟨h1, h2, h3⟩ := mergeFold_spec _ _ _ hr (by simp [names])
  obtain ⟨h1', h2', h3'⟩ := mergeFold_spec _ _ _ hr' (by simp [names])
  have hn : ∀ n, n ∈ names r ↔ n ∈ names r' := fun n => by
    rw [h2 n, h2' n]
    simp only [names, List.map_nil, List.not_mem_nil, false_or]
    constructor
    · rintro ⟨mfs, hm, hx⟩; exact ⟨mfs, hp.subset hm, hx⟩
    · rintro ⟨mfs, hm, hx⟩; exact ⟨mfs, hp.symm.subset hm, hx⟩
  have hs : ∀ f ∈ r, ∀ g ∈ r', f.GetName = g.GetName → f.Metric.Perm g.Metric := by
    intro f hf g hg hfg
    rw [metric_eq_seriesOf r h1 f hf, metric_eq_seriesOf r' h1' g hg, h3, h3', hfg]
    exact (List.Perm.flatMap_right _ hp).append_left _
  refine ⟨hn, fun f hf => ?_, fun g hg => ?_⟩
  · obtain ⟨g, hg, hgn⟩ := List.mem_map.1 ((hn f.GetName).1 (List.mem_map_of_mem _ hf))
    exact ⟨g, hg, hgn, hs f hf g hg hgn.symm⟩
  · obtain ⟨f, hf, hfn⟩ := List.mem_map.1 ((hn g.GetName).2 (List.mem_map_of_mem _ hg))
    exact ⟨f, hf, hfn, hs f hf g hg hfn⟩

theorem C7_refresh_folds_successes_witness :
    ((Collector.mk [] true [] false []).rsyncCache
        [Except.ok [exFamily "A" [exSeries [] 1]], Except.error "boom",
          Except.ok [exFamily "A" [exSeries [] 2], exFamily "B" [exSeries [] 3]]]).cache =
      [exFamily "A" [exSeries [] 1, exSeries [] 2], exFamily "B" [exSeries [] 3]] :=
  (C7_refresh_folds_successes (Collector.mk [] true [] false [])
    [Except.ok [exFamily "A" [exSeries [] 1]], Except.error "boom",
      Except.ok [exFamily "A" [exSeries [] 2], exFamily "B" [exSeries [] 3]]]).1.trans
    (by decide)

theorem C8_fold_order_insensitive_witness :
    [[exFamily "A" [exSeries [] 1]], [exFamily "A" [exSeries [] 2]]].Perm
        [[exFamily "A" [exSeries [] 2]], [exFamily "A" [exSeries [] 1]]] ∧
      MergeFold [] [[exFamily "A" [exSeries [] 1]], [exFamily "A" [exSeries [] 2]]]
        [exFamily "A" [exSeries [] 1, exSeries [] 2]] ∧
      MergeFold [] [[exFamily "A" [exSeries [] 2]], [exFamily "A" [exSeries [] 1]]]
        [exFamily "A" [exSeries [] 2, exSeries [] 1]] ∧
      ∀ f ∈ [exFamily "A" [exSeries [] 1, exSeries [] 2]],
        ∃ g ∈ [exFamily "A" [exSeries [] 2, exSeries [] 1]],
          g.GetName = f.GetName ∧ f.Metric.Perm g.Metric :=
  ⟨List.Perm.swap _ _ _, mergeFold_foldl _ _, mergeFold_foldl _ _,
    (C8_fold_order_insensitive
      [[exFamily "A" [exSeries [] 1]], [exFamily "A" [exSeries [] 2]]]
      [[exFamily "A" [exSeries [] 2]], [exFamily "A" [exSeries [] 1]]]
      (List.Perm.swap _ _ _)
      [exFamily "A" [exSeries [] 1, exSeries [] 2]]
      [exFamily "A" [exSeries [] 2, exSeries [] 1]]
      (mergeFold_foldl _ _) (mergeFold_foldl _ _)).2.1⟩

/-- C9: for every family with at least one series, `MetricFamilyToDesc` returns a
descriptor whose name and help are those of the family and whose label names are exactly
the label names of the first series, each once, in ascending order; the series after the
first do not influence it. -/
theorem C9_desc_from_first_series (f : dto.MetricFamily) (m : dto.Metric)
    (rest : List dto.Metric) (hf : f.Metric = m :: rest) :
    ∃ desc, MetricFamilyToDesc f = Except.ok desc ∧
      desc.fqName = f.GetName ∧ desc.help = f.GetHelp ∧
      Ascending desc.variableLabels ∧
      (∀ n, n ∈ desc.variableLabels ↔ ∃ p ∈ m.Label, p.GetName = n) ∧
      ∀ later, MetricFamilyToDesc { f with Metric := m :: later } = Except.ok desc := by
  refine ⟨prometheus.NewDesc f.GetName f.GetHelp (toLabelNameSlice (newLabelSet m.GetLabel)) [],
    ?_, rfl, rfl, ascending_toLabelNameSlice _, fun n => mem_toLabelNameSlice m.Label n,
    fun later => rfl⟩
  unfold MetricFamilyToDesc
  rw [hf]

theorem C9_desc_from_first_series_witness :
    (exFamily "dummy_counter_metric"
        [exSeries [("name", "foo"), ("code", "200")] 1, exSeries [("other", "bar")] 2]).Metric =
        exSeries [("name", "foo"), ("code", "200")] 1 :: [exSeries [("other", "bar")] 2] ∧
      MetricFamilyToDesc (exFamily "dummy_counter_metric"
        [exSeries [("name", "foo"), ("code", "200")] 1, exSeries [("other", "bar")] 2]) =
        Except.ok ⟨"dummy_counter_metric", "Dummy text.", ["code", "name"], [], none⟩ ∧
      ∃ desc, MetricFamilyToDesc (exFamily "dummy_counter_metric"
          [exSeries [("name", "foo"), ("code", "200")] 1, exSeries [("other", "bar")] 2]) =
            Except.ok desc ∧
        desc.fqName = "dummy_counter_metric" ∧ Ascending desc.variableLabels :=
  ⟨rfl, rfl,
    (C9_desc_from_first_series
      (exFamily "dummy_counter_metric"
        [exSeries [("name", "foo"), ("code", "200")] 1, exSeries [("other", "bar")] 2])
      (exSeries [("name", "foo"), ("code", "200")] 1) [exSeries [("other", "bar")] 2] rfl).imp
      (fun _ h => ⟨h.1, h.2.1, h.2.2.2.1⟩)⟩

/-- C10 as stated fails where the client library refuses a sample. For the Counter family
`c` with the series `a=1` and `a=3, b=4` the descriptor has the one label name `a`, the
second series gives two label values, and `MustNewConstMetric` panics with the error of
an inconsistent label cardinality; for the Counter family whose one series has a label
pair without a name the descriptor carries the error of the label name `""` that is not
valid, and `MustNewConstMetric` panics with it. In both cases `MetricFamilyToMetrics`
returns no sample. -/
theorem C10_counterexample :
    (exFamily "c" [exSeries [("a", "1")] 7, exSeries [("a", "3"), ("b", "4")] 8]).GetType =
        MetricType_COUNTER ∧
      MetricFamilyToMetrics
          (exFamily "c" [exSeries [("a", "1")] 7, exSeries [("a", "3"), ("b", "4")] 8]) =
        Except.error (Panic.error (prometheus.Error.inconsistentCardinality 1 2)) ∧
      (¬ ∃ samples, MetricFamilyToMetrics
          (exFamily "c" [exSeries [("a", "1")] 7, exSeries [("a", "3"), ("b", "4")] 8]) =
        Except.ok samples) ∧
      (exFamily "dummy" [exNameless]).GetType = MetricType_COUNTER ∧
      MetricFamilyToDesc (exFamily "dummy" [exNameless]) =
        Except.ok ⟨"dummy", "Dummy text.", [""], [],
          some (prometheus.Error.invalidLabelName "")⟩ ∧
      MetricFamilyToMetrics (exFamily "dummy" [exNameless]) =
        Except.error (Panic.error (prometheus.Error.invalidLabelName "")) ∧
      ¬ ∃ samples, MetricFamilyToMetrics (exFamily "dummy" [exNameless]) =
        Except.ok samples := by
  refine ⟨rfl, rfl, ?_, rfl, rfl, rfl, ?_⟩
  · rintro ⟨samples, h⟩
    have e : MetricFamilyToMetrics
        (exFamily "c" [exSeries [("a", "1")] 7, exSeries [("a", "3"), ("b", "4")] 8]) =
      Except.error (Panic.error (prometheus.Error.inconsistentCardinality 1 2)) := rfl
    rw [e] at h
    cases h
  · rintro ⟨samples, h⟩
    have e : MetricFamilyToMetrics (exFamily "dummy" [exNameless]) =
      Except.error (Panic.error (prometheus.Error.invalidLabelName "")) := rfl
    rw [e] at h
    cases h

/-- C10 (amended): for every Counter, Gauge or Untyped family that the client library
takes, that is, whose descriptor carries no error and whose every series has as many
different label names as the first series, `MetricFamilyToMetrics` returns one sample per
series, in the order of the series; the sample of a series holds the family's descriptor
and the scalar value of the series, and, when the series has the same set of label names
as the first series of the family, a list of label values as long as the descriptor's list
of label names, whose entry at each position is the value the series carries for the
descriptor's name at that position. -/
theorem C10_scalar_samples (f : dto.MetricFamily)
    (ht : f.GetType = MetricType_COUNTER ∨ f.GetType = MetricType_GAUGE ∨
      f.GetType = MetricType_UNTYPED)
    (hc : Convertible f) :
    ∃ samples, MetricFamilyToMetrics f = Except.ok samples ∧
      List.Forall₂
        (fun m sample =>
          ∃ desc labelValues, MetricFamilyToDesc f = Except.ok desc ∧
            sample = prometheus.Metric.constMetric desc (valueTypeOf f.GetType)
              (scalarOf f.GetType m) labelValues ∧
            ∀ first ∈ f.Metric.head?, SameLabelNames m.Label first.Label →
              labelValues.length = desc.variableLabels.length ∧
              ∀ nv ∈ desc.variableLabels.zip labelValues,
                lastValue (fun p => some p.GetName) m.Label nv.1 = some nv.2)
        f.Metric samples := by
  have hs : Supported f.GetType := by
    rcases ht with h | h | h
    · exact Or.inl h
    · exact Or.inr (Or.inl h)
    · exact Or.inr (Or.inr (Or.inl h))
  obtain ⟨samples, hsamples⟩ := (MetricFamilyToMetrics_returns_iff f hs).2 hc
  refine ⟨samples, hsamples, ?_⟩
  refine ((MetricFamilyToMetrics_eq_ok_iff f samples).1 hsamples).imp (fun m sample hm => ?_)
  obtain ⟨desc, hdesc, hconv⟩ := hm
  rw [convertMetric_scalar _ _ _ ht, MustNewConstMetric_eq_ok_iff] at hconv
  refine ⟨desc, _, hdesc, hconv.2, fun first hfirst hsame => ?_⟩
  cases hf : f.Metric with
  | nil => rw [hf] at hfirst; cases hfirst
  | cons first' rest =>
    rw [hf] at hfirst
    simp only [List.head?_cons, Option.mem_def, Option.some.injEq] at hfirst
    subst hfirst
    rw [MetricFamilyToDesc_cons f first' rest hf] at hdesc
    rw [← Except.ok.inj hdesc]
    exact toLabelValueSlice_aligned m.Label first'.Label hsame

theorem C10_scalar_samples_witness :
    ((exFamily "c" [exSeries [("b", "1"), ("a", "2")] 7, exSeries [("a", "3"), ("b", "4")] 8]).GetType =
        MetricType_COUNTER ∨
      (exFamily "c" [exSeries [("b", "1"), ("a", "2")] 7,
        exSeries [("a", "3"), ("b", "4")] 8]).GetType = MetricType_GAUGE ∨
      (exFamily "c" [exSeries [("b", "1"), ("a", "2")] 7,
        exSeries [("a", "3"), ("b", "4")] 8]).GetType = MetricType_UNTYPED) ∧
    Convertible
      (exFamily "c" [exSeries [("b", "1"), ("a", "2")] 7, exSeries [("a", "3"), ("b", "4")] 8]) ∧
    MetricFamilyToMetrics
        (exFamily "c" [exSeries [("b", "1"), ("a", "2")] 7, exSeries [("a", "3"), ("b", "4")] 8]) =
      Except.ok
        [prometheus.Metric.constMetric ⟨"c", "Dummy text.", ["a", "b"], [], none⟩
            prometheus.ValueType.CounterValue ⟨7⟩ ["2", "1"],
          prometheus.Metric.constMetric ⟨"c", "Dummy text.", ["a", "b"], [], none⟩
            prometheus.ValueType.CounterValue ⟨8⟩ ["3", "4"]] ∧
    ∃ samples, MetricFamilyToMetrics
        (exFamily "c" [exSeries [("b", "1"), ("a", "2")] 7,
          exSeries [("a", "3"), ("b", "4")] 8]) = Except.ok samples :=
  ⟨Or.inl rfl,
    ⟨fun _ hd => by cases hd; rfl, by decide⟩, rfl,
    (C10_scalar_samples
      (exFamily "c" [exSeries [("b", "1"), ("a", "2")] 7, exSeries [("a", "3"), ("b", "4")] 8])
      (Or.inl rfl) ⟨fun _ hd => by cases hd; rfl, by decide⟩).imp (fun _ h => h.1)⟩

/-- C11: whenever the conversion of a series of a Histogram family returns a sample, the
sample has the sample count and the sample sum of the series and, when the upper bounds of
its buckets are pairwise different, a bucket map that has exactly one entry per bucket of
the series, its upper bound with its cumulative count, all values copied as they are: so
for every sample that `convertMetric` returns, and for the samples that
`MetricFamilyToMetrics` returns, one per series of the family, in order. The conversion
does return: `convertMetric` whenever the descriptor carries no error and the series has
as many different label names as the descriptor, `MetricFamilyToMetrics` whenever the
client library takes the family. -/
theorem C11_histogram_verbatim (f : dto.MetricFamily)
    (ht : f.GetType = MetricType_HISTOGRAM) :
    (∀ desc m sample, convertMetric f.GetType desc m = Except.ok sample →
      HistogramCopied m sample) ∧
    (∀ samples, MetricFamilyToMetrics f = Except.ok samples →
      List.Forall₂ HistogramCopied f.Metric samples) ∧
    (∀ (desc : prometheus.Desc) (m : dto.Metric), desc.err = none →
      (m.Label.map (fun p => p.GetName)).dedup.length = desc.variableLabels.length →
      ∃ sample, convertMetric f.GetType desc m = Except.ok sample) ∧
    (Convertible f → ∃ samples, MetricFamilyToMetrics f = Except.ok samples) := by
  have hs : Supported f.GetType := Or.inr (Or.inr (Or.inr (Or.inr ht)))
  refine ⟨fun desc m sample h => ?_, fun samples h => ?_, fun desc m hd hn => ?_,
    (MetricFamilyToMetrics_returns_iff f hs).2⟩
  · rw [ht] at h; exact histogramCopied_convert desc m sample h
  · refine ((MetricFamilyToMetrics_eq_ok_iff f samples).1 h).imp (fun m sample hm => ?_)
    obtain ⟨desc, -, hconv⟩ := hm
    rw [ht] at hconv; exact histogramCopied_convert desc m sample hconv
  · rw [convertMetric_returns_iff _ _ _ hs, checkSample_eq_none_iff, length_toLabelValueSlice]
    exact ⟨hd, hn⟩

/-- C12: whenever the conversion of a series of a Summary family returns a sample, the
sample has the sample count and the sample sum of the series and, when its quantiles are
pairwise different, a quantile map that has exactly one entry per quantile of the series,
the quantile with its value, all values copied as they are: so for every sample that
`convertMetric` returns, and for the samples that `MetricFamilyToMetrics` returns, one
per series of the family, in order. The conversion does return: `convertMetric` whenever
the descriptor carries no error and the series has as many different label names as the
descriptor, `MetricFamilyToMetrics` whenever the client library takes the family. -/
theorem C12_summary_verbatim (f : dto.MetricFamily)
    (ht : f.GetType = MetricType_SUMMARY) :
    (∀ desc m sample, convertMetric f.GetType desc m = Except.ok sample →
      SummaryCopied m sample) ∧
    (∀ samples, MetricFamilyToMetrics f = Except.ok samples →
      List.Forall₂ SummaryCopied f.Metric samples) ∧
    (∀ (desc : prometheus.Desc) (m : dto.Metric), desc.err = none →
      (m.Label.map (fun p => p.GetName)).dedup.length = desc.variableLabels.length →
      ∃ sample, convertMetric f.GetType desc m = Except.ok sample) ∧
    (Convertible f → ∃ samples, MetricFamilyToMetrics f = Except.ok samples) := by
  have hs : Supported f.GetType := Or.inr (Or.inr (Or.inr (Or.inl ht)))
  refine ⟨fun desc m sample h => ?_, fun samples h => ?_, fun desc m hd hn => ?_,
    (MetricFamilyToMetrics_returns_iff f hs).2⟩
  · rw [ht] at h; exact summaryCopied_convert desc m sample h
  · refine ((MetricFamilyToMetrics_eq_ok_iff f samples).1 h).imp (fun m sample hm => ?_)
    obtain ⟨desc, -, hconv⟩ := hm
    rw [ht] at hconv; exact summaryCopied_convert desc m sample hconv
  · rw [convertMetric_returns_iff _ _ _ hs, checkSample_eq_none_iff, length_toLabelValueSlice]
    exact ⟨hd, hn⟩

theorem C11_histogram_verbatim_witness :
    (exFamilyOf MetricType_HISTOGRAM "dummy_histogram_metric"
        [exHistogramSeries [(0x3FB999999999999A, 180), (0x3FF0000000000000, 184),
          (0x7FF0000000000000, 184)] 0x4025000000000000 184]).GetType =
        MetricType_HISTOGRAM ∧
      FloatDistinct ((dto.Histogram.GetBucket
        (exHistogramSeries [(0x3FB999999999999A, 180), (0x3FF0000000000000, 184),
          (0x7FF0000000000000, 184)] 0x4025000000000000 184).Histogram).map
        (fun b => b.GetUpperBound)) ∧
      MetricFamilyToMetrics (exFamilyOf MetricType_HISTOGRAM "dummy_histogram_metric"
        [exHistogramSeries [(0x3FB999999999999A, 180), (0x3FF0000000000000, 184),
          (0x7FF0000000000000, 184)] 0x4025000000000000 184]) =
        Except.ok [prometheus.Metric.constHistogram
          ⟨"dummy_histogram_metric", "Dummy text.", ["name"], [], none⟩ 184
          ⟨0x4025000000000000⟩
          [(⟨0x3FB999999999999A⟩, 180), (⟨0x3FF0000000000000⟩, 184),
            (⟨0x7FF0000000000000⟩, 184)] ["foo"]] ∧
      List.Forall₂ HistogramCopied
        [exHistogramSeries [(0x3FB999999999999A, 180), (0x3FF0000000000000, 184),
          (0x7FF0000000000000, 184)] 0x4025000000000000 184]
        [prometheus.Metric.constHistogram
          ⟨"dummy_histogram_metric", "Dummy text.", ["name"], [], none⟩ 184
          ⟨0x4025000000000000⟩
          [(⟨0x3FB999999999999A⟩, 180), (⟨0x3FF0000000000000⟩, 184),
            (⟨0x7FF0000000000000⟩, 184)] ["foo"]] :=
  ⟨rfl, by unfold FloatDistinct; decide, rfl,
    (C11_histogram_verbatim (exFamilyOf MetricType_HISTOGRAM "dummy_histogram_metric"
      [exHistogramSeries [(0x3FB999999999999A, 180), (0x3FF0000000000000, 184),
        (0x7FF0000000000000, 184)] 0x4025000000000000 184]) rfl).2.1 _ rfl⟩

theorem C12_summary_verbatim_witness :
    (exFamilyOf MetricType_SUMMARY "dummy_summary_metric"
        [exSummarySeries [(0, 0x3F07368F3A2C1B2C), (0x3FE0000000000000, 0x3F133C0C1FC8F323),
          (0x3FF0000000000000, 0x3F67581BA1F0A5B4)] 0x3FA59152A8B25D4A 461]).GetType =
        MetricType_SUMMARY ∧
      FloatDistinct ((dto.Summary.GetQuantile
        (exSummarySeries [(0, 0x3F07368F3A2C1B2C), (0x3FE0000000000000, 0x3F133C0C1FC8F323),
          (0x3FF0000000000000, 0x3F67581BA1F0A5B4)] 0x3FA59152A8B25D4A 461).Summary).map
        (fun q => q.GetQuantile)) ∧
      MetricFamilyToMetrics (exFamilyOf MetricType_SUMMARY "dummy_summary_metric"
        [exSummarySeries [(0, 0x3F07368F3A2C1B2C), (0x3FE0000000000000, 0x3F133C0C1FC8F323),
          (0x3FF0000000000000, 0x3F67581BA1F0A5B4)] 0x3FA59152A8B25D4A 461]) =
        Except.ok [prometheus.Metric.constSummary
          ⟨"dummy_summary_metric", "Dummy text.", [], [], none⟩ 461 ⟨0x3FA59152A8B25D4A⟩
          [(⟨0⟩, ⟨0x3F07368F3A2C1B2C⟩), (⟨0x3FE0000000000000⟩, ⟨0x3F133C0C1FC8F323⟩),
            (⟨0x3FF0000000000000⟩, ⟨0x3F67581BA1F0A5B4⟩)] []] ∧
      List.Forall₂ SummaryCopied
        [exSummarySeries [(0, 0x3F07368F3A2C1B2C), (0x3FE0000000000000, 0x3F133C0C1FC8F323),
          (0x3FF0000000000000, 0x3F67581BA1F0A5B4)] 0x3FA59152A8B25D4A 461]
        [prometheus.Metric.constSummary
          ⟨"dummy_summary_metric", "Dummy text.", [], [], none⟩ 461 ⟨0x3FA59152A8B25D4A⟩
          [(⟨0⟩, ⟨0x3F07368F3A2C1B2C⟩), (⟨0x3FE0000000000000⟩, ⟨0x3F133C0C1FC8F323⟩),
            (⟨0x3FF0000000000000⟩, ⟨0x3F67581BA1F0A5B4⟩)] []] :=
  ⟨rfl, by unfold FloatDistinct; decide, rfl,
    (C12_summary_verbatim (exFamilyOf MetricType_SUMMARY "dummy_summary_metric"
      [exSummarySeries [(0, 0x3F07368F3A2C1B2C), (0x3FE0000000000000, 0x3F133C0C1FC8F323),
        (0x3FF0000000000000, 0x3F67581BA1F0A5B4)] 0x3FA59152A8B25D4A 461]) rfl).2.1 _ rfl⟩

/-- C13: for every metric type that is none of Counter, Gauge, Untyped, Summary and
Histogram, `convertMetric` panics with "unsupported metric type" for every series, and so
does `MetricFamilyToMetrics` for every family of that type with at least one series; no
sample and no other error comes back. For each of the five types `convertMetric` never
gives that panic: it returns a sample, or it panics with the error for which the client
library refuses the sample, and it returns a sample whenever the descriptor carries no
error and the series has as many different label names as the descriptor. -/
theorem C13_unsupported_type_panics (t : dto.MetricType) :
    (¬ Supported t →
      (∀ desc m, convertMetric t desc m =
        Except.error (Panic.message "unsupported metric type")) ∧
      ∀ f : dto.MetricFamily, f.GetType = t → f.Metric ≠ [] →
        MetricFamilyToMetrics f = Except.error (Panic.message "unsupported metric type")) ∧
    (Supported t → ∀ (desc : prometheus.Desc) (m : dto.Metric),
      convertMetric t desc m ≠ Except.error (Panic.message "unsupported metric type") ∧
      ((∃ sample, convertMetric t desc m = Except.ok sample) ∨
        ∃ err, convertMetric t desc m = Except.error (Panic.error err)) ∧
      (desc.err = none →
        (m.Label.map (fun p => p.GetName)).dedup.length = desc.variableLabels.length →
        ∃ sample, convertMetric t desc m = Except.ok sample)) := by
  refine ⟨fun h => ⟨fun desc m => convertMetric_unsupported t desc m h, fun f ht hne => ?_⟩,
    fun h desc m => ⟨fun hp => ?_, convertMetric_supported t desc m h, fun hd hn => ?_⟩⟩
  · cases hf : f.Metric with
    | nil => exact absurd hf hne
    | cons first rest => exact MetricFamilyToMetrics_unsupported f first rest hf (ht ▸ h)
  · rcases convertMetric_supported t desc m h with ⟨sample, hs⟩ | ⟨err, he⟩
    · rw [hs] at hp; cases hp
    · rw [he] at hp; cases hp
  · rw [convertMetric_returns_iff _ _ _ h, checkSample_eq_none_iff, length_toLabelValueSlice]
    exact ⟨hd, hn⟩

theorem C13_unsupported_type_panics_witness :
    ¬ Supported ⟨5⟩ ∧
      MetricFamilyToMetrics (exFamilyOf ⟨5⟩ "dummy" [exSeries [] 1]) =
        Except.error (Panic.message "unsupported metric type") ∧
      Supported MetricType_GAUGE ∧
      ∃ sample, convertMetric MetricType_GAUGE ⟨"dummy", "", [], [], none⟩ (exSeries [] 1) =
        Except.ok sample :=
  ⟨by unfold Supported; decide,
    ((C13_unsupported_type_panics ⟨5⟩).1 (by unfold Supported; decide)).2
      (exFamilyOf ⟨5⟩ "dummy" [exSeries [] 1]) rfl (by decide),
    by unfold Supported; decide,
    ((C13_unsupported_type_panics MetricType_GAUGE).2 (by unfold Supported; decide)
      ⟨"dummy", "", [], [], none⟩ (exSeries [] 1)).2.2 rfl rfl⟩

/-- C14: a family of `a` or `b` whose name no other family of `a` and `b` together has is
itself a family of the result of `MergeMetricFamily a b`, in whatever order the result is
returned: with its name, help and type and with its series list in the same order. -/
theorem C14_single_family_passes_through (a b r : List dto.MetricFamily)
    (hr : r.Perm (MergeMetricFamily a b [])) (f : dto.MetricFamily) (hf : f ∈ a ++ b)
    (hu : (names (a ++ b)).count f.GetName = 1) :
    f ∈ r :=
  (mem_perm_MergeMetricFamily a b r hr f).2 (groupOf_of_count_one (a ++ b) f hf hu)

theorem C14_single_family_passes_through_witness :
    [exFamily "A" [exSeries [] 1, exSeries [] 3], exFamily "B" [exSeries [("x", "y")] 2]].Perm
        (MergeMetricFamily [exFamily "A" [exSeries [] 1], exFamily "B" [exSeries [("x", "y")] 2]]
          [exFamily "A" [exSeries [] 3]] []) ∧
      exFamily "B" [exSeries [("x", "y")] 2] ∈
        [exFamily "A" [exSeries [] 1], exFamily "B" [exSeries [("x", "y")] 2]] ++
          [exFamily "A" [exSeries [] 3]] ∧
      (names ([exFamily "A" [exSeries [] 1], exFamily "B" [exSeries [("x", "y")] 2]] ++
        [exFamily "A" [exSeries [] 3]])).count
          (exFamily "B" [exSeries [("x", "y")] 2]).GetName = 1 ∧
      exFamily "B" [exSeries [("x", "y")] 2] ∈
        [exFamily "A" [exSeries [] 1, exSeries [] 3], exFamily "B" [exSeries [("x", "y")] 2]] :=
  ⟨by decide, by decide, by decide,
    C14_single_family_passes_through
      [exFamily "A" [exSeries [] 1], exFamily "B" [exSeries [("x", "y")] 2]]
      [exFamily "A" [exSeries [] 3]]
      [exFamily "A" [exSeries [] 1, exSeries [] 3], exFamily "B" [exSeries [("x", "y")] 2]]
      (by decide) (exFamily "B" [exSeries [("x", "y")] 2]) (by decide) (by decide)⟩

/-- C15: the families of the result of `MergeMetricFamily a b`, in whatever order it is
returned, have pairwise different names, and there are as many of them as there are
different family names in `a` and `b` together, also when `a` or `b` repeats a name; so
two inputs that each hold the same two names merge into two families. -/
theorem C15_one_family_per_name (a b r : List dto.MetricFamily)
    (hr : r.Perm (MergeMetricFamily a b [])) :
    (names r).Nodup ∧
    r.length = (names (a ++ b)).dedup.length ∧
    (∀ n₁ n₂, n₁ ≠ n₂ → names a = [n₁, n₂] → names b = [n₁, n₂] → r.length = 2) := by
  refine ⟨(perm_MergeMetricFamily_spec a b r hr).2.1, length_perm_MergeMetricFamily a b r hr,
    fun n₁ n₂ hne ha hb => ?_⟩
  rw [length_perm_MergeMetricFamily a b r hr]
  have : names (a ++ b) = [n₁, n₂, n₁, n₂] := by
    simp [names] at ha hb ⊢
    simp [ha, hb]
  rw [this]
  have hne' : n₂ ≠ n₁ := fun e => hne e.symm
  simp [List.dedup_cons_of_mem, List.dedup_cons_of_not_mem, hne, hne']

theorem C15_one_family_per_name_witness :
    [exFamily "dummy_counter_metric" [exSeries [] 1, exSeries [] 1],
        exFamily "dummy_gauge_metric" [exSeries [] 2, exSeries [] 2]].Perm
        (MergeMetricFamily
          [exFamily "dummy_counter_metric" [exSeries [] 1],
            exFamily "dummy_gauge_metric" [exSeries [] 2]]
          [exFamily "dummy_counter_metric" [exSeries [] 1],
            exFamily "dummy_gauge_metric" [exSeries [] 2]] []) ∧
      [exFamily "dummy_counter_metric" [exSeries [] 1, exSeries [] 1],
        exFamily "dummy_gauge_metric" [exSeries [] 2, exSeries [] 2]].length =
        (names ([exFamily "dummy_counter_metric" [exSeries [] 1],
            exFamily "dummy_gauge_metric" [exSeries [] 2]] ++
          [exFamily "dummy_counter_metric" [exSeries [] 1],
            exFamily "dummy_gauge_metric" [exSeries [] 2]])).dedup.length :=
  ⟨by decide,
    (C15_one_family_per_name
      [exFamily "dummy_counter_metric" [exSeries [] 1],
        exFamily "dummy_gauge_metric" [exSeries [] 2]]
      [exFamily "dummy_counter_metric" [exSeries [] 1],
        exFamily "dummy_gauge_metric" [exSeries [] 2]]
      [exFamily "dummy_counter_metric" [exSeries [] 1, exSeries [] 1],
        exFamily "dummy_gauge_metric" [exSeries [] 2, exSeries [] 2]] (by decide)).2.1⟩

/-- C20: every family of the result of `MergeMetricFamily a b`, in whatever order it is
returned, has the name, the help and the type of the first family of its name met in `a`
and then in `b`, so of the first such family of `a` when `a` has one; hence when all
families of that name in `a` and `b` have one type, the merged family has that type. -/
theorem C20_header_of_first_family (a b r : List dto.MetricFamily)
    (hr : r.Perm (MergeMetricFamily a b [])) (f : dto.MetricFamily) (hf : f ∈ r) :
    ∃ g, (a ++ b).find? (fun h => decide (h.GetName = f.GetName)) = some g ∧
      f.Name = g.Name ∧ f.Help = g.Help ∧ f.Type_ = g.Type_ ∧
      (∀ g', a.find? (fun h => decide (h.GetName = f.GetName)) = some g' → g = g') ∧
      (∀ t, (∀ h ∈ a ++ b, h.GetName = f.GetName → h.GetType = t) → f.GetType = t) := by
  obtain ⟨g, hg, hfg⟩ := groupOf_eq_some _ _ _ ((mem_perm_MergeMetricFamily a b r hr f).1 hf)
  have hN : f.Name = g.Name := by rw [hfg]
  have hH : f.Help = g.Help := by rw [hfg]
  have hT : f.Type_ = g.Type_ := by rw [hfg]
  refine ⟨g, hg, hN, hH, hT, fun g' hg' => ?_, fun t ht => ?_⟩
  · rw [List.find?_append, hg'] at hg
    simpa using hg.symm
  · have hmem := List.mem_of_find?_eq_some hg
    have hname := List.find?_some hg
    simp only [decide_eq_true_eq] at hname
    have := ht g hmem hname
    rw [← this]
    simp [MetricFamily.GetType, hT]

theorem C20_header_of_first_family_witness :
    [exFamilyOf MetricType_GAUGE "A" [exSeries [] 1, exSeries [] 2]].Perm
        (MergeMetricFamily [exFamilyOf MetricType_GAUGE "A" [exSeries [] 1]]
          [exFamilyOf MetricType_COUNTER "A" [exSeries [] 2]] []) ∧
      exFamilyOf MetricType_GAUGE "A" [exSeries [] 1, exSeries [] 2] ∈
        [exFamilyOf MetricType_GAUGE "A" [exSeries [] 1, exSeries [] 2]] ∧
      ∃ g, ([exFamilyOf MetricType_GAUGE "A" [exSeries [] 1]] ++
            [exFamilyOf MetricType_COUNTER "A" [exSeries [] 2]]).find?
            (fun h => decide (h.GetName =
              (exFamilyOf MetricType_GAUGE "A" [exSeries [] 1, exSeries [] 2]).GetName)) =
            some g ∧
        (exFamilyOf MetricType_GAUGE "A" [exSeries [] 1, exSeries [] 2]).Type_ = g.Type_ :=
  ⟨by decide, by decide,
    (C20_header_of_first_family [exFamilyOf MetricType_GAUGE "A" [exSeries [] 1]]
      [exFamilyOf MetricType_COUNTER "A" [exSeries [] 2]]
      [exFamilyOf MetricType_GAUGE "A" [exSeries [] 1, exSeries [] 2]] (by decide)
      (exFamilyOf MetricType_GAUGE "A" [exSeries [] 1, exSeries [] 2]) (by decide)).imp
      (fun _ h => ⟨h.1, h.2.2.2.1⟩)⟩

/-- C16: the cache after a refresh is the same whatever the collector held before, cache
included: it is a function of the scrape results of the cycle only, in `rsyncCache` and so
in `Collect`; and when every result is an error, or there is no result at all, the cache
after the refresh is empty, whatever it held before, in every order in which the merges
may return their families. -/
theorem C16_cache_replaced_wholesale (c c' : Collector)
    (results : List (Except String (List dto.MetricFamily))) :
    (c.rsyncCache results).cache = (c'.rsyncCache results).cache ∧
    (c.Collect results).1.cache = (c'.Collect results).1.cache ∧
    ((∀ x ∈ results, ∃ err, x = Except.error err) →
      (c.rsyncCache results).cache = [] ∧ ∀ r, Delivered [] results r → r = []) ∧
    (c.rsyncCache []).cache = [] := by
  refine ⟨?_, ?_, fun h => ⟨?_, fun r hr => ?_⟩, rfl⟩
  · rw [rsyncCache_cache, rsyncCache_cache]
  · show (c.rsyncCache results).cache = (c'.rsyncCache results).cache
    rw [rsyncCache_cache, rsyncCache_cache]
  · rw [rsyncCache_cache, successes_of_all_errors results h]
    rfl
  · rw [delivered_iff_mergeFold, successes_of_all_errors results h] at hr
    cases hr
    rfl

theorem C16_cache_replaced_wholesale_witness :
    ((Collector.mk [] false [] true [exFamily "A" [exSeries [] 1]]).rsyncCache
        [Except.error "boom", Except.error "bang"]).cache = [] :=
  ((C16_cache_replaced_wholesale (Collector.mk [] false [] true [exFamily "A" [exSeries [] 1]])
    (Collector.mk [] false [] true []) [Except.error "boom", Except.error "bang"]).2.2.1
    (by
      intro x hx
      simp only [List.mem_cons, List.mem_singleton, List.not_mem_nil, or_false] at hx
      rcases hx with rfl | rfl
      · exact ⟨"boom", rfl⟩
      · exact ⟨"bang", rfl⟩)).1

/-- C17: over the state of the collector, guard and cache. `Describe` refreshes exactly
when the guard is not set, and the guard is set after it; no call unsets the guard, so it
stays set along every sequence of calls; every `Describe` that comes after a `Describe`,
whatever calls lie between, leaves the whole state as it is, cache included, and sends the
descriptors of the families of the cache as it is; every `Collect` refreshes, the guard
set or not, and sends the samples of the refreshed cache. -/
theorem C17_describe_once_collect_always (c : Collector)
    (results : List (Except String (List dto.MetricFamily))) :
    (c.once = false →
      (c.Describe results).1 = { c.rsyncCache results with once := true }) ∧
    (c.once = true → (c.Describe results).1 = c) ∧
    (c.Describe results).1.once = true ∧
    (∀ calls, c.once = true → (c.run calls).once = true) ∧
    (∀ calls results',
      (((c.Describe results).1.run calls).Describe results').1 =
          (c.Describe results).1.run calls ∧
        (((c.Describe results).1.run calls).Describe results').2 =
          sendAll (fun mf => (MetricFamilyToDesc mf).map (fun desc => [desc]))
            ((c.Describe results).1.run calls).cache) ∧
    ((c.Collect results).1 = c.rsyncCache results ∧
      (c.Collect results).1.once = c.once ∧
      (c.Collect results).1.cache =
        (successes results).foldl (fun acc mfs => MergeMetricFamily acc mfs []) [] ∧
      (c.Collect results).2 = sendAll MetricFamilyToMetrics (c.rsyncCache results).cache) := by
  refine ⟨fun h => ?_, fun h => ?_, once_Describe c results, fun calls h => once_run c calls h,
    fun calls results' => ?_, rfl, rfl, rsyncCache_cache c results, rfl⟩
  · simp [Collector.Describe, h]
  · simp [Collector.Describe, h]
  · have h := once_run _ calls (once_Describe c results)
    rw [Describe_of_once _ results' h]
    exact ⟨rfl, rfl⟩

theorem C17_describe_once_collect_always_witness :
    ((Collector.mk [] false [] false []).Describe
        [Except.ok [exFamily "A" [exSeries [("x", "1")] 1]]]).1.cache =
        [exFamily "A" [exSeries [("x", "1")] 1]] ∧
      ((((Collector.mk [] false [] false []).Describe
        [Except.ok [exFamily "A" [exSeries [("x", "1")] 1]]]).1.run []).Describe
          [Except.ok [exFamily "B" [exSeries [] 2]]]).2 =
        ⟨[⟨"A", "Dummy text.", ["x"], [], none⟩], none⟩ ∧
      ((Collector.mk [] false [] true [exFamily "A" [exSeries [("x", "1")] 1]]).Collect
        [Except.ok [exFamily "B" [exSeries [] 2]]]).1.cache = [exFamily "B" [exSeries [] 2]] :=
  ⟨rfl,
    ((C17_describe_once_collect_always (Collector.mk [] false [] false [])
      [Except.ok [exFamily "A" [exSeries [("x", "1")] 1]]]).2.2.2.2.1 []
      [Except.ok [exFamily "B" [exSeries [] 2]]]).2.trans rfl,
    rfl⟩

/-- C19: there is a Counter family with a second series whose set of label names differs
from that of the first series and has the same size, for which `MetricFamilyToMetrics`
returns a sample whose label values, paired position by position with the label names of
the descriptor, give a name of the descriptor a value that is not the value the series
carries for that name: the values stand in the order of the series' own sorted names. -/
theorem C19_misalignment_exists :
    ∃ (f : dto.MetricFamily) (first m : dto.Metric) (desc : prometheus.Desc)
      (sample₁ : prometheus.Metric) (labelValues : List String),
      f.GetType = MetricType_COUNTER ∧ f.Metric = [first, m] ∧
      ¬ SameLabelNames m.Label first.Label ∧
      ((m.Label.map (fun p => p.GetName)).dedup.length =
        (first.Label.map (fun p => p.GetName)).dedup.length) ∧
      MetricFamilyToDesc f = Except.ok desc ∧
      MetricFamilyToMetrics f = Except.ok
        [sample₁, prometheus.Metric.constMetric desc prometheus.ValueType.CounterValue
          (dto.Counter.GetValue m.Counter) labelValues] ∧
      labelValues = (toLabelNameSlice (newLabelSet m.Label)).map
        (fun n => (newLabelSet m.Label).get n) ∧
      labelValues.length = desc.variableLabels.length ∧
      ∃ nv ∈ desc.variableLabels.zip labelValues, ∃ v,
        lastValue (fun p => some p.GetName) m.Label nv.1 = some v ∧ v ≠ nv.2 := by
  refine ⟨exFamily "c" [exSeries [("a", "1"), ("b", "2")] 1, exSeries [("b", "x"), ("c", "y")] 2],
    exSeries [("a", "1"), ("b", "2")] 1, exSeries [("b", "x"), ("c", "y")] 2,
    ⟨"c", "Dummy text.", ["a", "b"], [], none⟩,
    prometheus.Metric.constMetric ⟨"c", "Dummy text.", ["a", "b"], [], none⟩
      prometheus.ValueType.CounterValue ⟨1⟩ ["1", "2"],
    ["x", "y"], rfl, rfl, ?_, by decide, rfl, rfl, rfl, rfl,
    ("b", "y"), by decide, "x", rfl, by decide⟩
  intro h
  obtain ⟨p, hp, hn⟩ := (h "c").1 ⟨⟨some "c", some "y"⟩, by decide, rfl⟩
  simp [exSeries] at hp
  rcases hp with rfl | rfl <;> simp [LabelPair.GetName] at hn

/-- C18: in every schedule of the goroutines of any number of runs of `rsyncCache`, started
at any time by calls of `Describe` and `Collect`: what a reader finds in the cache is the
cache as it was at first or the complete fold of a finished run, over all family sets that
its scrapes returned; a run that is at or past the assignment to the cache has all its
scrape goroutines returned and its fold loop ended, with `newMfs` the complete fold; and a
step that changes the cache is the assignment of such a run. So the cache never holds a
partly folded `newMfs`. -/
theorem C18_swap_after_complete_fold (cache₀ : List dto.MetricFamily) (s : System)
    (h : Reachable cache₀ s) :
    (s.cache = cache₀ ∨
      ∃ r ∈ s.refreshes, r.main = MainPc.finished ∧ CompleteFold r.results s.cache) ∧
    (∀ r ∈ s.refreshes, r.main = MainPc.locking ∨ r.main = MainPc.finished →
      (∀ t ∈ r.tasks, t = ScrapeTask.returned) ∧ r.folder = FoldPc.exited ∧
        CompleteFold r.results r.newMfs) ∧
    (∀ s', SystemStep s s' →
      s'.cache = s.cache ∨
        ∃ r ∈ s.refreshes, r.main = MainPc.locking ∧ s'.cache = r.newMfs ∧
          (∀ t ∈ r.tasks, t = ScrapeTask.returned) ∧ r.folder = FoldPc.exited ∧
          CompleteFold r.results r.newMfs) := by
  have hinv := systemInv_reachable cache₀ s h
  exact ⟨hinv.cache, fun r hr hm => refreshInv_complete r (hinv.runs r hr) hm,
    fun s' hs => cache_step cache₀ s s' hinv hs⟩

theorem C18_swap_after_complete_fold_witness :
    Reachable [exFamily "old" [exSeries [] 0]]
        { cache := [exFamily "A" [exSeries [] 1]], refreshes := [exFinishedRun] } ∧
      (([exFamily "A" [exSeries [] 1]] : List dto.MetricFamily) =
          [exFamily "old" [exSeries [] 0]] ∨
        ∃ r ∈ [exFinishedRun], r.main = MainPc.finished ∧
          CompleteFold r.results [exFamily "A" [exSeries [] 1]]) := by
  have h0 : Reachable [exFamily "old" [exSeries [] 0]]
      { cache := [exFamily "old" [exSeries [] 0]], refreshes := [] } := Reachable.init
  have h1 := Reachable.step _ _ h0 (SystemStep.started _
    [Except.ok [exFamily "A" [exSeries [] 1]], Except.error "boom"])
  have h2 := Reachable.step _ _ h1 (SystemStep.stepped _ [] [] _ _ rfl
    (RefreshStep.scraped _ [] [ScrapeTask.scraping (Except.error "boom")]
      (Except.ok [exFamily "A" [exSeries [] 1]]) rfl))
  have h3 := Reachable.step _ _ h2 (SystemStep.stepped _ [] [] _ _ rfl
    (RefreshStep.sentMfs _ [] [ScrapeTask.scraping (Except.error "boom")]
      [exFamily "A" [exSeries [] 1]] rfl rfl rfl))
  have h4 := Reachable.step _ _ h3 (SystemStep.stepped _ [] [] _ _ rfl
    (RefreshStep.merged _ [exFamily "A" [exSeries [] 1]] [exFamily "A" [exSeries [] 1]] rfl
      (by decide)))
  have h5 := Reachable.step _ _ h4 (SystemStep.stepped _ [] [] _ _ rfl
    (RefreshStep.scraped _ [ScrapeTask.returned] [] (Except.error "boom") rfl))
  have h6 := Reachable.step _ _ h5 (SystemStep.stepped _ [] [] _ _ rfl
    (RefreshStep.sentErr _ [ScrapeTask.returned] [] "boom" rfl rfl rfl))
  have h7 := Reachable.step _ _ h6 (SystemStep.stepped _ [] [] _ _ rfl
    (RefreshStep.logged _ "boom" rfl))
  have h8 := Reachable.step _ _ h7 (SystemStep.stepped _ [] [] _ _ rfl
    (RefreshStep.waited _ rfl (by
      intro t ht
      simp only [List.nil_append, List.cons_append, List.mem_cons, List.mem_singleton,
        List.not_mem_nil, or_false] at ht
      rcases ht with rfl | rfl <;> rfl)))
  have h9 := Reachable.step _ _ h8 (SystemStep.stepped _ [] [] _ _ rfl
    (RefreshStep.closedMfs _ rfl))
  have h10 := Reachable.step _ _ h9 (SystemStep.stepped _ [] [] _ _ rfl
    (RefreshStep.closedErr _ rfl))
  have h11 := Reachable.step _ _ h10 (SystemStep.stepped _ [] [] _ _ rfl
    (RefreshStep.foldExited _ rfl rfl))
  have h12 := Reachable.step _ _ h11 (SystemStep.stepped _ [] [] _ _ rfl
    (RefreshStep.doneReceived _ rfl rfl))
  have h13 : Reachable [exFamily "old" [exSeries [] 0]]
      { cache := [exFamily "A" [exSeries [] 1]], refreshes := [exFinishedRun] } :=
    Reachable.step _ _ h12 (SystemStep.swapped _ [] [] _ rfl rfl)
  exact ⟨h13, (C18_swap_after_complete_fold _ _ h13).1⟩

/-- C21: for every family set and every overlay, the set after `AddLabels` has the same
families, one by one and in order, each with its name, help and type and with the same
series, one by one and in order, each series with its payloads as they were; so there are
as many families, and in each as many series, as before. -/
theorem C21_addLabels_changes_labels_only (mfs : List dto.MetricFamily)
    (labels : model.LabelSet) :
    List.Forall₂ SameButLabels mfs (AddLabels mfs labels) ∧
    (AddLabels mfs labels).length = mfs.length ∧
    (∀ f f', (f, f') ∈ mfs.zip (AddLabels mfs labels) →
      f'.Metric.length = f.Metric.length) := by
  have h := sameButLabels_AddLabels mfs labels
  refine ⟨h, h.length_eq.symm, fun f f' hf => ?_⟩
  have e := (mem_zip_map_self _ mfs f f' hf).2
  rw [e]
  simp

theorem C21_addLabels_changes_labels_only_witness :
    AddLabels
        [exFamily "A" [exSeries [("x", "1")] 1, exSeries [("x", "1")] 1],
          exFamilyOf MetricType_HISTOGRAM "H" [exHistogramSeries [(0, 1)] 0 1]]
        (model.LabelSet.single "cluster" "foo") =
      [exFamily "A" [exSeries [("cluster", "foo"), ("x", "1")] 1,
          exSeries [("cluster", "foo"), ("x", "1")] 1],
        exFamilyOf MetricType_HISTOGRAM "H"
          [{ exHistogramSeries [(0, 1)] 0 1 with
            Label := [⟨some "cluster", some "foo"⟩, ⟨some "name", some "foo"⟩] }]] ∧
      (AddLabels
        [exFamily "A" [exSeries [("x", "1")] 1, exSeries [("x", "1")] 1],
          exFamilyOf MetricType_HISTOGRAM "H" [exHistogramSeries [(0, 1)] 0 1]]
        (model.LabelSet.single "cluster" "foo")).length = 2 :=
  ⟨by decide,
    (C21_addLabels_changes_labels_only
      [exFamily "A" [exSeries [("x", "1")] 1, exSeries [("x", "1")] 1],
        exFamilyOf MetricType_HISTOGRAM "H" [exHistogramSeries [(0, 1)] 0 1]]
      (model.LabelSet.single "cluster" "foo")).2.1⟩

/-- C22: for every family set and every overlay, `AddLabels` with that overlay applied
twice gives the same set as applied once: on every series the same label pairs, with the
same names and values in the same order, and nothing else changed. -/
theorem C22_addLabels_idempotent (mfs : List dto.MetricFamily) (labels : model.LabelSet) :
    AddLabels (AddLabels mfs labels) labels = AddLabels mfs labels ∧
    ∀ f₁ f₂, (f₁, f₂) ∈ (AddLabels mfs labels).zip (AddLabels (AddLabels mfs labels) labels) →
      ∀ m₁ m₂, (m₁, m₂) ∈ f₁.Metric.zip f₂.Metric → m₂.Label = m₁.Label := by
  have h : AddLabels (AddLabels mfs labels) labels = AddLabels mfs labels := by
    unfold AddLabels
    rw [List.map_map]
    apply List.map_congr_left
    intro f _
    simp only [Function.comp, List.map_map]
    congr 1
    apply List.map_congr_left
    intro m _
    exact addLabelsMetric_idem labels m
  refine ⟨h, fun f₁ f₂ hf m₁ m₂ hm => ?_⟩
  have e := zip_AddLabels (AddLabels mfs labels) labels f₁ f₂ hf m₁ m₂ hm
  have hf₁ : f₁ ∈ AddLabels mfs labels := (List.of_mem_zip hf).1
  have hm₁ : m₁ ∈ f₁.Metric := (List.of_mem_zip hm).1
  unfold AddLabels at hf₁
  obtain ⟨g, _, rfl⟩ := List.mem_map.1 hf₁
  obtain ⟨m, _, rfl⟩ := List.mem_map.1 hm₁
  rw [e, addLabelsMetric_idem]

theorem C22_addLabels_idempotent_witness :
    AddLabels (AddLabels [exFamily "dummy" [exSeries [("foo", "old"), ("baz", "baz")] 1]]
        (model.LabelSet.single "foo" "new")) (model.LabelSet.single "foo" "new") =
      [exFamily "dummy" [exSeries [("baz", "baz"), ("foo", "new")] 1]] :=
  (C22_addLabels_idempotent [exFamily "dummy" [exSeries [("foo", "old"), ("baz", "baz")] 1]]
    (model.LabelSet.single "foo" "new")).1.trans (by decide)

/-- C23: `MetricFamilyToDesc` returns a descriptor for every family with at least one
series and panics, with an index out of range, exactly for a family with no series, and
with no other panic; `MetricFamilyToMetrics` on a family with no series returns the empty
list and does not panic. -/
theorem C23_desc_needs_a_series (f : dto.MetricFamily) :
    (f.Metric ≠ [] → ∃ desc, MetricFamilyToDesc f = Except.ok desc) ∧
    (MetricFamilyToDesc f = Except.error Panic.indexOutOfRange ↔ f.Metric = []) ∧
    (∀ p, MetricFamilyToDesc f = Except.error p → p = Panic.indexOutOfRange ∧ f.Metric = []) ∧
    (f.Metric = [] → MetricFamilyToMetrics f = Except.ok []) := by
  cases hf : f.Metric with
  | nil =>
    have e : MetricFamilyToDesc f = Except.error Panic.indexOutOfRange := by
      unfold MetricFamilyToDesc; rw [hf]
    refine ⟨fun h => absurd rfl h, ⟨fun _ => rfl, fun _ => e⟩, fun p hp => ?_,
      fun _ => MetricFamilyToMetrics_nil f hf⟩
    rw [e] at hp
    exact ⟨(Except.error.inj hp).symm, rfl⟩
  | cons first rest =>
    have e := MetricFamilyToDesc_cons f first rest hf
    refine ⟨fun _ => ⟨_, e⟩, ⟨fun h => ?_, fun h => by cases h⟩, fun p hp => ?_,
      fun h => by cases h⟩
    · rw [e] at h; cases h
    · rw [e] at hp; cases hp

theorem C23_desc_needs_a_series_witness :
    MetricFamilyToDesc (exFamily "empty" []) = Except.error Panic.indexOutOfRange ∧
      MetricFamilyToMetrics (exFamily "empty" []) = Except.ok [] ∧
      MetricFamilyToDesc (exFamily "one" [exSeries [("name", "foo")] 1]) =
        Except.ok ⟨"one", "Dummy text.", ["name"], [], none⟩ :=
  ⟨(C23_desc_needs_a_series (exFamily "empty" [])).2.1.2 rfl,
    (C23_desc_needs_a_series (exFamily "empty" [])).2.2.2 rfl, rfl⟩

end Promaggr
